import Mathlib

/-!
# MacroAssemblerARMv7: a shallow embedding

The macro assembler of `MacroAssemblerARMv7.h` is embedded as functions that
append instructions to an assembler buffer.  The instructions are a datatype
with one constructor per `m_assembler` method the embedded operations call, and
a small Thumb-2 machine gives them their architectural meaning, so that the
effect of an emitted sequence can be stated and proved.

Machine words are natural numbers reduced modulo `2 ^ 32`; the C++ `int32_t`
values (`TrustedImm32::m_value`, address offsets) are integers.
-/

/-! ## The cache of text break iterators (`wtf/text/TextBreakIterator.h`) -/

namespace WTF

/-- The modes of a text break iterator (`TextBreakIterator::Mode`). -/
inductive TextBreakIterator.Mode where
  | Line | Caret | Delete
  deriving DecidableEq, Repr

/-- Modelled from the spec: a text break iterator as far as the cache observes it:
the text it was last set to, its mode and its locale (`AtomString`, by content).
The backing ICU or platform iterator is declared outside the sources and is not
represented. -/
structure TextBreakIterator where
  m_text : String
  m_mode : TextBreakIterator.Mode
  m_locale : String
  deriving DecidableEq, Repr

/-- The method `setText`. -/
def TextBreakIterator.setText (iterator : TextBreakIterator) (string : String) :
    TextBreakIterator :=
  { iterator with m_text := string }

/-- The cache: the vector `m_unused` of iterators not in use. -/
structure TextBreakIteratorCache where
  m_unused : List TextBreakIterator
  deriving DecidableEq, Repr

namespace TextBreakIteratorCache

/-- The constant `capacity`. -/
def capacity : Nat := 2

/-- The constructor: nothing cached. -/
def empty : TextBreakIteratorCache := ⟨[]⟩

/-- The method `take`: the first cached iterator of the given mode and locale is
removed from the cache and returned with its text set; when there is none a new
iterator is made and the cache is left alone. -/
def take (cache : TextBreakIteratorCache) (string : String) (mode : TextBreakIterator.Mode)
    (locale : String) : TextBreakIterator × TextBreakIteratorCache :=
  let matching := fun (candidate : TextBreakIterator) =>
    candidate.m_mode == mode && candidate.m_locale == locale
  match cache.m_unused.find? matching with
  | none => (⟨string, mode, locale⟩, cache)
  | some result =>
    (result.setText string, ⟨cache.m_unused.eraseIdx (cache.m_unused.findIdx matching)⟩)

/-- The method `put`. -/
def put (cache : TextBreakIteratorCache) (iterator : TextBreakIterator) :
    TextBreakIteratorCache :=
  let unused := cache.m_unused ++ [iterator]
  if unused.length > capacity then ⟨unused.eraseIdx 0⟩ else ⟨unused⟩

/-- One use of the cache by a client: a `take` with its arguments or a `put` of an
iterator. -/
inductive Operation where
  | take (string : String) (mode : TextBreakIterator.Mode) (locale : String)
  | put (iterator : TextBreakIterator)
  deriving DecidableEq, Repr

/-- The cache after one operation. -/
def perform (cache : TextBreakIteratorCache) : Operation → TextBreakIteratorCache
  | .take string mode locale => (cache.take string mode locale).2
  | .put iterator => cache.put iterator

/-- The cache after a sequence of operations, first to last. -/
def performAll (cache : TextBreakIteratorCache) (ops : List Operation) :
    TextBreakIteratorCache :=
  ops.foldl perform cache

end TextBreakIteratorCache

end WTF

namespace JSC

/-! ## Registers -/

/-- Modelled from the spec: the register enumeration is declared in a header that
is not among the sources; these are the sixteen ARM core registers, of which the
spec reserves the stack pointer, frame pointer, link register and two scratch
registers. -/
inductive RegisterID where
  | r0 | r1 | r2 | r3 | r4 | r5 | r6 | r7
  | r8 | r9 | r10 | r11 | r12 | r13 | r14 | r15
  deriving DecidableEq, Repr

/-- The number of a core register (the value of the enumerator). -/
def RegisterID.toNat : RegisterID → Nat
  | .r0 => 0 | .r1 => 1 | .r2 => 2 | .r3 => 3 | .r4 => 4 | .r5 => 5 | .r6 => 6 | .r7 => 7
  | .r8 => 8 | .r9 => 9 | .r10 => 10 | .r11 => 11 | .r12 => 12 | .r13 => 13 | .r14 => 14
  | .r15 => 15

namespace ARMRegisters

/-- Frame pointer alias. -/
abbrev fp : RegisterID := .r7
/-- Intra-procedure scratch register alias. -/
abbrev ip : RegisterID := .r12
/-- Stack pointer alias. -/
abbrev sp : RegisterID := .r13
/-- Link register alias. -/
abbrev lr : RegisterID := .r14
/-- Program counter alias. -/
abbrev pc : RegisterID := .r15

end ARMRegisters

/-- Modelled from the spec: floating-point registers are an opaque enumeration
declared outside the sources; double-precision registers are given by number. -/
abbrev FPDoubleRegisterID := Nat

/-- Single-precision VFP registers, by number; `s(2n)` and `s(2n+1)` overlay `d(n)`. -/
abbrev FPSingleRegisterID := Nat

/-- The macro assembler's floating-point register type. -/
abbrev FPRegisterID := FPDoubleRegisterID

/-- Modelled from the spec: `ARMRegisters::asSingle` is declared outside the
sources; it names the single register that overlays the low half of a double
register. -/
def ARMRegisters.asSingle (reg : FPDoubleRegisterID) : FPSingleRegisterID := reg <<< 1

/-! ## Machine integers -/

/-- The bit pattern of a C++ `int32_t` (or of any integer) as a `uint32_t`. -/
def toUInt32 (i : Int) : Nat := (i % 4294967296).toNat

/-- The `int32_t` a 32-bit pattern denotes (two's complement). -/
def toInt32 (n : Nat) : Int :=
  if n % 4294967296 < 2147483648 then ((n % 4294967296 : Nat) : Int)
  else ((n % 4294967296 : Nat) : Int) - 4294967296

/-- Conversion of an integer to `int32_t` with wrap-around. -/
def wrapInt32 (i : Int) : Int := toInt32 (toUInt32 i)

/-- The values an `int32_t` can hold. -/
def isInt32 (i : Int) : Prop := -2147483648 ≤ i ∧ i ≤ 2147483647

instance (i : Int) : Decidable (isInt32 i) := by unfold isInt32; infer_instance

/-! ## Operands -/

/-- Modelled from the spec: `TrustedImm32` is declared in `AbstractMacroAssembler.h`
(not among the sources); it carries an `int32_t` in `m_value`. -/
structure TrustedImm32 where
  m_value : Int
  deriving DecidableEq, Repr

/-- Modelled from the spec: `TrustedImmPtr` is declared in `AbstractMacroAssembler.h`
(not among the sources); on this 32-bit target the pointer is carried as the
`intptr_t` that `TrustedImm32(TrustedImmPtr)` reads. -/
structure TrustedImmPtr where
  m_value : Int
  deriving DecidableEq, Repr

/-- Modelled from the spec: the conversion `TrustedImm32(TrustedImmPtr)`. -/
def TrustedImmPtr.toImm32 (p : TrustedImmPtr) : TrustedImm32 := ⟨p.m_value⟩

/-- Modelled from the spec: the power-of-two scale factor of an indexed address
(0..3, meaning x1, x2, x4, x8); the enumerator value is the shift amount. -/
inductive Scale where
  | TimesOne | TimesTwo | TimesFour | TimesEight
  deriving DecidableEq, Repr

/-- The shift amount a scale stands for (`static_cast<int>(scale)`). -/
def Scale.toNat : Scale → Nat
  | .TimesOne => 0
  | .TimesTwo => 1
  | .TimesFour => 2
  | .TimesEight => 3

/-- Modelled from the spec: `Address` is a base register plus a signed byte
offset. -/
structure Address where
  base : RegisterID
  offset : Int
  deriving DecidableEq, Repr

/-- Modelled from the spec: `Address::withOffset` is declared in
`AbstractMacroAssembler.h` (not among the sources); the same base with the offset
advanced by the given amount. -/
def Address.withOffset (address : Address) (additionalOffset : Int) : Address :=
  ⟨address.base, address.offset + additionalOffset⟩

/-- Modelled from the spec: `AbsoluteAddress` is declared in
`AbstractMacroAssembler.h` (not among the sources); it carries the pointer
`m_ptr`, here as the `intptr_t` it is read as. -/
structure AbsoluteAddress where
  m_ptr : Int
  deriving DecidableEq, Repr

/-- Modelled from the spec: `BaseIndex` is a base register, an index register, a
scale and a constant byte offset. -/
structure BaseIndex where
  base : RegisterID
  index : RegisterID
  scale : Scale
  offset : Int
  deriving DecidableEq, Repr

/-- The tag of an `ArmAddress`. -/
inductive ArmAddress.AddressType where
  | HasOffset | HasIndex
  deriving DecidableEq, Repr

/-- The canonical hardware address form.  The C++ union is flattened: `offset`
is meaningful for `HasOffset`, `index` and `scale` for `HasIndex`. -/
inductive ArmAddress where
  | hasOffset (base : RegisterID) (offset : Int)
  | hasIndex (base : RegisterID) (index : RegisterID) (scale : Scale)
  deriving DecidableEq, Repr

/-- The `type` field of an `ArmAddress`. -/
def ArmAddress.type : ArmAddress → ArmAddress.AddressType
  | .hasOffset _ _ => .HasOffset
  | .hasIndex _ _ _ => .HasIndex

/-- The `base` field of an `ArmAddress`. -/
def ArmAddress.base : ArmAddress → RegisterID
  | .hasOffset b _ => b
  | .hasIndex b _ _ => b

/-! ## Thumb-2 immediates -/

/-- The kinds of `ARMThumbImmediate`. -/
inductive ThumbImmediateType where
  | TypeInvalid | TypeEncoded | TypeUInt16
  deriving DecidableEq, Repr

/-- Modelled from the spec: `ARMThumbImmediate` is declared in `ARMv7Assembler.h`,
which is not among the sources.  The spec treats the bit-level encoder as an
external collaborator that exposes immediate-legality predicates; an immediate is
therefore its kind together with the 32-bit value the instruction will operate
on, and the bit layout of the encoded form is not represented. -/
structure ARMThumbImmediate where
  type : ThumbImmediateType
  value : Nat
  deriving DecidableEq, Repr

namespace ARMThumbImmediate

/-- The invalid immediate (default constructor). -/
def invalid : ARMThumbImmediate := ⟨.TypeInvalid, 0⟩

/-- An immediate is valid unless it is of the invalid kind. -/
def isValid (imm : ARMThumbImmediate) : Bool := imm.type != .TypeInvalid

/-- Whether the immediate is a Thumb-2 modified ("encoded") immediate. -/
def isEncodedImm (imm : ARMThumbImmediate) : Bool := imm.type == .TypeEncoded

/-- Whether the immediate is a plain unsigned value of at most 12 bits. -/
def isUInt12 (imm : ARMThumbImmediate) : Bool :=
  imm.type == .TypeUInt16 && imm.value < 4096

/-- Modelled from the spec: `isUInt3` holds of an immediate with no bit set above
the low three. -/
def isUInt3 (imm : ARMThumbImmediate) : Bool := imm.isValid && imm.value < 8

/-- Modelled from the spec: `makeEncodedImm` returns the encoded immediate for a
32-bit value when the legality predicate `encodable` accepts it, and the invalid
immediate otherwise.  The predicate is a parameter of the development. -/
def makeEncodedImm (encodable : Nat → Bool) (value : Nat) : ARMThumbImmediate :=
  if encodable value then ⟨.TypeEncoded, value⟩ else invalid

/-- Modelled from the spec: `makeUInt12(int32_t)` is valid exactly for values
with no bit set above the low twelve. -/
def makeUInt12 (value : Int) : ARMThumbImmediate :=
  if 0 ≤ value ∧ value < 4096 then ⟨.TypeUInt16, value.toNat⟩ else invalid

/-- Modelled from the spec: `makeUInt12OrEncodedImm(int32_t)` is the 12-bit
unsigned form when that fits and the encoded form of the value otherwise. -/
def makeUInt12OrEncodedImm (encodable : Nat → Bool) (value : Int) : ARMThumbImmediate :=
  if 0 ≤ value ∧ value < 4096 then ⟨.TypeUInt16, value.toNat⟩
  else makeEncodedImm encodable (toUInt32 value)

/-- Modelled from the spec: `makeUInt16(uint16_t)`; the argument is truncated to
sixteen bits by the parameter type. -/
def makeUInt16 (value : Nat) : ARMThumbImmediate := ⟨.TypeUInt16, value % 65536⟩

end ARMThumbImmediate

/-- Modelled from the spec: the values accepted as Thumb-2 modified immediates by
the real encoder (an 8-bit value, a byte replicated as `0x00XY00XY`, `0xXY00XY00`
or `0xXYXYXYXY`, or eight significant bits shifted left).  Used to instantiate
the legality predicate at concrete inputs. -/
def thumb2Encodable (v : Nat) : Bool :=
  v < 256
  || (List.range 24).any (fun k =>
        128 ≤ v >>> (k + 1) && v >>> (k + 1) < 256 && (v >>> (k + 1)) <<< (k + 1) == v)
  || (v < 4294967296 && v % 256 == (v >>> 8) % 256 && v % 256 == (v >>> 16) % 256
        && v % 256 == (v >>> 24) % 256)
  || (v < 4294967296 && v % 256 == (v >>> 16) % 256 && (v >>> 8) % 256 == 0
        && (v >>> 24) % 256 == 0)
  || (v < 4294967296 && (v >>> 8) % 256 == (v >>> 24) % 256 && v % 256 == 0
        && (v >>> 16) % 256 == 0)

/-! ## Conditions -/

/-- Modelled from the spec: the condition codes are declared in `ARMv7Assembler.h`
(not among the sources); these are the ARM condition codes in encoding order. -/
inductive Condition where
  | ConditionEQ | ConditionNE | ConditionHS | ConditionLO
  | ConditionMI | ConditionPL | ConditionVS | ConditionVC
  | ConditionHI | ConditionLS | ConditionGE | ConditionLT
  | ConditionGT | ConditionLE | ConditionAL | ConditionInvalid
  deriving DecidableEq, Repr

/-- Relational conditions of the macro assembler. -/
inductive RelationalCondition where
  | Equal | NotEqual | Above | AboveOrEqual | Below | BelowOrEqual
  | GreaterThan | GreaterThanOrEqual | LessThan | LessThanOrEqual
  deriving DecidableEq, Repr

/-- Result conditions of the macro assembler. -/
inductive ResultCondition where
  | Overflow | Signed | PositiveOrZero | Zero | NonZero
  deriving DecidableEq, Repr

/-- Floating-point conditions of the macro assembler. -/
inductive DoubleCondition where
  | DoubleEqualAndOrdered | DoubleNotEqualAndOrdered | DoubleGreaterThanAndOrdered
  | DoubleGreaterThanOrEqualAndOrdered | DoubleLessThanAndOrdered
  | DoubleLessThanOrEqualAndOrdered
  | DoubleEqualOrUnordered | DoubleNotEqualOrUnordered | DoubleGreaterThanOrUnordered
  | DoubleGreaterThanOrEqualOrUnordered | DoubleLessThanOrUnordered
  | DoubleLessThanOrEqualOrUnordered
  deriving DecidableEq, Repr

/-- The hardware condition a relational condition is defined as
(`armV7Condition(RelationalCondition)`). -/
def RelationalCondition.armV7Condition : RelationalCondition → Condition
  | .Equal => .ConditionEQ
  | .NotEqual => .ConditionNE
  | .Above => .ConditionHI
  | .AboveOrEqual => .ConditionHS
  | .Below => .ConditionLO
  | .BelowOrEqual => .ConditionLS
  | .GreaterThan => .ConditionGT
  | .GreaterThanOrEqual => .ConditionGE
  | .LessThan => .ConditionLT
  | .LessThanOrEqual => .ConditionLE

/-- The hardware condition a result condition is defined as
(`armV7Condition(ResultCondition)`). -/
def ResultCondition.armV7Condition : ResultCondition → Condition
  | .Overflow => .ConditionVS
  | .Signed => .ConditionMI
  | .PositiveOrZero => .ConditionPL
  | .Zero => .ConditionEQ
  | .NonZero => .ConditionNE

/-- The hardware condition a double condition is defined as
(`armV7Condition(DoubleCondition)`). -/
def DoubleCondition.armV7Condition : DoubleCondition → Condition
  | .DoubleEqualAndOrdered => .ConditionEQ
  | .DoubleNotEqualAndOrdered => .ConditionVC
  | .DoubleGreaterThanAndOrdered => .ConditionGT
  | .DoubleGreaterThanOrEqualAndOrdered => .ConditionGE
  | .DoubleLessThanAndOrdered => .ConditionLO
  | .DoubleLessThanOrEqualAndOrdered => .ConditionLS
  | .DoubleEqualOrUnordered => .ConditionVS
  | .DoubleNotEqualOrUnordered => .ConditionNE
  | .DoubleGreaterThanOrUnordered => .ConditionHI
  | .DoubleGreaterThanOrEqualOrUnordered => .ConditionHS
  | .DoubleLessThanOrUnordered => .ConditionLT
  | .DoubleLessThanOrEqualOrUnordered => .ConditionLE

/-- Modelled from the spec: the value of each condition code, its position in the
enumeration of `ARMv7Assembler.h` (the four-bit condition field of the
architecture). -/
def Condition.toNat : Condition → Nat
  | .ConditionEQ => 0 | .ConditionNE => 1 | .ConditionHS => 2 | .ConditionLO => 3
  | .ConditionMI => 4 | .ConditionPL => 5 | .ConditionVS => 6 | .ConditionVC => 7
  | .ConditionHI => 8 | .ConditionLS => 9 | .ConditionGE => 10 | .ConditionLT => 11
  | .ConditionGT => 12 | .ConditionLE => 13 | .ConditionAL => 14 | .ConditionInvalid => 15

/-- The value of a relational condition: each enumerator is defined as a
hardware condition code. -/
def RelationalCondition.toNat (cond : RelationalCondition) : Nat := cond.armV7Condition.toNat

/-- The relational condition with a given value, if one of the ten enumerators has
it (`static_cast<RelationalCondition>`). -/
def RelationalCondition.ofNat? : Nat → Option RelationalCondition
  | 0 => some .Equal
  | 1 => some .NotEqual
  | 2 => some .AboveOrEqual
  | 3 => some .Below
  | 8 => some .Above
  | 9 => some .BelowOrEqual
  | 10 => some .GreaterThanOrEqual
  | 11 => some .LessThan
  | 12 => some .GreaterThan
  | 13 => some .LessThanOrEqual
  | _ => none

/-! ## Instructions and the assembler buffer -/

/-- A position in the instruction buffer (`AssemblerLabel`), counted in
instructions: the label taken after the `n`-th emitted instruction is `n`. -/
abbrev AssemblerLabel := Nat

set_option maxHeartbeats 1000000 in
/-- The instructions the embedded operations emit, one constructor per
`m_assembler` method (overloads are told apart by a suffix). -/
inductive Instr where
  /-- The method `mov(rd, ARMThumbImmediate)`. -/
  | mov (rd : RegisterID) (imm : ARMThumbImmediate)
  /-- The method `mov(rd, rm)`. -/
  | movReg (rd rm : RegisterID)
  /-- The method `mvn(rd, ARMThumbImmediate)`. -/
  | mvn (rd : RegisterID) (imm : ARMThumbImmediate)
  /-- The method `movT3(rd, imm16)`. -/
  | movT3 (rd : RegisterID) (imm : ARMThumbImmediate)
  /-- The method `movt(rd, imm16)`. -/
  | movt (rd : RegisterID) (imm : ARMThumbImmediate)
  /-- The method `add(rd, rn, ARMThumbImmediate)`. -/
  | add (rd rn : RegisterID) (imm : ARMThumbImmediate)
  /-- The method `add(rd, rn, rm)`. -/
  | addReg (rd rn rm : RegisterID)
  /-- The method `sub(rd, rn, ARMThumbImmediate)`. -/
  | sub (rd rn : RegisterID) (imm : ARMThumbImmediate)
  /-- The method `smull(rdLo, rdHi, rn, rm)`. -/
  | smull (rdLo rdHi rn rm : RegisterID)
  /-- The method `asr(rd, rm, shiftAmount)`. -/
  | asr (rd rm : RegisterID) (shiftAmount : Nat)
  /-- The method `cmp(rn, rm)`. -/
  | cmp (rn rm : RegisterID)
  /-- The method `tst(rn, rm)`. -/
  | tstReg (rn rm : RegisterID)
  /-- The method `tst(rn, ARMThumbImmediate)`. -/
  | tst (rn : RegisterID) (imm : ARMThumbImmediate)
  /-- The method `cmp(rn, ARMThumbImmediate)`. -/
  | cmpImm (rn : RegisterID) (imm : ARMThumbImmediate)
  /-- The method `cmn(rn, ARMThumbImmediate)`. -/
  | cmn (rn : RegisterID) (imm : ARMThumbImmediate)
  /-- The method `add_S(rd, rn, ARMThumbImmediate)`. -/
  | add_S (rd rn : RegisterID) (imm : ARMThumbImmediate)
  /-- The method `sub(rd, rn, rm)`. -/
  | subReg (rd rn rm : RegisterID)
  /-- The method `ARM_and(rd, rn, ARMThumbImmediate)`. -/
  | ARM_and (rd rn : RegisterID) (imm : ARMThumbImmediate)
  /-- The method `lsl(rd, rm, shiftAmount)`. -/
  | lsl (rd rm : RegisterID) (shiftAmount : Nat)
  /-- The method `lsl(rd, rn, rm)`. -/
  | lslReg (rd rn rm : RegisterID)
  /-- The method `asr(rd, rn, rm)`. -/
  | asrReg (rd rn rm : RegisterID)
  /-- The method `lsr(rd, rm, shiftAmount)`. -/
  | lsr (rd rm : RegisterID) (shiftAmount : Nat)
  /-- The method `lsr(rd, rn, rm)`. -/
  | lsrReg (rd rn rm : RegisterID)
  /-- The method `ldrb(rt, rn, imm12)`. -/
  | ldrb (rt rn : RegisterID) (imm : ARMThumbImmediate)
  /-- The method `ldrb(rt, rn, offset, index, wback)`. -/
  | ldrbOffset (rt rn : RegisterID) (offset : Int) (index wback : Bool)
  /-- The method `ldrb(rt, rn, rm, shift)`. -/
  | ldrbIndex (rt rn rm : RegisterID) (shift : Nat)
  /-- The method `orr(rd, rn, ARMThumbImmediate)`. -/
  | orr (rd rn : RegisterID) (imm : ARMThumbImmediate)
  /-- The method `orr(rd, rn, rm)`. -/
  | orrReg (rd rn rm : RegisterID)
  /-- The method `add_S(rd, rn, rm)`. -/
  | add_SReg (rd rn rm : RegisterID)
  /-- The method `ror(rd, rm, shiftAmount)`. -/
  | ror (rd rm : RegisterID) (shiftAmount : Nat)
  /-- The method `adc(rd, rn, ARMThumbImmediate)`. -/
  | adc (rd rn : RegisterID) (imm : ARMThumbImmediate)
  /-- The method `ldrd(rt, rt2, rn, offset, index, wback)`. -/
  | ldrd (rt rt2 rn : RegisterID) (offset : Int) (index wback : Bool)
  /-- The method `vcvt_floatingPointToSigned(rd, rm)`. -/
  | vcvt_floatingPointToSigned (rd : FPSingleRegisterID) (rm : FPDoubleRegisterID)
  /-- The method `vmov(rd, rn)` from a single-precision register to a core register. -/
  | vmovToCore (rd : RegisterID) (rn : FPSingleRegisterID)
  /-- The method `it(cond, ...)`: the listed flags say, for the second and later
  instructions of the block, whether they run on `cond` or on its negation. -/
  | it (cond : Condition) (rest : List Bool)
  /-- The method `bx(rm)`. -/
  | bx (rm : RegisterID)
  /-- The method `blx(rm)`. -/
  | blx (rm : RegisterID)
  /-- The method `vcmp(rd, rm)`. -/
  | vcmp (rd rm : FPDoubleRegisterID)
  /-- The method `vmrs()`, moving the VFP flags to the core flags. -/
  | vmrs
  /-- The method `ldr(rt, rn, imm12)`. -/
  | ldr (rt rn : RegisterID) (imm : ARMThumbImmediate)
  /-- The method `ldr(rt, rn, offset, index, wback)`. -/
  | ldrOffset (rt rn : RegisterID) (offset : Int) (index wback : Bool)
  /-- The method `ldr(rt, rn, rm, shift)`. -/
  | ldrIndex (rt rn rm : RegisterID) (shift : Nat)
  /-- The method `str(rt, rn, imm12)`. -/
  | str (rt rn : RegisterID) (imm : ARMThumbImmediate)
  /-- The method `str(rt, rn, offset, index, wback)`. -/
  | strOffset (rt rn : RegisterID) (offset : Int) (index wback : Bool)
  /-- The method `str(rt, rn, rm, shift)`. -/
  | strIndex (rt rn rm : RegisterID) (shift : Nat)
  /-- The method `vldr(rd, rn, imm)`. -/
  | vldr (rd : FPDoubleRegisterID) (rn : RegisterID) (imm : Int)
  /-- The method `flds(rd, rn, imm)`. -/
  | flds (rd : FPSingleRegisterID) (rn : RegisterID) (imm : Int)
  /-- The method `vstr(rd, rn, imm)`. -/
  | vstr (rd : FPDoubleRegisterID) (rn : RegisterID) (imm : Int)
  /-- The method `fsts(rd, rn, imm)`. -/
  | fsts (rd : FPSingleRegisterID) (rn : RegisterID) (imm : Int)
  deriving DecidableEq, Repr

/-- Modelled from the spec: the kinds of jump (`ARMv7Assembler::JumpType`,
declared outside the sources): with or without a condition, and of fixed size
or not. -/
inductive JumpType where
  | JumpFixed | JumpNoCondition | JumpCondition
  | JumpNoConditionFixedSize | JumpConditionFixedSize
  deriving DecidableEq, Repr

/-- Modelled from the spec: a record of a pending branch (`ARMv7Assembler::LinkRecord`,
declared outside the sources): the jump whose branch instruction ends at
`m_from` goes to the position `m_to`. -/
structure LinkRecord where
  m_from : AssemblerLabel
  m_to : AssemblerLabel
  m_type : JumpType
  m_condition : Condition
  deriving DecidableEq, Repr

/-- Modelled from the spec: the state of `ARMv7Assembler` (not among the
sources) that the macro assembler relies on, namely the growing buffer of
emitted instructions and the out-of-band records of linked jumps. -/
structure ARMv7Assembler where
  buffer : List Instr
  m_jumpsToLink : List LinkRecord
  deriving DecidableEq, Repr

namespace ARMv7Assembler

/-- Append one instruction to the buffer. -/
def emit (a : ARMv7Assembler) (i : Instr) : ARMv7Assembler :=
  { a with buffer := a.buffer ++ [i] }

/-- The current position.  The source notes that `label()` pads with nops only in
the middle of a watchpoint; no embedded operation plants a watchpoint, so the
padding is not represented. -/
def label (a : ARMv7Assembler) : AssemblerLabel := a.buffer.length

/-- Record that the jump ending at `src` goes to `dst` (`linkJump`). -/
def linkJump (a : ARMv7Assembler) (src dst : AssemblerLabel) (type : JumpType)
    (condition : Condition) : ARMv7Assembler :=
  { a with m_jumpsToLink := a.m_jumpsToLink ++ [⟨src, dst, type, condition⟩] }

end ARMv7Assembler

/-- The macro assembler: its assembler and the one piece of builder state. -/
structure MacroAssemblerARMv7 where
  m_assembler : ARMv7Assembler
  m_makeJumpPatchable : Bool
  deriving DecidableEq, Repr

/-- Modelled from the spec: `Jump` is a forward-reference handle to one branch
instruction, tagged with its kind and condition. -/
structure Jump where
  m_label : AssemblerLabel
  m_type : JumpType
  m_condition : Condition
  deriving DecidableEq, Repr

/-- Modelled from the spec: the link kinds of a call (`Call::Flags`, declared
outside the sources). -/
inductive Call.Flags where
  | None | Linkable | Near | Tail | LinkableNear | LinkableNearTail
  deriving DecidableEq, Repr

/-- Modelled from the spec: `Call` is a forward-reference handle to a call site,
tagged with its link kind. -/
structure Call where
  m_label : AssemblerLabel
  m_flags : Call.Flags
  deriving DecidableEq, Repr

/-- Modelled from the spec: `DataLabel32` is a handle into the emitted stream
marking a patchable 32-bit immediate load. -/
structure DataLabel32 where
  m_label : AssemblerLabel
  deriving DecidableEq, Repr

/-- Modelled from the spec: `DataLabelPtr` is a handle into the emitted stream
marking a patchable pointer load. -/
structure DataLabelPtr where
  m_label : AssemblerLabel
  deriving DecidableEq, Repr

/-- Modelled from the spec: `PatchableJump` wraps the jump of a patchable site. -/
structure PatchableJump where
  m_jump : Jump
  deriving DecidableEq, Repr

namespace MacroAssemblerARMv7

/-- The constructor: an empty buffer and `m_makeJumpPatchable(false)`. -/
def init : MacroAssemblerARMv7 := ⟨⟨[], []⟩, false⟩

/-- Scratch register for data. -/
abbrev dataTempRegister : RegisterID := ARMRegisters.ip

/-- Scratch register for addresses. -/
abbrev addressTempRegister : RegisterID := RegisterID.r6

/-- Emit one instruction through `m_assembler`. -/
def emit (m : MacroAssemblerARMv7) (i : Instr) : MacroAssemblerARMv7 :=
  { m with m_assembler := m.m_assembler.emit i }

/-- The instructions emitted so far. -/
def buffer (m : MacroAssemblerARMv7) : List Instr := m.m_assembler.buffer

/-- The method `move(TrustedImm32, RegisterID)`. -/
def move (encodable : Nat → Bool) (imm : TrustedImm32) (dest : RegisterID)
    (m : MacroAssemblerARMv7) : MacroAssemblerARMv7 :=
  let value := toUInt32 imm.m_value
  let armImm := ARMThumbImmediate.makeEncodedImm encodable value
  if armImm.isValid then
    m.emit (.mov dest armImm)
  else
    let armImm := ARMThumbImmediate.makeEncodedImm encodable (4294967295 - value)
    if armImm.isValid then
      m.emit (.mvn dest armImm)
    else
      let m := m.emit (.mov dest (ARMThumbImmediate.makeUInt16 value))
      if value &&& 0xffff0000 ≠ 0 then
        m.emit (.movt dest (ARMThumbImmediate.makeUInt16 (value >>> 16)))
      else m

/-- The method `move(RegisterID, RegisterID)`. -/
def moveReg (src dest : RegisterID) (m : MacroAssemblerARMv7) : MacroAssemblerARMv7 :=
  if src ≠ dest then m.emit (.movReg dest src) else m

/-- The method `add32(TrustedImm32, RegisterID, RegisterID)`.  The negation
`-imm.m_value` is taken in `int32_t`, wrapping at the minimum value. -/
def add32 (encodable : Nat → Bool) (imm : TrustedImm32) (src dest : RegisterID)
    (m : MacroAssemblerARMv7) : MacroAssemblerARMv7 :=
  if dest = ARMRegisters.sp ∧ src ≠ dest then
    moveReg addressTempRegister dest (add32 encodable imm src addressTempRegister m)
  else
    let armImm := ARMThumbImmediate.makeUInt12OrEncodedImm encodable imm.m_value
    if armImm.isValid then
      m.emit (.add dest src armImm)
    else
      let armImm := ARMThumbImmediate.makeUInt12OrEncodedImm encodable (wrapInt32 (-imm.m_value))
      if armImm.isValid then
        m.emit (.sub dest src armImm)
      else
        (move encodable imm dataTempRegister m).emit (.addReg dest src dataTempRegister)
termination_by (if dest = ARMRegisters.sp then 1 else 0)
decreasing_by simp_all

/-- The method `add32(TrustedImm32, RegisterID)`. -/
def add32Imm (encodable : Nat → Bool) (imm : TrustedImm32) (dest : RegisterID)
    (m : MacroAssemblerARMv7) : MacroAssemblerARMv7 :=
  add32 encodable imm dest dest m

/-- The method `bestTempRegister`. -/
def bestTempRegister (excluded : RegisterID) : RegisterID :=
  if excluded = addressTempRegister then dataTempRegister else addressTempRegister

/-- The method `moveFixedWidthEncoding`. -/
def moveFixedWidthEncoding (imm : TrustedImm32) (dst : RegisterID)
    (m : MacroAssemblerARMv7) : MacroAssemblerARMv7 :=
  let value := toUInt32 imm.m_value
  let m := m.emit (.movT3 dst (ARMThumbImmediate.makeUInt16 (value &&& 0xffff)))
  m.emit (.movt dst (ARMThumbImmediate.makeUInt16 (value >>> 16)))

/-- Modelled from the spec: `padBeforePatch` belongs to `AbstractMacroAssembler`
(not among the sources); it only takes a label, which emits nothing outside a
watchpoint. -/
def padBeforePatch (m : MacroAssemblerARMv7) : MacroAssemblerARMv7 := m

/-- The method `moveWithPatch(TrustedImm32, RegisterID)`; the returned label marks
the position after the move. -/
def moveWithPatch (imm : TrustedImm32) (dst : RegisterID)
    (m : MacroAssemblerARMv7) : DataLabel32 × MacroAssemblerARMv7 :=
  let m := padBeforePatch m
  let m := moveFixedWidthEncoding imm dst m
  (⟨m.m_assembler.label⟩, m)

/-- The method `jump()`; the leading `m_assembler.label()` emits nothing. -/
def jump (m : MacroAssemblerARMv7) : Jump × MacroAssemblerARMv7 :=
  let m := moveFixedWidthEncoding ⟨0⟩ dataTempRegister m
  let m := m.emit (.bx dataTempRegister)
  (⟨m.m_assembler.label,
    if m.m_makeJumpPatchable then .JumpNoConditionFixedSize else .JumpNoCondition,
    .ConditionInvalid⟩, m)

/-- The method `makeBranch(ARMv7Assembler::Condition)`; the leading
`m_assembler.label()` emits nothing. -/
def makeBranch (cond : Condition) (m : MacroAssemblerARMv7) : Jump × MacroAssemblerARMv7 :=
  let m := m.emit (.it cond [true, true])
  let m := moveFixedWidthEncoding ⟨0⟩ dataTempRegister m
  let m := m.emit (.bx dataTempRegister)
  (⟨m.m_assembler.label,
    if m.m_makeJumpPatchable then .JumpConditionFixedSize else .JumpCondition,
    cond⟩, m)

/-- Modelled from the spec: `Jump::link` belongs to `AbstractMacroAssembler` (not
among the sources); it binds the jump to the current position of the buffer. -/
def link (j : Jump) (m : MacroAssemblerARMv7) : MacroAssemblerARMv7 :=
  { m with m_assembler :=
      m.m_assembler.linkJump j.m_label m.m_assembler.label j.m_type j.m_condition }

/-- The method `test32(RegisterID, TrustedImm32)`. -/
def test32 (encodable : Nat → Bool) (reg : RegisterID) (mask : TrustedImm32)
    (m : MacroAssemblerARMv7) : MacroAssemblerARMv7 :=
  let imm := mask.m_value
  if imm = -1 then
    m.emit (.tstReg reg reg)
  else
    let armImm := ARMThumbImmediate.makeEncodedImm encodable (toUInt32 imm)
    if armImm.isValid then
      if reg = ARMRegisters.sp then
        (moveReg reg addressTempRegister m).emit (.tst addressTempRegister armImm)
      else
        m.emit (.tst reg armImm)
    else
      let (m, reg) :=
        if reg = ARMRegisters.sp then (moveReg reg dataTempRegister m, dataTempRegister)
        else (m, reg)
      let scratch := bestTempRegister reg
      (move encodable mask scratch m).emit (.tstReg reg scratch)

/-- The method `branch32(RelationalCondition, RegisterID, RegisterID)`. -/
def branch32 (cond : RelationalCondition) (left right : RegisterID)
    (m : MacroAssemblerARMv7) : Jump × MacroAssemblerARMv7 :=
  let m :=
    if left = ARMRegisters.sp then
      (moveReg left addressTempRegister m).emit (.cmp addressTempRegister right)
    else if right = ARMRegisters.sp then
      (moveReg right addressTempRegister m).emit (.cmp left addressTempRegister)
    else
      m.emit (.cmp left right)
  makeBranch cond.armV7Condition m

/-- The method `branchTest32(ResultCondition, RegisterID, TrustedImm32)`. -/
def branchTest32 (encodable : Nat → Bool) (cond : ResultCondition) (reg : RegisterID)
    (mask : TrustedImm32) (m : MacroAssemblerARMv7) : Jump × MacroAssemblerARMv7 :=
  makeBranch cond.armV7Condition (test32 encodable reg mask m)

/-- The method `branchMul32(ResultCondition, RegisterID, RegisterID, RegisterID)`. -/
def branchMul32 (encodable : Nat → Bool) (cond : ResultCondition) (src1 src2 dest : RegisterID)
    (m : MacroAssemblerARMv7) : Jump × MacroAssemblerARMv7 :=
  let m := m.emit (.smull dest dataTempRegister src1 src2)
  if cond = .Overflow then
    let m := m.emit (.asr addressTempRegister dest 31)
    branch32 .NotEqual addressTempRegister dataTempRegister m
  else
    branchTest32 encodable cond dest ⟨-1⟩ m

/-- The method `load32(ArmAddress, RegisterID)`; the assertions are not
represented. -/
def load32Arm (address : ArmAddress) (dest : RegisterID)
    (m : MacroAssemblerARMv7) : MacroAssemblerARMv7 :=
  match address with
  | .hasIndex base index scale => m.emit (.ldrIndex dest base index scale.toNat)
  | .hasOffset base offset =>
    if offset ≥ 0 then
      m.emit (.ldr dest base (ARMThumbImmediate.makeUInt12 offset))
    else
      m.emit (.ldrOffset dest base offset true false)

/-- The method `store32(RegisterID, ArmAddress)`; the assertions are not
represented. -/
def store32Arm (src : RegisterID) (address : ArmAddress)
    (m : MacroAssemblerARMv7) : MacroAssemblerARMv7 :=
  match address with
  | .hasIndex base index scale => m.emit (.strIndex src base index scale.toNat)
  | .hasOffset base offset =>
    if offset ≥ 0 then
      m.emit (.str src base (ARMThumbImmediate.makeUInt12 offset))
    else
      m.emit (.strOffset src base offset true false)

/-- The method `setupArmAddress(Address)`. -/
def setupArmAddress (encodable : Nat → Bool) (address : Address)
    (m : MacroAssemblerARMv7) : ArmAddress × MacroAssemblerARMv7 :=
  if address.offset ≥ -0xff ∧ address.offset ≤ 0xfff then
    (.hasOffset address.base address.offset, m)
  else
    let m := move encodable ⟨address.offset⟩ addressTempRegister m
    (.hasIndex address.base addressTempRegister .TimesOne, m)

/-- The method `setupArmAddress(BaseIndex)`. -/
def setupArmAddressBaseIndex (encodable : Nat → Bool) (address : BaseIndex)
    (m : MacroAssemblerARMv7) : ArmAddress × MacroAssemblerARMv7 :=
  if address.offset ≠ 0 then
    let imm := ARMThumbImmediate.makeUInt12OrEncodedImm encodable address.offset
    let m :=
      if imm.isValid then
        m.emit (.add addressTempRegister address.base imm)
      else
        (move encodable ⟨address.offset⟩ addressTempRegister m).emit
          (.addReg addressTempRegister addressTempRegister address.base)
    (.hasIndex addressTempRegister address.index address.scale, m)
  else
    (.hasIndex address.base address.index address.scale, m)

/-- The method `load32(Address, RegisterID)`. -/
def load32 (encodable : Nat → Bool) (address : Address) (dest : RegisterID)
    (m : MacroAssemblerARMv7) : MacroAssemblerARMv7 :=
  let (armAddress, m) := setupArmAddress encodable address m
  load32Arm armAddress dest m

/-- The method `store32(RegisterID, Address)`. -/
def store32 (encodable : Nat → Bool) (src : RegisterID) (address : Address)
    (m : MacroAssemblerARMv7) : MacroAssemblerARMv7 :=
  let (armAddress, m) := setupArmAddress encodable address m
  store32Arm src armAddress m

/-- The method `loadDouble(Address, FPRegisterID)`; the C++ `offset & 3` is taken on
the two's complement bit pattern. -/
def loadDouble (encodable : Nat → Bool) (address : Address) (dest : FPRegisterID)
    (m : MacroAssemblerARMv7) : MacroAssemblerARMv7 :=
  let base := address.base
  let offset := address.offset
  if toUInt32 offset &&& 3 ≠ 0 ∨ offset > 255 * 4 ∨ offset < -(255 * 4) then
    let m := add32 encodable ⟨offset⟩ base addressTempRegister m
    m.emit (.vldr dest addressTempRegister 0)
  else
    m.emit (.vldr dest base offset)

/-- The method `loadFloat(Address, FPRegisterID)`. -/
def loadFloat (encodable : Nat → Bool) (address : Address) (dest : FPRegisterID)
    (m : MacroAssemblerARMv7) : MacroAssemblerARMv7 :=
  let base := address.base
  let offset := address.offset
  if toUInt32 offset &&& 3 ≠ 0 ∨ offset > 255 * 4 ∨ offset < -(255 * 4) then
    let m := add32 encodable ⟨offset⟩ base addressTempRegister m
    m.emit (.flds (ARMRegisters.asSingle dest) addressTempRegister 0)
  else
    m.emit (.flds (ARMRegisters.asSingle dest) base offset)

/-- The method `storeDouble(FPRegisterID, Address)`. -/
def storeDouble (encodable : Nat → Bool) (src : FPRegisterID) (address : Address)
    (m : MacroAssemblerARMv7) : MacroAssemblerARMv7 :=
  let base := address.base
  let offset := address.offset
  if toUInt32 offset &&& 3 ≠ 0 ∨ offset > 255 * 4 ∨ offset < -(255 * 4) then
    let m := add32 encodable ⟨offset⟩ base addressTempRegister m
    m.emit (.vstr src addressTempRegister 0)
  else
    m.emit (.vstr src base offset)

/-- The method `storeFloat(FPRegisterID, Address)`. -/
def storeFloat (encodable : Nat → Bool) (src : FPRegisterID) (address : Address)
    (m : MacroAssemblerARMv7) : MacroAssemblerARMv7 :=
  let base := address.base
  let offset := address.offset
  if toUInt32 offset &&& 3 ≠ 0 ∨ offset > 255 * 4 ∨ offset < -(255 * 4) then
    let m := add32 encodable ⟨offset⟩ base addressTempRegister m
    m.emit (.fsts (ARMRegisters.asSingle src) addressTempRegister 0)
  else
    m.emit (.fsts (ARMRegisters.asSingle src) base offset)

/-- The method `nearCall()`. -/
def nearCall (m : MacroAssemblerARMv7) : Call × MacroAssemblerARMv7 :=
  let m := moveFixedWidthEncoding ⟨0⟩ dataTempRegister m
  let m := m.emit (.blx dataTempRegister)
  (⟨m.m_assembler.label, .LinkableNear⟩, m)

/-- The method `nearTailCall()`. -/
def nearTailCall (m : MacroAssemblerARMv7) : Call × MacroAssemblerARMv7 :=
  let m := moveFixedWidthEncoding ⟨0⟩ dataTempRegister m
  let m := m.emit (.bx dataTempRegister)
  (⟨m.m_assembler.label, .LinkableNearTail⟩, m)

/-- The method `call(PtrTag)`; the tag plays no part on this platform. -/
def call (m : MacroAssemblerARMv7) : Call × MacroAssemblerARMv7 :=
  let m := moveFixedWidthEncoding ⟨0⟩ dataTempRegister m
  let m := m.emit (.blx dataTempRegister)
  (⟨m.m_assembler.label, .Linkable⟩, m)

/-- The method `call(RegisterID, PtrTag)`. -/
def callReg (target : RegisterID) (m : MacroAssemblerARMv7) : Call × MacroAssemblerARMv7 :=
  let m := m.emit (.blx target)
  (⟨m.m_assembler.label, .None⟩, m)

/-- The method `lshift32(RegisterID, RegisterID, RegisterID)`; the assertion that
the mask is encodable is not represented. -/
def lshift32 (encodable : Nat → Bool) (src shiftAmount dest : RegisterID)
    (m : MacroAssemblerARMv7) : MacroAssemblerARMv7 :=
  let armImm := ARMThumbImmediate.makeEncodedImm encodable 0x1f
  let m := m.emit (.ARM_and dataTempRegister shiftAmount armImm)
  m.emit (.lslReg dest src dataTempRegister)

/-- The method `lshift32(RegisterID, TrustedImm32, RegisterID)`. -/
def lshift32Imm (src : RegisterID) (imm : TrustedImm32) (dest : RegisterID)
    (m : MacroAssemblerARMv7) : MacroAssemblerARMv7 :=
  m.emit (.lsl dest src (toUInt32 imm.m_value &&& 0x1f))

/-- The method `rshift32(RegisterID, RegisterID, RegisterID)`; the assertion that
the mask is encodable is not represented. -/
def rshift32 (encodable : Nat → Bool) (src shiftAmount dest : RegisterID)
    (m : MacroAssemblerARMv7) : MacroAssemblerARMv7 :=
  let armImm := ARMThumbImmediate.makeEncodedImm encodable 0x1f
  let m := m.emit (.ARM_and dataTempRegister shiftAmount armImm)
  m.emit (.asrReg dest src dataTempRegister)

/-- The method `rshift32(RegisterID, TrustedImm32, RegisterID)`. -/
def rshift32Imm (src : RegisterID) (imm : TrustedImm32) (dest : RegisterID)
    (m : MacroAssemblerARMv7) : MacroAssemblerARMv7 :=
  if imm.m_value = 0 then
    moveReg src dest m
  else
    m.emit (.asr dest src (toUInt32 imm.m_value &&& 0x1f))

/-- The method `urshift32(RegisterID, RegisterID, RegisterID)`; the assertion that
the mask is encodable is not represented. -/
def urshift32 (encodable : Nat → Bool) (src shiftAmount dest : RegisterID)
    (m : MacroAssemblerARMv7) : MacroAssemblerARMv7 :=
  let armImm := ARMThumbImmediate.makeEncodedImm encodable 0x1f
  let m := m.emit (.ARM_and dataTempRegister shiftAmount armImm)
  m.emit (.lsrReg dest src dataTempRegister)

/-- The method `urshift32(RegisterID, TrustedImm32, RegisterID)`. -/
def urshift32Imm (src : RegisterID) (imm : TrustedImm32) (dest : RegisterID)
    (m : MacroAssemblerARMv7) : MacroAssemblerARMv7 :=
  if imm.m_value = 0 then
    moveReg src dest m
  else
    m.emit (.lsr dest src (toUInt32 imm.m_value &&& 0x1f))

/-- The method `mul32(RegisterID, RegisterID)`. -/
def mul32 (src dest : RegisterID) (m : MacroAssemblerARMv7) : MacroAssemblerARMv7 :=
  m.emit (.smull dest dataTempRegister dest src)

/-- The method `mul32(RegisterID, RegisterID, RegisterID)`. -/
def mul32Reg (left right dest : RegisterID) (m : MacroAssemblerARMv7) : MacroAssemblerARMv7 :=
  m.emit (.smull dest dataTempRegister left right)

/-- The method `mul32(TrustedImm32, RegisterID, RegisterID)`. -/
def mul32Imm (encodable : Nat → Bool) (imm : TrustedImm32) (src dest : RegisterID)
    (m : MacroAssemblerARMv7) : MacroAssemblerARMv7 :=
  let m := move encodable imm dataTempRegister m
  m.emit (.smull dest dataTempRegister src dataTempRegister)

/-- The method `sub32(RegisterID, TrustedImm32, RegisterID)`. -/
def sub32RegImm (encodable : Nat → Bool) (left : RegisterID) (right : TrustedImm32)
    (dest : RegisterID) (m : MacroAssemblerARMv7) : MacroAssemblerARMv7 :=
  let armImm := ARMThumbImmediate.makeUInt12OrEncodedImm encodable right.m_value
  if armImm.isValid then
    m.emit (.sub dest left armImm)
  else
    let m := move encodable right dataTempRegister m
    m.emit (.subReg dest left dataTempRegister)

/-- The method `sub32(TrustedImm32, RegisterID)`. -/
def sub32Imm (encodable : Nat → Bool) (imm : TrustedImm32) (dest : RegisterID)
    (m : MacroAssemblerARMv7) : MacroAssemblerARMv7 :=
  let armImm := ARMThumbImmediate.makeUInt12OrEncodedImm encodable imm.m_value
  if armImm.isValid then
    m.emit (.sub dest dest armImm)
  else
    let m := move encodable imm dataTempRegister m
    m.emit (.subReg dest dest dataTempRegister)

/-- The method `compare32AndSetFlags`; the negation `-imm` is taken in `int32_t`,
wrapping at the minimum value, and `left & 8` tests the register number. -/
def compare32AndSetFlags (encodable : Nat → Bool) (left : RegisterID) (right : TrustedImm32)
    (m : MacroAssemblerARMv7) : MacroAssemblerARMv7 :=
  let imm := right.m_value
  let armImm := ARMThumbImmediate.makeEncodedImm encodable (toUInt32 imm)
  if armImm.isValid then
    m.emit (.cmpImm left armImm)
  else
    let armImm := ARMThumbImmediate.makeEncodedImm encodable (toUInt32 (wrapInt32 (-imm)))
    if armImm.isValid then
      if left.toNat &&& 8 = 0 ∧ armImm.isUInt3 = true ∧ left ≠ addressTempRegister then
        m.emit (.add_S addressTempRegister left armImm)
      else
        m.emit (.cmn left armImm)
    else
      let scratch := bestTempRegister left
      let m := move encodable ⟨imm⟩ scratch m
      m.emit (.cmp left scratch)

/-- The method `branch32(RelationalCondition, RegisterID, TrustedImm32)`. -/
def branch32Imm (encodable : Nat → Bool) (cond : RelationalCondition) (left : RegisterID)
    (right : TrustedImm32) (m : MacroAssemblerARMv7) : Jump × MacroAssemblerARMv7 :=
  makeBranch cond.armV7Condition (compare32AndSetFlags encodable left right m)

/-- The method `branch32(RelationalCondition, Address, TrustedImm32)`. -/
def branch32AddressImm (encodable : Nat → Bool) (cond : RelationalCondition) (left : Address)
    (right : TrustedImm32) (m : MacroAssemblerARMv7) : Jump × MacroAssemblerARMv7 :=
  let m := load32 encodable left addressTempRegister m
  branch32Imm encodable cond addressTempRegister right m

/-- The method `load8(ArmAddress, RegisterID)`; the assertions are not
represented. -/
def load8Arm (address : ArmAddress) (dest : RegisterID)
    (m : MacroAssemblerARMv7) : MacroAssemblerARMv7 :=
  match address with
  | .hasIndex base index scale => m.emit (.ldrbIndex dest base index scale.toNat)
  | .hasOffset base offset =>
    if offset ≥ 0 then
      m.emit (.ldrb dest base (ARMThumbImmediate.makeUInt12 offset))
    else
      m.emit (.ldrbOffset dest base offset true false)

/-- The method `load8(Address, RegisterID)`. -/
def load8 (encodable : Nat → Bool) (address : Address) (dest : RegisterID)
    (m : MacroAssemblerARMv7) : MacroAssemblerARMv7 :=
  let (armAddress, m) := setupArmAddress encodable address m
  load8Arm armAddress dest m

/-- The method `load8SignedExtendTo32(Address, RegisterID)`: its body is
`UNREACHABLE_FOR_PLATFORM()`, a fatal abort, rendered as `none`. -/
def load8SignedExtendTo32Address (_address : Address) (_dest : RegisterID)
    (_m : MacroAssemblerARMv7) : Option MacroAssemblerARMv7 :=
  none

/-- Modelled from the spec: `MacroAssemblerHelpers::mask8OnCondition` is declared
in a header that is not among the sources; it narrows the immediate to eight
bits, zero-extended for the conditions the predicate `isUnsigned` accepts and
sign-extended for the others.  The predicate is a parameter. -/
def mask8OnCondition (isUnsigned : RelationalCondition → Bool) (cond : RelationalCondition)
    (value : TrustedImm32) : TrustedImm32 :=
  if isUnsigned cond then ⟨value.m_value % 256⟩
  else ⟨(value.m_value + 128) % 256 - 128⟩

/-- Modelled from the spec: `MacroAssemblerHelpers::load8OnCondition` is declared
in a header that is not among the sources; it loads the byte with `load8` for
the conditions the predicate `isUnsigned` accepts and with
`load8SignedExtendTo32` for the others. -/
def load8OnCondition (encodable : Nat → Bool) (isUnsigned : RelationalCondition → Bool)
    (cond : RelationalCondition) (address : Address) (dest : RegisterID)
    (m : MacroAssemblerARMv7) : Option MacroAssemblerARMv7 :=
  if isUnsigned cond then some (load8 encodable address dest m)
  else load8SignedExtendTo32Address address dest m

/-- Modelled from the spec: the conditions `MacroAssemblerHelpers::isUnsigned`
accepts, used to instantiate the predicate at concrete inputs: equality and the
comparisons the source names with `above` and `below`. -/
def isUnsignedCondition : RelationalCondition → Bool
  | .Equal => true
  | .NotEqual => true
  | .Above => true
  | .AboveOrEqual => true
  | .Below => true
  | .BelowOrEqual => true
  | _ => false

/-- The method `branch8(RelationalCondition, RegisterID, TrustedImm32)`. -/
def branch8 (encodable : Nat → Bool) (isUnsigned : RelationalCondition → Bool)
    (cond : RelationalCondition) (left : RegisterID) (right : TrustedImm32)
    (m : MacroAssemblerARMv7) : Jump × MacroAssemblerARMv7 :=
  let right8 := mask8OnCondition isUnsigned cond right
  let m := compare32AndSetFlags encodable left right8 m
  makeBranch cond.armV7Condition m

/-- The method `branch8(RelationalCondition, Address, TrustedImm32)`; `none` when
the byte load aborts. -/
def branch8Address (encodable : Nat → Bool) (isUnsigned : RelationalCondition → Bool)
    (cond : RelationalCondition) (left : Address) (right : TrustedImm32)
    (m : MacroAssemblerARMv7) : Option (Jump × MacroAssemblerARMv7) :=
  let right8 := mask8OnCondition isUnsigned cond right
  match load8OnCondition encodable isUnsigned cond left addressTempRegister m with
  | none => none
  | some m => some (branch8 encodable isUnsigned cond addressTempRegister right8 m)

/-- The method `moveWithPatch(TrustedImmPtr, RegisterID)`. -/
def moveWithPatchPtr (imm : TrustedImmPtr) (dst : RegisterID)
    (m : MacroAssemblerARMv7) : DataLabelPtr × MacroAssemblerARMv7 :=
  let m := padBeforePatch m
  let m := moveFixedWidthEncoding imm.toImm32 dst m
  (⟨m.m_assembler.label⟩, m)

/-- The method `branchPtrWithPatch(RelationalCondition, Address, DataLabelPtr&,
TrustedImmPtr)`; the data label is returned with the jump. -/
def branchPtrWithPatchAddress (encodable : Nat → Bool) (cond : RelationalCondition)
    (left : Address) (initialRightValue : TrustedImmPtr)
    (m : MacroAssemblerARMv7) : (Jump × DataLabelPtr) × MacroAssemblerARMv7 :=
  let m := load32 encodable left addressTempRegister m
  let (dataLabel, m) := moveWithPatchPtr initialRightValue dataTempRegister m
  let (result, m) := branch32 cond addressTempRegister dataTempRegister m
  ((result, dataLabel), m)

/-- The method `branch32WithPatch`; the data label is returned with the jump. -/
def branch32WithPatch (encodable : Nat → Bool) (cond : RelationalCondition)
    (left : Address) (initialRightValue : TrustedImm32)
    (m : MacroAssemblerARMv7) : (Jump × DataLabel32) × MacroAssemblerARMv7 :=
  let m := load32 encodable left addressTempRegister m
  let (dataLabel, m) := moveWithPatch initialRightValue dataTempRegister m
  let (result, m) := branch32 cond addressTempRegister dataTempRegister m
  ((result, dataLabel), m)

/-- The method `patchableBranchPtr`. -/
def patchableBranchPtr (encodable : Nat → Bool) (cond : RelationalCondition) (left : Address)
    (right : TrustedImmPtr) (m : MacroAssemblerARMv7) : PatchableJump × MacroAssemblerARMv7 :=
  let m := { m with m_makeJumpPatchable := true }
  let (result, m) := branch32AddressImm encodable cond left right.toImm32 m
  let m := { m with m_makeJumpPatchable := false }
  (⟨result⟩, m)

/-- The method `patchableBranchTest32`. -/
def patchableBranchTest32 (encodable : Nat → Bool) (cond : ResultCondition) (reg : RegisterID)
    (mask : TrustedImm32) (m : MacroAssemblerARMv7) : PatchableJump × MacroAssemblerARMv7 :=
  let m := { m with m_makeJumpPatchable := true }
  let (result, m) := branchTest32 encodable cond reg mask m
  let m := { m with m_makeJumpPatchable := false }
  (⟨result⟩, m)

/-- The method `patchableBranch8`; `none` when the byte load aborts. -/
def patchableBranch8 (encodable : Nat → Bool) (isUnsigned : RelationalCondition → Bool)
    (cond : RelationalCondition) (left : Address) (imm : TrustedImm32)
    (m : MacroAssemblerARMv7) : Option (PatchableJump × MacroAssemblerARMv7) :=
  let m := { m with m_makeJumpPatchable := true }
  match branch8Address encodable isUnsigned cond left imm m with
  | none => none
  | some (result, m) =>
    let m := { m with m_makeJumpPatchable := false }
    some (⟨result⟩, m)

/-- The method `patchableBranch32(RelationalCondition, RegisterID, TrustedImm32)`. -/
def patchableBranch32 (encodable : Nat → Bool) (cond : RelationalCondition) (reg : RegisterID)
    (imm : TrustedImm32) (m : MacroAssemblerARMv7) : PatchableJump × MacroAssemblerARMv7 :=
  let m := { m with m_makeJumpPatchable := true }
  let (result, m) := branch32Imm encodable cond reg imm m
  let m := { m with m_makeJumpPatchable := false }
  (⟨result⟩, m)

/-- The method `patchableBranch32(RelationalCondition, Address, TrustedImm32)`. -/
def patchableBranch32Address (encodable : Nat → Bool) (cond : RelationalCondition)
    (left : Address) (imm : TrustedImm32)
    (m : MacroAssemblerARMv7) : PatchableJump × MacroAssemblerARMv7 :=
  let m := { m with m_makeJumpPatchable := true }
  let (result, m) := branch32AddressImm encodable cond left imm m
  let m := { m with m_makeJumpPatchable := false }
  (⟨result⟩, m)

/-- The method `patchableBranchPtrWithPatch`. -/
def patchableBranchPtrWithPatch (encodable : Nat → Bool) (cond : RelationalCondition)
    (left : Address) (initialRightValue : TrustedImmPtr)
    (m : MacroAssemblerARMv7) : (PatchableJump × DataLabelPtr) × MacroAssemblerARMv7 :=
  let m := { m with m_makeJumpPatchable := true }
  let ((result, dataLabel), m) := branchPtrWithPatchAddress encodable cond left initialRightValue m
  let m := { m with m_makeJumpPatchable := false }
  ((⟨result⟩, dataLabel), m)

/-- The method `patchableBranch32WithPatch`. -/
def patchableBranch32WithPatch (encodable : Nat → Bool) (cond : RelationalCondition)
    (left : Address) (initialRightValue : TrustedImm32)
    (m : MacroAssemblerARMv7) : (PatchableJump × DataLabel32) × MacroAssemblerARMv7 :=
  let m := { m with m_makeJumpPatchable := true }
  let ((result, dataLabel), m) := branch32WithPatch encodable cond left initialRightValue m
  let m := { m with m_makeJumpPatchable := false }
  ((⟨result⟩, dataLabel), m)

/-- The method `patchableJump`. -/
def patchableJump (m : MacroAssemblerARMv7) : PatchableJump × MacroAssemblerARMv7 :=
  let m := padBeforePatch m
  let m := { m with m_makeJumpPatchable := true }
  let (result, m) := jump m
  let m := { m with m_makeJumpPatchable := false }
  (⟨result⟩, m)

/-- The method `branchDouble`. -/
def branchDouble (cond : DoubleCondition) (left right : FPRegisterID)
    (m : MacroAssemblerARMv7) : Jump × MacroAssemblerARMv7 :=
  let m := m.emit (.vcmp left right)
  let m := m.emit .vmrs
  if cond = .DoubleNotEqualAndOrdered then
    let (unordered, m) := makeBranch .ConditionVS m
    let (result, m) := makeBranch .ConditionNE m
    let m := link unordered m
    (result, m)
  else if cond = .DoubleEqualOrUnordered then
    let (unordered, m) := makeBranch .ConditionVS m
    let (notEqual, m) := makeBranch .ConditionNE m
    let m := link unordered m
    let (result, m) := jump m
    let m := link notEqual m
    (result, m)
  else
    makeBranch cond.armV7Condition m

/-- The method `invert`: the value of the condition with its low bit flipped, read
back as a relational condition. -/
def invert (cond : RelationalCondition) : Option RelationalCondition :=
  RelationalCondition.ofNat? (cond.toNat ^^^ 1)

/-- The method `supportsFloatingPointRounding`. -/
def supportsFloatingPointRounding : Bool := false

/-- The method `ceilDouble`: after the assertion its body is `CRASH()`, a fatal
abort, rendered as `none`: no assembler state comes back. -/
def ceilDouble (_src _dst : FPRegisterID) (_m : MacroAssemblerARMv7) :
    Option MacroAssemblerARMv7 :=
  none

/-- The method `floorDouble`: after the assertion its body is `CRASH()`. -/
def floorDouble (_src _dst : FPRegisterID) (_m : MacroAssemblerARMv7) :
    Option MacroAssemblerARMv7 :=
  none

/-- The method `roundTowardZeroDouble`: after the assertion its body is `CRASH()`. -/
def roundTowardZeroDouble (_src _dst : FPRegisterID) (_m : MacroAssemblerARMv7) :
    Option MacroAssemblerARMv7 :=
  none

/-- Modelled from the spec: a location in finalized code (`CodeLocationLabel`,
`CodeLocationDataLabelPtr`, `CodeLocationDataLabel32`, declared outside the
sources), as a byte address. -/
abbrev CodeLocation := Nat

/-- The method `canJumpReplacePatchableBranchPtrWithPatch`. -/
def canJumpReplacePatchableBranchPtrWithPatch : Bool := false

/-- The method `canJumpReplacePatchableBranch32WithPatch`. -/
def canJumpReplacePatchableBranch32WithPatch : Bool := false

/-- The method `startOfPatchableBranchPtrWithPatchOnAddress`: the body starts with
`UNREACHABLE_FOR_PLATFORM()`, a fatal abort, so no location is returned. -/
def startOfPatchableBranchPtrWithPatchOnAddress (_label : CodeLocation) :
    Option CodeLocation :=
  none

/-- The method `startOfPatchableBranch32WithPatchOnAddress`: the body starts with
`UNREACHABLE_FOR_PLATFORM()`. -/
def startOfPatchableBranch32WithPatchOnAddress (_label : CodeLocation) :
    Option CodeLocation :=
  none

/-- The method `revertJumpReplacementToPatchableBranchPtrWithPatch`: the body is
`UNREACHABLE_FOR_PLATFORM()`; a normal return would be `some ()`. -/
def revertJumpReplacementToPatchableBranchPtrWithPatch (_instructionStart : CodeLocation)
    (_address : Address) (_initialValue : Nat) : Option Unit :=
  none

/-- The method `revertJumpReplacementToPatchableBranch32WithPatch`: the body is
`UNREACHABLE_FOR_PLATFORM()`. -/
def revertJumpReplacementToPatchableBranch32WithPatch (_instructionStart : CodeLocation)
    (_address : Address) (_initialValue : Int) : Option Unit :=
  none

/-- The method `load16SignedExtendTo32(Address, RegisterID)`: its body is
`UNREACHABLE_FOR_PLATFORM()`. -/
def load16SignedExtendTo32Address (_address : Address) (_dest : RegisterID)
    (_m : MacroAssemblerARMv7) : Option MacroAssemblerARMv7 :=
  none

/-- The three tests of `shouldBlindForSpecificArch` on the immediate it obtained
from `makeEncodedImm`: `if (!immediate.isValid()) return true;`,
`if (immediate.isEncodedImm()) return false;`, `return !immediate.isUInt12();`. -/
def shouldBlindForImmediate (immediate : ARMThumbImmediate) : Bool :=
  if !immediate.isValid then true
  else if immediate.isEncodedImm then false
  else !immediate.isUInt12

/-- The method `shouldBlindForSpecificArch`: the immediate is
`ARMThumbImmediate::makeEncodedImm(value)` and the result is that of the three
tests on it. -/
def shouldBlindForSpecificArch (encodable : Nat → Bool) (value : Nat) : Bool :=
  let immediate := ARMThumbImmediate.makeEncodedImm encodable value
  shouldBlindForImmediate immediate

/-- The method `branch32(RelationalCondition, RegisterID, Address)`. -/
def branch32RegAddress (encodable : Nat → Bool) (cond : RelationalCondition) (left : RegisterID)
    (right : Address) (m : MacroAssemblerARMv7) : Jump × MacroAssemblerARMv7 :=
  let m := load32 encodable right addressTempRegister m
  branch32 cond left addressTempRegister m

/-- The method `or32(RegisterID, RegisterID, RegisterID)`. -/
def or32 (op1 op2 dest : RegisterID) (m : MacroAssemblerARMv7) : MacroAssemblerARMv7 :=
  m.emit (.orrReg dest op1 op2)

/-- The condition of `ASSERT(src != dataTempRegister)` in
`or32(TrustedImm32, RegisterID, RegisterID)`, on the path that reaches it: the
assertion is passed when the immediate is encodable (it is not reached) or `src`
is not the data scratch register. -/
def or32ImmAssertion (encodable : Nat → Bool) (imm : TrustedImm32) (src : RegisterID) : Bool :=
  (ARMThumbImmediate.makeEncodedImm encodable (toUInt32 imm.m_value)).isValid
    || decide (src ≠ dataTempRegister)

/-- The method `or32(TrustedImm32, RegisterID, RegisterID)`, as a build without
assertions runs it; the assertion is `or32ImmAssertion`. -/
def or32Imm (encodable : Nat → Bool) (imm : TrustedImm32) (src dest : RegisterID)
    (m : MacroAssemblerARMv7) : MacroAssemblerARMv7 :=
  let armImm := ARMThumbImmediate.makeEncodedImm encodable (toUInt32 imm.m_value)
  if armImm.isValid then
    m.emit (.orr dest src armImm)
  else
    let m := move encodable imm dataTempRegister m
    m.emit (.orrReg dest src dataTempRegister)

/-- The method `or32(TrustedImm32, Address)`. -/
def or32ImmAddress (encodable : Nat → Bool) (imm : TrustedImm32) (address : Address)
    (m : MacroAssemblerARMv7) : MacroAssemblerARMv7 :=
  let m := load32 encodable address dataTempRegister m
  let m := or32Imm encodable imm dataTempRegister dataTempRegister m
  store32 encodable dataTempRegister address m

/-- The method `add32Impl(TrustedImm32, Address, bool)`. -/
def add32Impl (encodable : Nat → Bool) (imm : TrustedImm32) (address : Address)
    (updateFlags : Bool) (m : MacroAssemblerARMv7) : MacroAssemblerARMv7 :=
  let m := load32 encodable address dataTempRegister m
  let armImm := ARMThumbImmediate.makeEncodedImm encodable (toUInt32 imm.m_value)
  let m :=
    if armImm.isValid then
      if updateFlags then m.emit (.add_S dataTempRegister dataTempRegister armImm)
      else m.emit (.add dataTempRegister dataTempRegister armImm)
    else
      let m := move encodable imm addressTempRegister m
      if updateFlags then m.emit (.add_SReg dataTempRegister dataTempRegister addressTempRegister)
      else m.emit (.addReg dataTempRegister dataTempRegister addressTempRegister)
  store32 encodable dataTempRegister address m

/-- The method `add32(TrustedImm32, Address)`. -/
def add32ImmAddress (encodable : Nat → Bool) (imm : TrustedImm32) (address : Address)
    (m : MacroAssemblerARMv7) : MacroAssemblerARMv7 :=
  add32Impl encodable imm address false m

/-- The method `sub32(TrustedImm32, Address)`. -/
def sub32ImmAddress (encodable : Nat → Bool) (imm : TrustedImm32) (address : Address)
    (m : MacroAssemblerARMv7) : MacroAssemblerARMv7 :=
  let m := load32 encodable address dataTempRegister m
  let armImm := ARMThumbImmediate.makeUInt12OrEncodedImm encodable imm.m_value
  let m :=
    if armImm.isValid then
      m.emit (.sub dataTempRegister dataTempRegister armImm)
    else
      let m := move encodable imm addressTempRegister m
      m.emit (.subReg dataTempRegister dataTempRegister addressTempRegister)
  store32 encodable dataTempRegister address m

/-- The method `store32(TrustedImm32, Address)`. -/
def store32ImmAddress (encodable : Nat → Bool) (imm : TrustedImm32) (address : Address)
    (m : MacroAssemblerARMv7) : MacroAssemblerARMv7 :=
  let (armAddress, m) := setupArmAddress encodable address m
  let scratch :=
    if armAddress.type = .HasIndex then dataTempRegister else addressTempRegister
  let m := move encodable imm scratch m
  store32Arm scratch armAddress m

/-- The scratch double register. -/
abbrev fpTempRegister : FPDoubleRegisterID := 7

/-- The method `fpTempRegisterAsSingle`. -/
def fpTempRegisterAsSingle : FPSingleRegisterID := ARMRegisters.asSingle fpTempRegister

/-- The method `rotateRight32(RegisterID, TrustedImm32, RegisterID)`. -/
def rotateRight32 (src : RegisterID) (imm : TrustedImm32) (dest : RegisterID)
    (m : MacroAssemblerARMv7) : MacroAssemblerARMv7 :=
  if imm.m_value = 0 then
    moveReg src dest m
  else
    m.emit (.ror dest src (toUInt32 imm.m_value &&& 0x1f))

/-- The method `loadPair32(Address, RegisterID, RegisterID)`; the assertion
`dest1 != dest2` is not represented.  The negation of the offset is taken in
`int32_t`, and `~0x3fc` is the 32-bit pattern `0xfffffc03`. -/
def loadPair32 (encodable : Nat → Bool) (address : Address) (dest1 dest2 : RegisterID)
    (m : MacroAssemblerARMv7) : MacroAssemblerARMv7 :=
  let absOffset := if address.offset < 0 then wrapInt32 (-address.offset) else address.offset
  if toUInt32 absOffset &&& 0xfffffc03 = 0 then
    m.emit (.ldrd dest1 dest2 address.base address.offset true false)
  else if address.base = dest1 then
    let m := load32 encodable (address.withOffset 4) dest2 m
    load32 encodable address dest1 m
  else
    let m := load32 encodable address dest1 m
    load32 encodable (address.withOffset 4) dest2 m

/-- The method `move(TrustedImmPtr, RegisterID)`. -/
def movePtr (encodable : Nat → Bool) (imm : TrustedImmPtr) (dest : RegisterID)
    (m : MacroAssemblerARMv7) : MacroAssemblerARMv7 :=
  move encodable imm.toImm32 dest m

/-- The method `add64(TrustedImm32, AbsoluteAddress)`; `imm.m_value >> 31` is the
arithmetic shift of the `int32_t`. -/
def add64 (encodable : Nat → Bool) (imm : TrustedImm32) (address : AbsoluteAddress)
    (m : MacroAssemblerARMv7) : MacroAssemblerARMv7 :=
  let m := movePtr encodable ⟨address.m_ptr⟩ addressTempRegister m
  let m := m.emit (.ldr dataTempRegister addressTempRegister (ARMThumbImmediate.makeUInt12 0))
  let armImm := ARMThumbImmediate.makeEncodedImm encodable (toUInt32 imm.m_value)
  let m :=
    if armImm.isValid then
      m.emit (.add_S dataTempRegister dataTempRegister armImm)
    else
      let m := move encodable imm addressTempRegister m
      let m := m.emit (.add_SReg dataTempRegister dataTempRegister addressTempRegister)
      movePtr encodable ⟨address.m_ptr⟩ addressTempRegister m
  let m := m.emit (.str dataTempRegister addressTempRegister (ARMThumbImmediate.makeUInt12 0))
  let m := m.emit (.ldr dataTempRegister addressTempRegister (ARMThumbImmediate.makeUInt12 4))
  let m := m.emit (.adc dataTempRegister dataTempRegister
    (ARMThumbImmediate.makeEncodedImm encodable (toUInt32 (imm.m_value / 2147483648))))
  m.emit (.str dataTempRegister addressTempRegister (ARMThumbImmediate.makeUInt12 4))

/-- The method `branchAdd32(ResultCondition, RegisterID, RegisterID, RegisterID)`. -/
def branchAdd32 (cond : ResultCondition) (op1 op2 dest : RegisterID)
    (m : MacroAssemblerARMv7) : Jump × MacroAssemblerARMv7 :=
  let m := m.emit (.add_SReg dest op1 op2)
  makeBranch cond.armV7Condition m

/-- The enumeration `BranchTruncateType`. -/
inductive BranchTruncateType where
  | BranchIfTruncateFailed | BranchIfTruncateSuccessful
  deriving DecidableEq, Repr

/-- The method `branchTruncateDoubleToInt32`. -/
def branchTruncateDoubleToInt32 (encodable : Nat → Bool) (src : FPRegisterID)
    (dest : RegisterID) (branchType : BranchTruncateType)
    (m : MacroAssemblerARMv7) : Jump × MacroAssemblerARMv7 :=
  let m := m.emit (.vcvt_floatingPointToSigned fpTempRegisterAsSingle src)
  let m := m.emit (.vmovToCore dest fpTempRegisterAsSingle)
  let (underflow, m) := branchAdd32 .Zero dest dest dataTempRegister m
  let (noOverflow, m) := branch32Imm encodable .NotEqual dataTempRegister ⟨-2⟩ m
  let m := link underflow m
  if branchType = .BranchIfTruncateSuccessful then
    (noOverflow, m)
  else
    let (failure, m) := jump m
    let m := link noOverflow m
    (failure, m)

/-- The assertions of `load32(ArmAddress, RegisterID)` on the path the address
takes: none for an indexed address, `makeUInt12(offset)` valid for an offset that
is not negative, `offset >= -255` for a negative one. -/
def load32ArmAssertion (address : ArmAddress) : Bool :=
  match address with
  | .hasIndex _ _ _ => true
  | .hasOffset _ offset =>
    if offset ≥ 0 then (ARMThumbImmediate.makeUInt12 offset).isValid
    else decide (offset ≥ -255)

/-- The assertions of `load16(ArmAddress, RegisterID)`. -/
def load16ArmAssertion (address : ArmAddress) : Bool :=
  match address with
  | .hasIndex _ _ _ => true
  | .hasOffset _ offset =>
    if offset ≥ 0 then (ARMThumbImmediate.makeUInt12 offset).isValid
    else decide (offset ≥ -255)

/-- The assertions of `load8(ArmAddress, RegisterID)`. -/
def load8ArmAssertion (address : ArmAddress) : Bool :=
  match address with
  | .hasIndex _ _ _ => true
  | .hasOffset _ offset =>
    if offset ≥ 0 then (ARMThumbImmediate.makeUInt12 offset).isValid
    else decide (offset ≥ -255)

/-- The assertions of `store32(RegisterID, ArmAddress)`. -/
def store32ArmAssertion (address : ArmAddress) : Bool :=
  match address with
  | .hasIndex _ _ _ => true
  | .hasOffset _ offset =>
    if offset ≥ 0 then (ARMThumbImmediate.makeUInt12 offset).isValid
    else decide (offset ≥ -255)

/-- The assertions of `store16(RegisterID, ArmAddress)`. -/
def store16ArmAssertion (address : ArmAddress) : Bool :=
  match address with
  | .hasIndex _ _ _ => true
  | .hasOffset _ offset =>
    if offset ≥ 0 then (ARMThumbImmediate.makeUInt12 offset).isValid
    else decide (offset ≥ -255)

/-- The assertions of `store8(RegisterID, ArmAddress)`. -/
def store8ArmAssertion (address : ArmAddress) : Bool :=
  match address with
  | .hasIndex _ _ _ => true
  | .hasOffset _ offset =>
    if offset ≥ 0 then (ARMThumbImmediate.makeUInt12 offset).isValid
    else decide (offset ≥ -255)

end MacroAssemblerARMv7

/-! ## A Thumb-2 machine for the emitted instructions

The architectural meaning of the instructions is not part of the repository; it
is the ARMv7-A/R reference behaviour, restricted to what the claims observe.
The program counter register is an ordinary register of the file: control flow
is followed through the buffer position instead. -/

/-- The N, Z, C and V condition flags. -/
structure Flags where
  n : Bool
  z : Bool
  c : Bool
  v : Bool
  deriving DecidableEq, Repr

/-- One data memory access: its direction, byte address and size in bytes. -/
structure MemAccess where
  isStore : Bool
  address : Nat
  size : Nat
  deriving DecidableEq, Repr

/-- The data state of the machine: core registers, core and VFP flags, double
registers (64-bit patterns), byte-addressed memory and the log of accesses. -/
structure CPU where
  regs : RegisterID → Nat
  apsr : Flags
  fpscr : Flags
  fpr : FPDoubleRegisterID → Nat
  mem : Nat → Nat
  accesses : List MemAccess

namespace CPU

/-- Write a core register (the value is reduced to 32 bits). -/
def setReg (c : CPU) (r : RegisterID) (v : Nat) : CPU :=
  { c with regs := fun x => if x = r then v % 4294967296 else c.regs x }

/-- Little-endian 32-bit read. -/
def read32 (c : CPU) (a : Nat) : Nat :=
  c.mem a % 256 + 256 * (c.mem ((a + 1) % 4294967296) % 256)
    + 65536 * (c.mem ((a + 2) % 4294967296) % 256)
    + 16777216 * (c.mem ((a + 3) % 4294967296) % 256)

/-- Little-endian 32-bit write. -/
def write32 (c : CPU) (a v : Nat) : CPU :=
  { c with mem := fun x =>
      if x = (a + 3) % 4294967296 then v / 16777216 % 256
      else if x = (a + 2) % 4294967296 then v / 65536 % 256
      else if x = (a + 1) % 4294967296 then v / 256 % 256
      else if x = a then v % 256
      else c.mem x }

/-- Append an access to the log. -/
def logAccess (c : CPU) (isStore : Bool) (a size : Nat) : CPU :=
  { c with accesses := c.accesses ++ [⟨isStore, a, size⟩] }

/-- A 32-bit load into a core register. -/
def load32 (c : CPU) (rt : RegisterID) (a : Nat) : CPU :=
  (c.logAccess false a 4).setReg rt (c.read32 a)

/-- A zero-extending byte load into a core register. -/
def load8 (c : CPU) (rt : RegisterID) (a : Nat) : CPU :=
  (c.logAccess false a 1).setReg rt (c.mem a % 256)

/-- A 32-bit store of a core register. -/
def store32 (c : CPU) (rt : RegisterID) (a : Nat) : CPU :=
  (c.logAccess true a 4).write32 a (c.regs rt % 4294967296)

/-- Read a single-precision register (half of the double it overlays). -/
def readSingle (c : CPU) (s : FPSingleRegisterID) : Nat :=
  if s % 2 = 0 then c.fpr (s / 2) % 4294967296 else c.fpr (s / 2) / 4294967296 % 4294967296

/-- Write a double-precision register. -/
def setDouble (c : CPU) (d : FPDoubleRegisterID) (v : Nat) : CPU :=
  { c with fpr := fun x => if x = d then v % 18446744073709551616 else c.fpr x }

/-- Write a single-precision register (half of the double it overlays). -/
def setSingle (c : CPU) (s : FPSingleRegisterID) (v : Nat) : CPU :=
  if s % 2 = 0 then
    c.setDouble (s / 2) (c.fpr (s / 2) / 4294967296 % 4294967296 * 4294967296 + v % 4294967296)
  else
    c.setDouble (s / 2) (v % 4294967296 * 4294967296 + c.fpr (s / 2) % 4294967296)

end CPU

/-- Flags of the subtraction `x - y`, as set by `cmp`. -/
def subFlags (x y : Nat) : Flags :=
  let a := x % 4294967296
  let b := y % 4294967296
  let r := (a + (4294967296 - b)) % 4294967296
  { n := decide (2147483648 ≤ r)
    z := decide (r = 0)
    c := decide (b ≤ a)
    v := decide (toInt32 a - toInt32 b ≠ toInt32 r) }

/-- Flags of the bitwise and of `x` and `y`, as set by `tst`: N and Z from the
result, C and V left as they were. -/
def andFlags (old : Flags) (x y : Nat) : Flags :=
  let r := (x &&& y) % 4294967296
  { n := decide (2147483648 ≤ r)
    z := decide (r = 0)
    c := old.c
    v := old.v }

/-- Flags of the addition `x + y`, as set by `cmn` and by a flag-setting add. -/
def addFlags (x y : Nat) : Flags :=
  let a := x % 4294967296
  let b := y % 4294967296
  let r := (a + b) % 4294967296
  { n := decide (2147483648 ≤ r)
    z := decide (r = 0)
    c := decide (4294967296 ≤ a + b)
    v := decide (toInt32 a + toInt32 b ≠ toInt32 r) }

/-- The amount an immediate right shift encodes: the five-bit field holds the
amount modulo 32, and the hardware reads a zero field as 32. -/
def immShiftRightAmount (shiftAmount : Nat) : Nat :=
  if shiftAmount % 32 = 0 then 32 else shiftAmount % 32

/-- Whether a condition code passes on the given flags. -/
def Condition.holds : Condition → Flags → Bool
  | .ConditionEQ, f => f.z
  | .ConditionNE, f => !f.z
  | .ConditionHS, f => f.c
  | .ConditionLO, f => !f.c
  | .ConditionMI, f => f.n
  | .ConditionPL, f => !f.n
  | .ConditionVS, f => f.v
  | .ConditionVC, f => !f.v
  | .ConditionHI, f => f.c && !f.z
  | .ConditionLS, f => !f.c || f.z
  | .ConditionGE, f => f.n == f.v
  | .ConditionLT, f => f.n != f.v
  | .ConditionGT, f => !f.z && f.n == f.v
  | .ConditionLE, f => f.z || f.n != f.v
  | .ConditionAL, _ => true
  | .ConditionInvalid, _ => true

/-- The four outcomes of a floating-point comparison. -/
inductive FPCompareResult where
  | equal | lessThan | greaterThan | unordered
  deriving DecidableEq, Repr

/-- Whether a 64-bit pattern is a NaN: all exponent bits set, fraction non-zero. -/
def doubleIsNaN (x : Nat) : Bool :=
  x / 4503599627370496 % 2048 == 2047 && x % 4503599627370496 != 0

/-- The position of a non-NaN double in the numeric order: sign and magnitude,
with both zeros at 0. -/
def doubleOrderKey (x : Nat) : Int :=
  if x / 9223372036854775808 % 2 = 1 then -((x % 9223372036854775808 : Nat) : Int)
  else ((x % 9223372036854775808 : Nat) : Int)

/-- IEEE 754 comparison of two doubles given by their bit patterns. -/
def doubleCompare (x y : Nat) : FPCompareResult :=
  if doubleIsNaN x || doubleIsNaN y then .unordered
  else if doubleOrderKey x = doubleOrderKey y then .equal
  else if doubleOrderKey x < doubleOrderKey y then .lessThan
  else .greaterThan

/-- The flags `vcmp` produces for each outcome. -/
def FPCompareResult.flags : FPCompareResult → Flags
  | .equal => ⟨false, true, true, false⟩
  | .lessThan => ⟨true, false, false, false⟩
  | .greaterThan => ⟨false, false, true, false⟩
  | .unordered => ⟨false, false, true, true⟩

/-- The relation each floating-point condition names, on the outcome of the
comparison: the source documents that an `...AndOrdered` condition is true only
if the comparison is ordered, and that an `...OrUnordered` condition is true
whenever an operand is a NaN. -/
def DoubleCondition.holdsFor : DoubleCondition → FPCompareResult → Bool
  | .DoubleEqualAndOrdered, r => r == .equal
  | .DoubleNotEqualAndOrdered, r => r == .lessThan || r == .greaterThan
  | .DoubleGreaterThanAndOrdered, r => r == .greaterThan
  | .DoubleGreaterThanOrEqualAndOrdered, r => r == .greaterThan || r == .equal
  | .DoubleLessThanAndOrdered, r => r == .lessThan
  | .DoubleLessThanOrEqualAndOrdered, r => r == .lessThan || r == .equal
  | .DoubleEqualOrUnordered, r => r == .equal || r == .unordered
  | .DoubleNotEqualOrUnordered, r => r == .lessThan || r == .greaterThan || r == .unordered
  | .DoubleGreaterThanOrUnordered, r => r == .greaterThan || r == .unordered
  | .DoubleGreaterThanOrEqualOrUnordered, r =>
      r == .greaterThan || r == .equal || r == .unordered
  | .DoubleLessThanOrUnordered, r => r == .lessThan || r == .unordered
  | .DoubleLessThanOrEqualOrUnordered, r => r == .lessThan || r == .equal || r == .unordered

/-- Whether a floating-point condition is one of the `...OrUnordered` group. -/
def DoubleCondition.isOrUnordered : DoubleCondition → Bool
  | .DoubleEqualOrUnordered => true
  | .DoubleNotEqualOrUnordered => true
  | .DoubleGreaterThanOrUnordered => true
  | .DoubleGreaterThanOrEqualOrUnordered => true
  | .DoubleLessThanOrUnordered => true
  | .DoubleLessThanOrEqualOrUnordered => true
  | _ => false

/-- The signed 32-bit integer (as a bit pattern) a double converts to with
rounding toward zero, as `vcvt` computes it: a NaN gives 0, and a value outside
the range saturates to `0x7fffffff` or `0x80000000`. -/
def doubleToInt32 (x : Nat) : Nat :=
  let e := x / 4503599627370496 % 2048
  let f := x % 4503599627370496
  if doubleIsNaN x then 0
  else if e = 0 then 0
  else
    let magnitude :=
      if 1075 ≤ e then (4503599627370496 + f) * 2 ^ (e - 1075)
      else (4503599627370496 + f) / 2 ^ (1075 - e)
    if x / 9223372036854775808 % 2 = 1 then
      if 2147483648 ≤ magnitude then 2147483648 else (4294967296 - magnitude) % 4294967296
    else
      if 2147483647 ≤ magnitude then 2147483647 else magnitude

/-- The effect of one instruction on the data state (branches and `it` have
none). -/
def Instr.exec (c : CPU) : Instr → CPU
  | .mov rd imm => c.setReg rd imm.value
  | .movReg rd rm => c.setReg rd (c.regs rm)
  | .mvn rd imm => c.setReg rd (4294967295 - imm.value % 4294967296)
  | .movT3 rd imm => c.setReg rd (imm.value % 65536)
  | .movt rd imm => c.setReg rd (imm.value % 65536 * 65536 + c.regs rd % 65536)
  | .add rd rn imm => c.setReg rd (c.regs rn + imm.value)
  | .addReg rd rn rm => c.setReg rd (c.regs rn + c.regs rm)
  | .sub rd rn imm => c.setReg rd (c.regs rn % 4294967296 + (4294967296 - imm.value % 4294967296))
  | .smull rdLo rdHi rn rm =>
      let p := (toInt32 (c.regs rn) * toInt32 (c.regs rm) % 18446744073709551616).toNat
      (c.setReg rdLo (p % 4294967296)).setReg rdHi (p / 4294967296)
  | .asr rd rm shiftAmount =>
      c.setReg rd (toUInt32 (toInt32 (c.regs rm) / 2 ^ immShiftRightAmount shiftAmount))
  | .asrReg rd rn rm => c.setReg rd (toUInt32 (toInt32 (c.regs rn) / 2 ^ (c.regs rm % 256)))
  | .lsl rd rm shiftAmount => c.setReg rd ((c.regs rm % 4294967296) <<< (shiftAmount % 32))
  | .lslReg rd rn rm => c.setReg rd ((c.regs rn % 4294967296) <<< (c.regs rm % 256))
  | .lsr rd rm shiftAmount =>
      c.setReg rd (c.regs rm % 4294967296 / 2 ^ immShiftRightAmount shiftAmount)
  | .lsrReg rd rn rm => c.setReg rd (c.regs rn % 4294967296 / 2 ^ (c.regs rm % 256))
  | .ARM_and rd rn imm => c.setReg rd (c.regs rn &&& imm.value)
  | .subReg rd rn rm =>
      c.setReg rd (c.regs rn % 4294967296 + (4294967296 - c.regs rm % 4294967296))
  | .cmpImm rn imm => { c with apsr := subFlags (c.regs rn) imm.value }
  | .cmn rn imm => { c with apsr := addFlags (c.regs rn) imm.value }
  | .add_S rd rn imm =>
      { c.setReg rd (c.regs rn + imm.value) with apsr := addFlags (c.regs rn) imm.value }
  | .ldrb rt rn imm => c.load8 rt ((c.regs rn + imm.value) % 4294967296)
  | .ldrbOffset rt rn offset index wback =>
      let tmp := toUInt32 ((c.regs rn : Int) + offset)
      let a := if index then tmp else c.regs rn % 4294967296
      ((if wback then c.setReg rn tmp else c).load8 rt a)
  | .ldrbIndex rt rn rm shift => c.load8 rt ((c.regs rn + c.regs rm <<< shift) % 4294967296)
  | .orr rd rn imm => c.setReg rd (c.regs rn ||| imm.value)
  | .orrReg rd rn rm => c.setReg rd (c.regs rn ||| c.regs rm)
  | .add_SReg rd rn rm =>
      { c.setReg rd (c.regs rn + c.regs rm) with apsr := addFlags (c.regs rn) (c.regs rm) }
  | .ror rd rm shiftAmount =>
      let x := c.regs rm % 4294967296
      if shiftAmount % 32 = 0 then
        c.setReg rd ((if c.apsr.c then 2147483648 else 0) + x / 2)
      else
        c.setReg rd (x / 2 ^ (shiftAmount % 32)
          + x % 2 ^ (shiftAmount % 32) * 2 ^ (32 - shiftAmount % 32))
  | .adc rd rn imm => c.setReg rd (c.regs rn + imm.value + (if c.apsr.c then 1 else 0))
  | .ldrd rt rt2 rn offset index wback =>
      let tmp := toUInt32 ((c.regs rn : Int) + offset)
      let a := if index then tmp else c.regs rn % 4294967296
      (((if wback then c.setReg rn tmp else c).logAccess false a 8).setReg rt
        (c.read32 a)).setReg rt2 (c.read32 ((a + 4) % 4294967296))
  | .vcvt_floatingPointToSigned rd rm => c.setSingle rd (doubleToInt32 (c.fpr rm))
  | .vmovToCore rd rn => c.setReg rd (c.readSingle rn)
  | .cmp rn rm => { c with apsr := subFlags (c.regs rn) (c.regs rm) }
  | .tstReg rn rm => { c with apsr := andFlags c.apsr (c.regs rn) (c.regs rm) }
  | .tst rn imm => { c with apsr := andFlags c.apsr (c.regs rn) imm.value }
  | .it _ _ => c
  | .bx _ => c
  | .blx _ => c
  | .vcmp rd rm => { c with fpscr := (doubleCompare (c.fpr rd) (c.fpr rm)).flags }
  | .vmrs => { c with apsr := c.fpscr }
  | .ldr rt rn imm => c.load32 rt ((c.regs rn + imm.value) % 4294967296)
  | .ldrOffset rt rn offset index wback =>
      let tmp := toUInt32 ((c.regs rn : Int) + offset)
      let a := if index then tmp else c.regs rn % 4294967296
      ((if wback then c.setReg rn tmp else c).load32 rt a)
  | .ldrIndex rt rn rm shift => c.load32 rt ((c.regs rn + c.regs rm <<< shift) % 4294967296)
  | .str rt rn imm => c.store32 rt ((c.regs rn + imm.value) % 4294967296)
  | .strOffset rt rn offset index wback =>
      let tmp := toUInt32 ((c.regs rn : Int) + offset)
      let a := if index then tmp else c.regs rn % 4294967296
      let c1 := c.store32 rt a
      if wback then c1.setReg rn tmp else c1
  | .strIndex rt rn rm shift => c.store32 rt ((c.regs rn + c.regs rm <<< shift) % 4294967296)
  | .vldr rd rn imm =>
      let a := toUInt32 ((c.regs rn : Int) + imm)
      (c.logAccess false a 8).setDouble rd
        (c.read32 a + 4294967296 * c.read32 ((a + 4) % 4294967296))
  | .flds rd rn imm =>
      let a := toUInt32 ((c.regs rn : Int) + imm)
      (c.logAccess false a 4).setSingle rd (c.read32 a)
  | .vstr rd rn imm =>
      let a := toUInt32 ((c.regs rn : Int) + imm)
      (((c.logAccess true a 8).write32 a (c.fpr rd % 4294967296)).write32
        ((a + 4) % 4294967296) (c.fpr rd / 4294967296 % 4294967296))
  | .fsts rd rn imm =>
      let a := toUInt32 ((c.regs rn : Int) + imm)
      (c.logAccess true a 4).write32 a (c.readSingle rd)

/-- The machine while it runs a buffer: data state, the conditions pending from
an `it` (condition and required truth value, one per remaining slot), the
position in the buffer, and the label of the branch through which control left
the buffer, if it did. -/
structure Machine where
  cpu : CPU
  itstate : List (Condition × Bool)
  pc : Nat
  exited : Option AssemblerLabel

namespace Machine

/-- Start of a run: position 0, no `it` block open. -/
def boot (c : CPU) : Machine := ⟨c, [], 0, none⟩

/-- Execute the instruction `i` found at the current position, its condition
having passed.  A `bx` or `blx` that a link record binds continues at the bound
position; any other leaves the buffer, which is recorded with the label of the
branch. -/
def perform (a : ARMv7Assembler) (s : Machine) (i : Instr) : Machine :=
  match i with
  | .it cond rest => { s with itstate := (cond, true) :: rest.map (fun b => (cond, b)), pc := s.pc + 1 }
  | .bx _ | .blx _ =>
      match a.m_jumpsToLink.find? (fun r => r.m_from == s.pc + 1) with
      | some r => { s with pc := r.m_to }
      | none => { s with exited := some (s.pc + 1) }
  | i => { s with cpu := i.exec s.cpu, pc := s.pc + 1 }

/-- One step: nothing once control has left the buffer or reached its end;
otherwise the instruction at the current position is executed, or skipped when
the pending `it` condition fails. -/
def step (a : ARMv7Assembler) (s : Machine) : Machine :=
  match s.exited with
  | some _ => s
  | none =>
    match a.buffer[s.pc]? with
    | none => s
    | some i =>
      match s.itstate with
      | [] => perform a s i
      | (cond, b) :: rest =>
          if cond.holds s.cpu.apsr == b then perform a { s with itstate := rest } i
          else { s with itstate := rest, pc := s.pc + 1 }

/-- Run for at most `fuel` steps. -/
def run (a : ARMv7Assembler) : Nat → Machine → Machine
  | 0, s => s
  | fuel + 1, s => run a fuel (step a s)

/-- The run has ended: control left the buffer or reached its end. -/
def halted (a : ARMv7Assembler) (s : Machine) : Bool :=
  s.exited.isSome || decide (a.buffer.length ≤ s.pc)

end Machine

/-- Run a buffer from its start with one step of fuel per instruction. -/
def ARMv7Assembler.execute (a : ARMv7Assembler) (c : CPU) : Machine :=
  Machine.run a a.buffer.length (Machine.boot c)

/-- The address a load or store through an `ArmAddress` accesses in a given
data state (as the `ldr`/`str` forms compute it). -/
def ArmAddress.effective (c : CPU) : ArmAddress → Nat
  | .hasOffset base offset => toUInt32 ((c.regs base : Int) + offset)
  | .hasIndex base index scale => (c.regs base + c.regs index <<< scale.toNat) % 4294967296

/-- The comparison each relational condition names, between the 32-bit value `x`
held in a register and an `int32_t` immediate: equality, unsigned order for the
`above` and `below` conditions, signed order for the others. -/
def RelationalCondition.relation : RelationalCondition → Nat → Int → Prop
  | .Equal, x, i => toInt32 x = i
  | .NotEqual, x, i => toInt32 x ≠ i
  | .Above, x, i => x % 4294967296 > toUInt32 i
  | .AboveOrEqual, x, i => x % 4294967296 ≥ toUInt32 i
  | .Below, x, i => x % 4294967296 < toUInt32 i
  | .BelowOrEqual, x, i => x % 4294967296 ≤ toUInt32 i
  | .GreaterThan, x, i => toInt32 x > i
  | .GreaterThanOrEqual, x, i => toInt32 x ≥ i
  | .LessThan, x, i => toInt32 x < i
  | .LessThanOrEqual, x, i => toInt32 x ≤ i

/-- Whether an instruction is a `smull`. -/
def Instr.isSmull : Instr → Bool
  | .smull _ _ _ _ => true
  | _ => false

/-- Instructions that neither open an `it` block nor branch. -/
def Instr.isStraight : Instr → Bool
  | .it _ _ => false
  | .bx _ => false
  | .blx _ => false
  | _ => true

/-- The effect of a straight-line sequence on the data state. -/
def execSeq (is : List Instr) (c : CPU) : CPU := is.foldl Instr.exec c

/-- A data state for concrete evaluations: every core register holds 7, the
flags are clear, and the floating-point registers and the memory hold zeros. -/
def CPU.sample : CPU :=
  { regs := fun _ => 7
    apsr := ⟨false, false, false, false⟩
    fpscr := ⟨false, false, false, false⟩
    fpr := fun _ => 0
    mem := fun _ => 0
    accesses := [] }

/-- The jump is taken: control left the buffer through its branch instruction. -/
def Jump.taken (j : Jump) (s : Machine) : Prop := s.exited = some j.m_label

instance (j : Jump) (s : Machine) : Decidable (j.taken s) := by unfold Jump.taken; infer_instance

/-- Whether an instruction is an add or a subtract that writes the given register. -/
def Instr.isAddOrSubInto (r : RegisterID) : Instr → Bool
  | .add rd _ _ => rd == r
  | .addReg rd _ _ => rd == r
  | .sub rd _ _ => rd == r
  | .subReg rd _ _ => rd == r
  | .add_S rd _ _ => rd == r
  | .add_SReg rd _ _ => rd == r
  | .adc rd _ _ => rd == r
  | _ => false

/-- Whether an instruction is a `tst` with the given register as an operand. -/
def Instr.isTstOf (r : RegisterID) : Instr → Bool
  | .tst rn _ => rn == r
  | .tstReg rn rm => rn == r || rm == r
  | _ => false

/-- Whether an instruction is an `asr`, `lsr` or `ror` by an immediate amount. -/
def Instr.isShiftRightImm : Instr → Bool
  | .asr _ _ _ => true
  | .lsr _ _ _ => true
  | .ror _ _ _ => true
  | _ => false

/-- The 64-bit little-endian value at a byte address: the word there and the word
four bytes on. -/
def CPU.read64 (c : CPU) (a : Nat) : Nat :=
  c.read32 a + 4294967296 * c.read32 ((a + 4) % 4294967296)

/-! ## The function index space of a module (`wasm/WasmModuleInformation.h`) -/

namespace Wasm

/-- Modelled from the spec: `SignatureIndex` is declared in a header that is not
among the sources; an index value. -/
abbrev SignatureIndex := Nat

/-- The two vectors of `ModuleInformation` the function index space is made of. -/
structure ModuleInformation where
  importFunctionSignatureIndices : List SignatureIndex
  internalFunctionSignatureIndices : List SignatureIndex
  deriving DecidableEq, Repr

namespace ModuleInformation

/-- The method `functionIndexSpaceSize`. -/
def functionIndexSpaceSize (info : ModuleInformation) : Nat :=
  info.importFunctionSignatureIndices.length + info.internalFunctionSignatureIndices.length

/-- The method `isImportedFunctionFromFunctionIndexSpace`; the assertion
`functionIndex < functionIndexSpaceSize()` is not represented. -/
def isImportedFunctionFromFunctionIndexSpace (info : ModuleInformation)
    (functionIndex : Nat) : Bool :=
  decide (functionIndex < info.importFunctionSignatureIndices.length)

/-- The method `signatureIndexFromFunctionIndexSpace`; a vector access outside the
bounds is `none`. -/
def signatureIndexFromFunctionIndexSpace (info : ModuleInformation) (functionIndex : Nat) :
    Option SignatureIndex :=
  if info.isImportedFunctionFromFunctionIndexSpace functionIndex then
    info.importFunctionSignatureIndices[functionIndex]?
  else
    info.internalFunctionSignatureIndices[
      functionIndex - info.importFunctionSignatureIndices.length]?

end ModuleInformation

end Wasm

/-! ## Lemmas -/

open MacroAssemblerARMv7

theorem perform_straight (a : ARMv7Assembler) (s : Machine) (i : Instr)
    (h : i.isStraight = true) :
    Machine.perform a s i = { s with cpu := i.exec s.cpu, pc := s.pc + 1 } := by
  cases i <;> simp_all [Machine.perform, Instr.isStraight]

theorem run_straight (a : ARMv7Assembler) (rest post : List Instr) :
    ∀ (pre : List Instr) (c : CPU), a.buffer = pre ++ (rest ++ post) →
      (∀ i ∈ rest, i.isStraight = true) →
      Machine.run a rest.length ⟨c, [], pre.length, none⟩
        = ⟨execSeq rest c, [], pre.length + rest.length, none⟩ := by
  induction rest with
  | nil => intro pre c _ _; simp [Machine.run, execSeq]
  | cons i rest ih =>
    intro pre c hb hs
    have hi : a.buffer[pre.length]? = some i := by
      rw [hb, List.getElem?_append_right (Nat.le_refl _)]; simp
    have h1 : Machine.step a ⟨c, [], pre.length, none⟩ = ⟨i.exec c, [], pre.length + 1, none⟩ := by
      simp [Machine.step, hi, perform_straight a _ i (hs i (by simp))]
    have h2 := ih (pre ++ [i]) (i.exec c) (by simp [hb]) (fun j hj => hs j (by simp [hj]))
    simp only [List.length_cons, Machine.run, h1]
    simp only [List.length_append, List.length_singleton] at h2
    rw [h2]
    simp [execSeq, Nat.add_assoc, Nat.add_comm 1]

theorem execute_straight (a : ARMv7Assembler) (c : CPU)
    (hs : ∀ i ∈ a.buffer, i.isStraight = true) :
    a.execute c = ⟨execSeq a.buffer c, [], a.buffer.length, none⟩ := by
  have := run_straight a a.buffer [] [] c (by simp) hs
  simpa [ARMv7Assembler.execute, Machine.boot] using this

theorem execSeq_append (xs ys : List Instr) (c : CPU) :
    execSeq (xs ++ ys) c = execSeq ys (execSeq xs c) := by
  simp [execSeq]

theorem and_high_half (v : Nat) (h : v < 4294967296) :
    v &&& 0xffff0000 = 0 ↔ v < 65536 := by
  have e : (0xffff0000 : Nat) = (2 ^ 32 - 1) ^^^ (2 ^ 16 - 1) := by decide
  rw [e, Nat.and_xor_distrib_left, Nat.and_pow_two_sub_one_eq_mod, Nat.and_pow_two_sub_one_eq_mod]
  rw [Nat.mod_eq_of_lt (by simpa using h)]
  constructor
  · intro hx
    have := Nat.xor_eq_zero.mp hx
    omega
  · intro hx
    rw [Nat.mod_eq_of_lt (by simpa using hx)]
    exact Nat.xor_self v

theorem toUInt32_lt (i : Int) : toUInt32 i < 4294967296 := by
  unfold toUInt32; omega

theorem setReg_regs_same (c : CPU) (r : RegisterID) (v : Nat) :
    (c.setReg r v).regs r = v % 4294967296 := by
  simp [CPU.setReg]

theorem setReg_regs_other (c : CPU) (r x : RegisterID) (v : Nat) (h : x ≠ r) :
    (c.setReg r v).regs x = c.regs x := by
  simp [CPU.setReg, h]

theorem setReg_setReg (c : CPU) (r : RegisterID) (a b : Nat) :
    (c.setReg r a).setReg r b = c.setReg r b := by
  simp only [CPU.setReg]
  congr 1
  funext x
  by_cases h : x = r <;> simp [h]

theorem setReg_congr (c : CPU) (r : RegisterID) (a b : Nat)
    (h : a % 4294967296 = b % 4294967296) : c.setReg r a = c.setReg r b := by
  simp only [CPU.setReg, h]

/-- The instructions `move` appends do not depend on the buffer it appends to. -/
theorem move_buffer (encodable : Nat → Bool) (imm : TrustedImm32) (dest : RegisterID)
    (m : MacroAssemblerARMv7) :
    (move encodable imm dest m).buffer = m.buffer ++ (move encodable imm dest init).buffer := by
  unfold move
  simp only [buffer, emit, ARMv7Assembler.emit, init]
  split_ifs <;> simp

theorem move_links (encodable : Nat → Bool) (imm : TrustedImm32) (dest : RegisterID)
    (m : MacroAssemblerARMv7) :
    (move encodable imm dest m).m_assembler.m_jumpsToLink = m.m_assembler.m_jumpsToLink
    ∧ (move encodable imm dest m).m_makeJumpPatchable = m.m_makeJumpPatchable := by
  unfold move
  simp only [emit, ARMv7Assembler.emit]
  split_ifs <;> simp

theorem move_straight (encodable : Nat → Bool) (imm : TrustedImm32) (dest : RegisterID) :
    ∀ i ∈ (move encodable imm dest init).buffer, i.isStraight = true := by
  unfold move
  simp only [buffer, emit, ARMv7Assembler.emit, init]
  split_ifs <;> simp [Instr.isStraight]

theorem execSeq_move (encodable : Nat → Bool) (imm : TrustedImm32) (dest : RegisterID) (c : CPU) :
    execSeq (move encodable imm dest init).buffer c = c.setReg dest (toUInt32 imm.m_value) := by
  have hlt := toUInt32_lt imm.m_value
  unfold move
  simp only [buffer, emit, ARMv7Assembler.emit, init, ARMThumbImmediate.makeEncodedImm,
    ARMThumbImmediate.makeUInt16]
  by_cases h1 : encodable (toUInt32 imm.m_value) = true
  · simp [h1, ARMThumbImmediate.isValid, execSeq, Instr.exec]
  · by_cases h2 : encodable (4294967295 - toUInt32 imm.m_value) = true
    · simp [h1, h2, ARMThumbImmediate.isValid, ARMThumbImmediate.invalid, execSeq, Instr.exec]
      apply setReg_congr; omega
    · by_cases h3 : toUInt32 imm.m_value &&& 0xffff0000 = 0
      · have h4 := (and_high_half _ hlt).mp h3
        simp [h1, h2, h3, ARMThumbImmediate.isValid, ARMThumbImmediate.invalid, execSeq, Instr.exec]
        apply setReg_congr; omega
      · simp [h1, h2, h3, ARMThumbImmediate.isValid, ARMThumbImmediate.invalid, execSeq, Instr.exec,
          setReg_regs_same, setReg_setReg, Nat.shiftRight_eq_div_pow]
        apply setReg_congr; omega

theorem add32_of_sp (encodable : Nat → Bool) (imm : TrustedImm32) (src dest : RegisterID)
    (m : MacroAssemblerARMv7) (h : dest = ARMRegisters.sp ∧ src ≠ dest) :
    add32 encodable imm src dest m
      = moveReg addressTempRegister dest (add32 encodable imm src addressTempRegister m) := by
  conv_lhs => rw [add32]
  rw [if_pos h]

theorem add32_of_not_sp (encodable : Nat → Bool) (imm : TrustedImm32) (src dest : RegisterID)
    (m : MacroAssemblerARMv7) (h : ¬ (dest = ARMRegisters.sp ∧ src ≠ dest)) :
    add32 encodable imm src dest m
      = if (ARMThumbImmediate.makeUInt12OrEncodedImm encodable imm.m_value).isValid then
          m.emit (.add dest src (ARMThumbImmediate.makeUInt12OrEncodedImm encodable imm.m_value))
        else if (ARMThumbImmediate.makeUInt12OrEncodedImm encodable
            (wrapInt32 (-imm.m_value))).isValid then
          m.emit (.sub dest src
            (ARMThumbImmediate.makeUInt12OrEncodedImm encodable (wrapInt32 (-imm.m_value))))
        else
          (move encodable imm dataTempRegister m).emit (.addReg dest src dataTempRegister) := by
  conv_lhs => rw [add32]
  rw [if_neg h]

theorem moveReg_buffer (src dest : RegisterID) (m : MacroAssemblerARMv7) :
    (moveReg src dest m).buffer = m.buffer ++ (moveReg src dest init).buffer := by
  unfold moveReg
  simp only [buffer, emit, ARMv7Assembler.emit, init]
  split_ifs <;> simp

theorem emit_buffer (m : MacroAssemblerARMv7) (i : Instr) :
    (m.emit i).buffer = m.buffer ++ [i] := rfl

theorem init_buffer : init.buffer = [] := rfl

theorem add32_buffer (encodable : Nat → Bool) (imm : TrustedImm32) (src dest : RegisterID)
    (m : MacroAssemblerARMv7) :
    (add32 encodable imm src dest m).buffer
      = m.buffer ++ (add32 encodable imm src dest init).buffer := by
  have key : ∀ (d : RegisterID) (m : MacroAssemblerARMv7), ¬ (d = ARMRegisters.sp ∧ src ≠ d) →
      (add32 encodable imm src d m).buffer
        = m.buffer ++ (add32 encodable imm src d init).buffer := by
    intro d m h
    rw [add32_of_not_sp _ _ _ _ m h, add32_of_not_sp _ _ _ _ init h]
    split_ifs
    · simp [emit_buffer, init_buffer]
    · simp [emit_buffer, init_buffer]
    · rw [emit_buffer, emit_buffer, move_buffer]; simp
  by_cases h : dest = ARMRegisters.sp ∧ src ≠ dest
  · rw [add32_of_sp _ _ _ _ m h, add32_of_sp _ _ _ _ init h, moveReg_buffer,
      moveReg_buffer _ _ (add32 _ _ _ _ init), key _ m (by simp)]
    simp
  · exact key dest m h

theorem makeUInt12OrEncodedImm_value (encodable : Nat → Bool) (v : Int)
    (h : (ARMThumbImmediate.makeUInt12OrEncodedImm encodable v).isValid = true) :
    (ARMThumbImmediate.makeUInt12OrEncodedImm encodable v).value = toUInt32 v := by
  unfold ARMThumbImmediate.makeUInt12OrEncodedImm at h ⊢
  by_cases h1 : 0 ≤ v ∧ v < 4096
  · simp only [h1, and_self, if_true]
    unfold toUInt32; omega
  · simp only [h1, if_false] at h ⊢
    unfold ARMThumbImmediate.makeEncodedImm at h ⊢
    by_cases h2 : encodable (toUInt32 v) = true
    · simp [h2]
    · simp [h2, ARMThumbImmediate.invalid, ARMThumbImmediate.isValid] at h

theorem toUInt32_wrapInt32_neg (v : Int) :
    toUInt32 (wrapInt32 (-v)) = (4294967296 - toUInt32 v) % 4294967296 := by
  unfold wrapInt32 toInt32 toUInt32
  split_ifs <;> omega

theorem moveReg_straight (src dest : RegisterID) :
    ∀ i ∈ (moveReg src dest init).buffer, i.isStraight = true := by
  unfold moveReg
  simp only [buffer, emit, ARMv7Assembler.emit, init]
  split_ifs <;> simp [Instr.isStraight]

theorem execSeq_moveReg (src dest : RegisterID) (c : CPU) :
    execSeq (moveReg src dest init).buffer c = c.setReg dest (c.regs src % 4294967296)
    ∨ (src = dest ∧ execSeq (moveReg src dest init).buffer c = c) := by
  unfold moveReg
  simp only [buffer, emit, ARMv7Assembler.emit, init]
  by_cases h : src = dest
  · right; simp [h, execSeq]
  · left; simp [h, execSeq, Instr.exec, CPU.setReg]

theorem add32_straight (encodable : Nat → Bool) (imm : TrustedImm32) (src dest : RegisterID) :
    ∀ i ∈ (add32 encodable imm src dest init).buffer, i.isStraight = true := by
  have key : ∀ (d : RegisterID), ¬ (d = ARMRegisters.sp ∧ src ≠ d) →
      ∀ i ∈ (add32 encodable imm src d init).buffer, i.isStraight = true := by
    intro d h
    rw [add32_of_not_sp _ _ _ _ init h]
    split_ifs
    · simp [emit_buffer, init_buffer, Instr.isStraight]
    · simp [emit_buffer, init_buffer, Instr.isStraight]
    · rw [emit_buffer]
      intro i hi
      rcases List.mem_append.mp hi with h1 | h1
      · exact move_straight _ _ _ i h1
      · simp at h1; subst h1; rfl
  by_cases h : dest = ARMRegisters.sp ∧ src ≠ dest
  · rw [add32_of_sp _ _ _ _ init h, moveReg_buffer]
    intro i hi
    rcases List.mem_append.mp hi with h1 | h1
    · exact key _ (by simp) i h1
    · exact moveReg_straight _ _ i h1
  · exact key dest h

/-- The effect of the sequence `add32` emits when the destination is not the
stack pointer (or is also the source). -/
theorem execSeq_add32_direct (encodable : Nat → Bool) (imm : TrustedImm32)
    (src dest : RegisterID) (c : CPU) (hsrc : src ≠ dataTempRegister)
    (h : ¬ (dest = ARMRegisters.sp ∧ src ≠ dest)) :
    execSeq (add32 encodable imm src dest init).buffer c
        = c.setReg dest (c.regs src + toUInt32 imm.m_value)
    ∨ execSeq (add32 encodable imm src dest init).buffer c
        = (c.setReg dataTempRegister (toUInt32 imm.m_value)).setReg dest
            (c.regs src + toUInt32 imm.m_value) := by
  have hlt := toUInt32_lt imm.m_value
  rw [add32_of_not_sp _ _ _ _ init h]
  by_cases h1 : (ARMThumbImmediate.makeUInt12OrEncodedImm encodable imm.m_value).isValid = true
  · left
    rw [if_pos h1]
    simp only [emit_buffer, init_buffer, List.nil_append, execSeq, List.foldl_cons,
      List.foldl_nil, Instr.exec, makeUInt12OrEncodedImm_value _ _ h1]
  · by_cases h2 : (ARMThumbImmediate.makeUInt12OrEncodedImm encodable
        (wrapInt32 (-imm.m_value))).isValid = true
    · left
      rw [if_neg h1, if_pos h2]
      simp only [emit_buffer, init_buffer, List.nil_append, execSeq,
        List.foldl_cons, List.foldl_nil, Instr.exec, makeUInt12OrEncodedImm_value _ _ h2,
        toUInt32_wrapInt32_neg]
      apply setReg_congr; omega
    · right
      rw [if_neg h1, if_neg h2, emit_buffer, execSeq_append, execSeq_move]
      simp only [execSeq, List.foldl_cons, List.foldl_nil, Instr.exec]
      rw [setReg_regs_other _ _ _ _ hsrc, setReg_regs_same]
      apply setReg_congr; omega

/-- The sequence `add32` emits leaves the sum in `dest` and touches neither the
memory, the access log nor the floating-point registers. -/
theorem execSeq_add32 (encodable : Nat → Bool) (imm : TrustedImm32)
    (src dest : RegisterID) (c : CPU) (hsrc : src ≠ dataTempRegister) :
    (execSeq (add32 encodable imm src dest init).buffer c).regs dest
        = (c.regs src + toUInt32 imm.m_value) % 4294967296
    ∧ (execSeq (add32 encodable imm src dest init).buffer c).mem = c.mem
    ∧ (execSeq (add32 encodable imm src dest init).buffer c).accesses = c.accesses
    ∧ (execSeq (add32 encodable imm src dest init).buffer c).fpr = c.fpr := by
  have direct : ∀ d : RegisterID, ¬ (d = ARMRegisters.sp ∧ src ≠ d) →
      (execSeq (add32 encodable imm src d init).buffer c).regs d
        = (c.regs src + toUInt32 imm.m_value) % 4294967296
      ∧ (execSeq (add32 encodable imm src d init).buffer c).mem = c.mem
      ∧ (execSeq (add32 encodable imm src d init).buffer c).accesses = c.accesses
      ∧ (execSeq (add32 encodable imm src d init).buffer c).fpr = c.fpr := by
    intro d hd
    rcases execSeq_add32_direct encodable imm src d c hsrc hd with e | e <;>
      rw [e] <;> simp [CPU.setReg]
  by_cases h : dest = ARMRegisters.sp ∧ src ≠ dest
  · rw [add32_of_sp _ _ _ _ init h, moveReg_buffer, execSeq_append]
    obtain ⟨h1, h2, h3, h4⟩ := direct addressTempRegister (by simp)
    rcases execSeq_moveReg addressTempRegister dest
        (execSeq (add32 encodable imm src addressTempRegister init).buffer c) with e | ⟨e, _⟩
    · rw [e]
      simp [CPU.setReg, h1, h2, h3, h4]
    · rw [← e] at h; exact absurd h.1 (by decide)
  · exact direct dest h


theorem run_succ (a : ARMv7Assembler) (n : Nat) (s : Machine) :
    Machine.run a (n + 1) s = Machine.run a n (Machine.step a s) := rfl

theorem run_zero (a : ARMv7Assembler) (s : Machine) : Machine.run a 0 s = s := rfl

theorem run_add (a : ARMv7Assembler) (n k : Nat) :
    ∀ s : Machine, Machine.run a (n + k) s = Machine.run a k (Machine.run a n s) := by
  induction n with
  | zero => intro s; simp [run_zero]
  | succ n ih => intro s; rw [Nat.add_right_comm, run_succ, run_succ, ih]

theorem getElem?_append_add (pre rest : List Instr) (k : Nat) :
    (pre ++ rest)[pre.length + k]? = rest[k]? := by
  rw [List.getElem?_append_right (Nat.le_add_right _ _)]; simp

theorem step_halted (a : ARMv7Assembler) (s : Machine) (h : s.halted a = true) :
    Machine.step a s = s := by
  unfold Machine.step
  cases he : s.exited with
  | some l => rfl
  | none =>
    have hp : a.buffer.length ≤ s.pc := by simpa [Machine.halted, he] using h
    simp [List.getElem?_eq_none hp]

theorem run_halted (a : ARMv7Assembler) (n : Nat) (s : Machine) (h : s.halted a = true) :
    Machine.run a n s = s := by
  induction n with
  | zero => rfl
  | succ n ih => rw [run_succ, step_halted a s h, ih]

/-- The block `makeBranch` and `jump` end with: under the condition of the `it`,
the scratch register is loaded and the `bx` either follows its link record or
leaves the buffer; otherwise the three instructions are skipped. -/
theorem run_branch_block (a : ARMv7Assembler) (pre post : List Instr) (cond : Condition)
    (i1 i2 : ARMThumbImmediate) (c : CPU)
    (hb : a.buffer = pre ++ ([.it cond [true, true], .movT3 dataTempRegister i1,
      .movt dataTempRegister i2, .bx dataTempRegister] ++ post)) :
    Machine.run a 4 ⟨c, [], pre.length, none⟩ =
      if cond.holds c.apsr = true then
        match a.m_jumpsToLink.find? (fun r => r.m_from == pre.length + 4) with
        | some r => ⟨(Instr.movt dataTempRegister i2).exec
            ((Instr.movT3 dataTempRegister i1).exec c), [], r.m_to, none⟩
        | none => ⟨(Instr.movt dataTempRegister i2).exec
            ((Instr.movT3 dataTempRegister i1).exec c), [], pre.length + 3,
            some (pre.length + 4)⟩
      else ⟨c, [], pre.length + 4, none⟩ := by
  have h0 : a.buffer[pre.length]? = some (.it cond [true, true]) := by
    have := getElem?_append_add pre ([.it cond [true, true], .movT3 dataTempRegister i1,
      .movt dataTempRegister i2, .bx dataTempRegister] ++ post) 0
    rw [hb]; simpa using this
  have h1 : a.buffer[pre.length + 1]? = some (.movT3 dataTempRegister i1) := by
    rw [hb, getElem?_append_add]; simp
  have h2 : a.buffer[pre.length + 1 + 1]? = some (.movt dataTempRegister i2) := by
    rw [hb, Nat.add_assoc, getElem?_append_add]; simp
  have h3 : a.buffer[pre.length + 1 + 1 + 1]? = some (.bx dataTempRegister) := by
    rw [hb, Nat.add_assoc, Nat.add_assoc, getElem?_append_add]; simp
  rw [show (4 : Nat) = 0 + 1 + 1 + 1 + 1 from rfl]
  by_cases h : cond.holds c.apsr = true
  · rw [if_pos h]
    simp only [run_succ, run_zero, Machine.step, h0, h1, h2, h3, Machine.perform, List.map,
      Instr.exec, CPU.setReg, h, beq_self_eq_true, if_true]
  · rw [if_neg h]
    have h' : cond.holds c.apsr = false := by simpa using h
    simp [run_succ, run_zero, Machine.step, h0, h1, h2, h3, Machine.perform, List.map, h',
      Nat.add_assoc]

/-! ## Claims -/

/-- C1: for every 32-bit value `v` and every destination register, running the
sequence emitted by `move(TrustedImm32(v), dest)` ends by falling off the end of
the sequence with `dest` holding exactly the bit pattern of `v`, whichever of
the three forms (encoded `mov`, `mvn` of the encoded complement, 16-bit `mov`
with optional `movt`) the legality predicate selects. -/
theorem move_imm32_roundtrip (encodable : Nat → Bool) (v : Int) (dest : RegisterID) (c : CPU) :
    ((move encodable ⟨v⟩ dest init).m_assembler.execute c).halted
        (move encodable ⟨v⟩ dest init).m_assembler = true
    ∧ ((move encodable ⟨v⟩ dest init).m_assembler.execute c).exited = none
    ∧ ((move encodable ⟨v⟩ dest init).m_assembler.execute c).cpu.regs dest = toUInt32 v := by
  rw [execute_straight _ c (move_straight encodable ⟨v⟩ dest)]
  refine ⟨by simp [Machine.halted], rfl, ?_⟩
  show (execSeq (move encodable ⟨v⟩ dest init).buffer c).regs dest = toUInt32 v
  rw [execSeq_move, setReg_regs_same]
  exact Nat.mod_eq_of_lt (toUInt32_lt v)

/-- C2: for every immediate, every source register other than `dataTempRegister`
and every destination register, running the sequence emitted by
`add32(imm, src, dest)` ends with `dest = (src_before + imm) mod 2^32`, on each
of its paths (add-immediate, sub-immediate of the negation, scratch move plus
register add, and the detour through `addressTempRegister` for `sp`). -/
theorem add32_imm_result (encodable : Nat → Bool) (imm : TrustedImm32)
    (src dest : RegisterID) (c : CPU) (hsrc : src ≠ dataTempRegister) :
    ((add32 encodable imm src dest init).m_assembler.execute c).halted
        (add32 encodable imm src dest init).m_assembler = true
    ∧ ((add32 encodable imm src dest init).m_assembler.execute c).exited = none
    ∧ ((add32 encodable imm src dest init).m_assembler.execute c).cpu.regs dest
        = (c.regs src + toUInt32 imm.m_value) % 4294967296 := by
  rw [execute_straight _ c (add32_straight encodable imm src dest)]
  refine ⟨by simp [Machine.halted], rfl, ?_⟩
  exact (execSeq_add32 encodable imm src dest c hsrc).1

/-- Witness for C2: `add32(TrustedImm32(0x12345), r0)` under the Thumb-2
legality predicate emits the two-step load into `ip` and a register add, and
leaves `r0 = r0_before + 0x12345`. -/
theorem add32_imm_result_witness :
    RegisterID.r0 ≠ dataTempRegister
    ∧ (add32Imm thumb2Encodable ⟨0x12345⟩ .r0 init).buffer
        = [.mov .r12 ⟨.TypeUInt16, 0x2345⟩, .movt .r12 ⟨.TypeUInt16, 1⟩, .addReg .r0 .r0 .r12]
    ∧ ((add32Imm thumb2Encodable ⟨0x12345⟩ .r0 init).m_assembler.execute CPU.sample).cpu.regs .r0
        = 7 + 0x12345 :=
  ⟨by decide, by
    rw [add32Imm, add32_of_not_sp _ _ _ _ _ (by decide)]
    decide,
   (add32_imm_result thumb2Encodable ⟨0x12345⟩ .r0 .r0 CPU.sample (by decide)).2.2⟩

theorem toInt32_bounds (n : Nat) : -2147483648 ≤ toInt32 n ∧ toInt32 n ≤ 2147483647 := by
  unfold toInt32; split_ifs <;> omega

theorem smull_overflow_arith (p : Int) (h1 : -4611686018427387904 ≤ p)
    (h2 : p ≤ 4611686018427387904) :
    (toUInt32 (toInt32 ((p % 18446744073709551616).toNat % 4294967296 % 4294967296) / 2 ^ 31)
          % 4294967296 % 4294967296
        + (4294967296 - (p % 18446744073709551616).toNat / 4294967296 % 4294967296 % 4294967296))
        % 4294967296 = 0 ↔ isInt32 p := by
  unfold toUInt32 toInt32 isInt32
  norm_num
  split_ifs <;> omega

theorem int32_mul_bounds (x y : Int) (hx : -2147483648 ≤ x ∧ x ≤ 2147483647)
    (hy : -2147483648 ≤ y ∧ y ≤ 2147483647) :
    -4611686018427387904 ≤ x * y ∧ x * y ≤ 4611686018427387904 := by
  constructor <;> nlinarith [hx.1, hx.2, hy.1, hy.2]

theorem branchMul32_overflow_eq (enc : Nat → Bool) (src1 src2 dest : RegisterID) :
    branchMul32 enc .Overflow src1 src2 dest init
      = (⟨7, .JumpCondition, .ConditionNE⟩,
         ⟨⟨[.smull dest .r12 src1 src2, .asr .r6 dest 31, .cmp .r6 .r12,
            .it .ConditionNE [true, true], .movT3 .r12 ⟨.TypeUInt16, 0⟩,
            .movt .r12 ⟨.TypeUInt16, 0⟩, .bx .r12], []⟩, false⟩) := by
  rfl

/-- Where the run of the sequence emitted by `branchMul32(Overflow, ...)` ends. -/
theorem execute_branchMul32_overflow (enc : Nat → Bool) (src1 src2 dest : RegisterID) (c : CPU)
    (hd : dest ≠ dataTempRegister) :
    ((branchMul32 enc .Overflow src1 src2 dest init).2.m_assembler.execute c).exited
      = (if isInt32 (toInt32 (c.regs src1) * toInt32 (c.regs src2)) then none else some 7)
    ∧ ((branchMul32 enc .Overflow src1 src2 dest init).2.m_assembler.execute c).halted
        (branchMul32 enc .Overflow src1 src2 dest init).2.m_assembler = true := by
  rw [branchMul32_overflow_eq]
  simp only [ARMv7Assembler.execute, Machine.boot, List.length_cons, List.length_nil]
  rw [show (0 + 1 + 1 + 1 + 1 + 1 + 1 + 1 : Nat) = 3 + 4 from rfl, run_add]
  have hs := run_straight ⟨[.smull dest .r12 src1 src2, .asr .r6 dest 31, .cmp .r6 .r12,
            .it .ConditionNE [true, true], .movT3 .r12 ⟨.TypeUInt16, 0⟩,
            .movt .r12 ⟨.TypeUInt16, 0⟩, .bx .r12], []⟩
      [.smull dest .r12 src1 src2, .asr .r6 dest 31, .cmp .r6 .r12]
      [.it .ConditionNE [true, true], .movT3 .r12 ⟨.TypeUInt16, 0⟩,
            .movt .r12 ⟨.TypeUInt16, 0⟩, .bx .r12] [] c rfl (by simp [Instr.isStraight])
  simp only [List.length_cons, List.length_nil, List.length_nil] at hs
  rw [hs]
  have hb := run_branch_block ⟨[.smull dest .r12 src1 src2, .asr .r6 dest 31, .cmp .r6 .r12,
            .it .ConditionNE [true, true], .movT3 .r12 ⟨.TypeUInt16, 0⟩,
            .movt .r12 ⟨.TypeUInt16, 0⟩, .bx .r12], []⟩
      [.smull dest .r12 src1 src2, .asr .r6 dest 31, .cmp .r6 .r12] [] .ConditionNE
      ⟨.TypeUInt16, 0⟩ ⟨.TypeUInt16, 0⟩
      (execSeq [.smull dest .r12 src1 src2, .asr .r6 dest 31, .cmp .r6 .r12] c) rfl
  simp only [List.length_cons, List.length_nil, List.find?_nil] at hb
  rw [hb]
  have hp := int32_mul_bounds _ _ (toInt32_bounds (c.regs src1)) (toInt32_bounds (c.regs src2))
  have ha := smull_overflow_arith _ hp.1 hp.2
  have hz : Condition.ConditionNE.holds
      (execSeq [.smull dest .r12 src1 src2, .asr .r6 dest 31, .cmp .r6 .r12] c).apsr = true
      ↔ ¬ isInt32 (toInt32 (c.regs src1) * toInt32 (c.regs src2)) := by
    rw [← ha]
    simp [execSeq, Instr.exec, Condition.holds, subFlags, CPU.setReg, hd, immShiftRightAmount]
  by_cases hi : isInt32 (toInt32 (c.regs src1) * toInt32 (c.regs src2))
  · have : ¬ Condition.ConditionNE.holds
      (execSeq [.smull dest .r12 src1 src2, .asr .r6 dest 31, .cmp .r6 .r12] c).apsr = true := by
      rw [hz]; exact not_not.mpr hi
    rw [if_neg this, if_pos hi]
    exact ⟨rfl, rfl⟩
  · rw [if_pos (hz.mpr hi), if_neg hi]
    exact ⟨rfl, rfl⟩

/-- C3: for all signed 32-bit values held in `src1` and `src2` and every `dest`
other than `dataTempRegister`, the run of the sequence emitted by
`branchMul32(Overflow, src1, src2, dest)` ends, and the returned jump is taken
if and only if the exact product lies outside `[-2^31, 2^31 - 1]`. -/
theorem branchMul32_overflow_iff (encodable : Nat → Bool) (src1 src2 dest : RegisterID) (c : CPU)
    (hd : dest ≠ dataTempRegister) :
    ((branchMul32 encodable .Overflow src1 src2 dest init).2.m_assembler.execute c).halted
        (branchMul32 encodable .Overflow src1 src2 dest init).2.m_assembler = true
    ∧ ((branchMul32 encodable .Overflow src1 src2 dest init).1.taken
          ((branchMul32 encodable .Overflow src1 src2 dest init).2.m_assembler.execute c)
        ↔ ¬ isInt32 (toInt32 (c.regs src1) * toInt32 (c.regs src2))) := by
  obtain ⟨he, hh⟩ := execute_branchMul32_overflow encodable src1 src2 dest c hd
  refine ⟨hh, ?_⟩
  unfold Jump.taken
  rw [he, branchMul32_overflow_eq]
  by_cases hi : isInt32 (toInt32 (c.regs src1) * toInt32 (c.regs src2))
  · simp [hi]
  · simp [hi]

/-- Witness for C3: with `r0 = 0x7FFFFFFF` and `r1 = 2` the jump of
`branchMul32(Overflow, r0, r1, r2)` is taken. -/
theorem branchMul32_overflow_iff_witness :
    RegisterID.r2 ≠ dataTempRegister
    ∧ (branchMul32 thumb2Encodable .Overflow .r0 .r1 .r2 init).1.taken
        ((branchMul32 thumb2Encodable .Overflow .r0 .r1 .r2 init).2.m_assembler.execute
          ((CPU.sample.setReg .r0 0x7FFFFFFF).setReg .r1 2)) :=
  ⟨by decide,
   (branchMul32_overflow_iff thumb2Encodable .r0 .r1 .r2
      ((CPU.sample.setReg .r0 0x7FFFFFFF).setReg .r1 2) (by decide)).2.mpr (by decide)⟩

theorem branchDouble_neAndOrdered_eq (left right : FPRegisterID) :
    branchDouble .DoubleNotEqualAndOrdered left right init
      = (⟨10, .JumpCondition, .ConditionNE⟩,
         ⟨⟨[.vcmp left right, .vmrs,
            .it .ConditionVS [true, true], .movT3 .r12 ⟨.TypeUInt16, 0⟩,
            .movt .r12 ⟨.TypeUInt16, 0⟩, .bx .r12,
            .it .ConditionNE [true, true], .movT3 .r12 ⟨.TypeUInt16, 0⟩,
            .movt .r12 ⟨.TypeUInt16, 0⟩, .bx .r12],
           [⟨6, 10, .JumpCondition, .ConditionVS⟩]⟩, false⟩) := by
  rfl

/-- Where the run of the sequence emitted by
`branchDouble(DoubleNotEqualAndOrdered, ...)` ends. -/
theorem execute_branchDouble_neAndOrdered (left right : FPRegisterID) (c : CPU) :
    ((branchDouble .DoubleNotEqualAndOrdered left right init).2.m_assembler.execute c).exited
      = (if doubleCompare (c.fpr left) (c.fpr right) = .lessThan
            ∨ doubleCompare (c.fpr left) (c.fpr right) = .greaterThan then some 10 else none)
    ∧ ((branchDouble .DoubleNotEqualAndOrdered left right init).2.m_assembler.execute c).halted
        (branchDouble .DoubleNotEqualAndOrdered left right init).2.m_assembler = true := by
  rw [branchDouble_neAndOrdered_eq]
  simp only [ARMv7Assembler.execute, Machine.boot, List.length_cons, List.length_nil]
  rw [show (0 + 1 + 1 + 1 + 1 + 1 + 1 + 1 + 1 + 1 + 1 : Nat) = 2 + (4 + 4) from rfl, run_add,
    run_add]
  have hs := run_straight ⟨[.vcmp left right, .vmrs,
            .it .ConditionVS [true, true], .movT3 .r12 ⟨.TypeUInt16, 0⟩,
            .movt .r12 ⟨.TypeUInt16, 0⟩, .bx .r12,
            .it .ConditionNE [true, true], .movT3 .r12 ⟨.TypeUInt16, 0⟩,
            .movt .r12 ⟨.TypeUInt16, 0⟩, .bx .r12],
           [⟨6, 10, .JumpCondition, .ConditionVS⟩]⟩
      [.vcmp left right, .vmrs]
      [.it .ConditionVS [true, true], .movT3 .r12 ⟨.TypeUInt16, 0⟩,
            .movt .r12 ⟨.TypeUInt16, 0⟩, .bx .r12,
            .it .ConditionNE [true, true], .movT3 .r12 ⟨.TypeUInt16, 0⟩,
            .movt .r12 ⟨.TypeUInt16, 0⟩, .bx .r12] [] c rfl (by simp [Instr.isStraight])
  simp only [List.length_cons, List.length_nil, List.length_nil] at hs
  rw [hs]
  have hb1 := run_branch_block ⟨[.vcmp left right, .vmrs,
            .it .ConditionVS [true, true], .movT3 .r12 ⟨.TypeUInt16, 0⟩,
            .movt .r12 ⟨.TypeUInt16, 0⟩, .bx .r12,
            .it .ConditionNE [true, true], .movT3 .r12 ⟨.TypeUInt16, 0⟩,
            .movt .r12 ⟨.TypeUInt16, 0⟩, .bx .r12],
           [⟨6, 10, .JumpCondition, .ConditionVS⟩]⟩
      [.vcmp left right, .vmrs]
      [.it .ConditionNE [true, true], .movT3 .r12 ⟨.TypeUInt16, 0⟩,
            .movt .r12 ⟨.TypeUInt16, 0⟩, .bx .r12] .ConditionVS
      ⟨.TypeUInt16, 0⟩ ⟨.TypeUInt16, 0⟩
      (execSeq [.vcmp left right, .vmrs] c) rfl
  have hb2 := run_branch_block ⟨[.vcmp left right, .vmrs,
            .it .ConditionVS [true, true], .movT3 .r12 ⟨.TypeUInt16, 0⟩,
            .movt .r12 ⟨.TypeUInt16, 0⟩, .bx .r12,
            .it .ConditionNE [true, true], .movT3 .r12 ⟨.TypeUInt16, 0⟩,
            .movt .r12 ⟨.TypeUInt16, 0⟩, .bx .r12],
           [⟨6, 10, .JumpCondition, .ConditionVS⟩]⟩
      [.vcmp left right, .vmrs,
            .it .ConditionVS [true, true], .movT3 .r12 ⟨.TypeUInt16, 0⟩,
            .movt .r12 ⟨.TypeUInt16, 0⟩, .bx .r12]
      [] .ConditionNE
      ⟨.TypeUInt16, 0⟩ ⟨.TypeUInt16, 0⟩
      (execSeq [.vcmp left right, .vmrs] c) rfl
  simp only [List.length_cons, List.length_nil, List.find?, Nat.reduceAdd, Nat.reduceBEq,
    beq_self_eq_true] at hb1 hb2
  have hf : (execSeq [.vcmp left right, .vmrs] c).apsr
      = (doubleCompare (c.fpr left) (c.fpr right)).flags := by
    simp [execSeq, Instr.exec]
  rw [hf] at hb1 hb2
  simp only [Nat.reduceAdd]
  rw [hb1]
  cases hc : doubleCompare (c.fpr left) (c.fpr right) <;>
    simp only [hc, FPCompareResult.flags, Condition.holds] at hb2 ⊢ <;>
    simp [hb2, run_halted, Machine.halted]

theorem doubleCompare_ordered_unequal (x y : Nat) :
    (doubleCompare x y = .lessThan ∨ doubleCompare x y = .greaterThan)
      ↔ (doubleIsNaN x = false ∧ doubleIsNaN y = false ∧ doubleOrderKey x ≠ doubleOrderKey y) := by
  unfold doubleCompare
  cases hx : doubleIsNaN x <;> cases hy : doubleIsNaN y <;> simp
  by_cases hk : doubleOrderKey x = doubleOrderKey y
  · simp [hk]
  · simp only [hk, if_false]
    by_cases hl : doubleOrderKey x < doubleOrderKey y <;> simp [hl]

/-- C4: `branchDouble(DoubleNotEqualAndOrdered, left, right)` emits the compare,
a branch on VS, a branch on NE, links the VS branch to the position after the NE
branch and returns the NE branch; the run of this sequence ends, and the
returned jump is taken if and only if neither operand is a NaN and the operands
are numerically unequal. -/
theorem branchDouble_notEqualAndOrdered_taken (left right : FPRegisterID) (c : CPU) :
    branchDouble .DoubleNotEqualAndOrdered left right init
      = (⟨10, .JumpCondition, .ConditionNE⟩,
         ⟨⟨[.vcmp left right, .vmrs,
            .it .ConditionVS [true, true], .movT3 .r12 ⟨.TypeUInt16, 0⟩,
            .movt .r12 ⟨.TypeUInt16, 0⟩, .bx .r12,
            .it .ConditionNE [true, true], .movT3 .r12 ⟨.TypeUInt16, 0⟩,
            .movt .r12 ⟨.TypeUInt16, 0⟩, .bx .r12],
           [⟨6, 10, .JumpCondition, .ConditionVS⟩]⟩, false⟩)
    ∧ ((branchDouble .DoubleNotEqualAndOrdered left right init).2.m_assembler.execute c).halted
        (branchDouble .DoubleNotEqualAndOrdered left right init).2.m_assembler = true
    ∧ ((branchDouble .DoubleNotEqualAndOrdered left right init).1.taken
          ((branchDouble .DoubleNotEqualAndOrdered left right init).2.m_assembler.execute c)
        ↔ (doubleIsNaN (c.fpr left) = false ∧ doubleIsNaN (c.fpr right) = false
            ∧ doubleOrderKey (c.fpr left) ≠ doubleOrderKey (c.fpr right))) := by
  obtain ⟨he, hh⟩ := execute_branchDouble_neAndOrdered left right c
  refine ⟨rfl, hh, ?_⟩
  unfold Jump.taken
  rw [he, ← doubleCompare_ordered_unequal, branchDouble_neAndOrdered_eq]
  by_cases hi : doubleCompare (c.fpr left) (c.fpr right) = .lessThan
            ∨ doubleCompare (c.fpr left) (c.fpr right) = .greaterThan
  · simp [hi]
  · simp [hi]

theorem read32_lt (c : CPU) (a : Nat) : c.read32 a < 4294967296 := by
  unfold CPU.read32; omega

theorem load32_buffer_window (encodable : Nat → Bool) (address : Address) (dest : RegisterID)
    (h : -255 ≤ address.offset ∧ address.offset ≤ 4095) :
    (load32 encodable address dest init).buffer
      = [if address.offset ≥ 0 then
            .ldr dest address.base (ARMThumbImmediate.makeUInt12 address.offset)
          else .ldrOffset dest address.base address.offset true false] := by
  have h' : address.offset ≥ -0xff ∧ address.offset ≤ 0xfff := h
  unfold load32 setupArmAddress
  rw [if_pos h']
  simp only [load32Arm]
  split_ifs <;> rfl

theorem load32_buffer_far (encodable : Nat → Bool) (address : Address) (dest : RegisterID)
    (h : ¬ (-255 ≤ address.offset ∧ address.offset ≤ 4095)) :
    (load32 encodable address dest init).buffer
      = (move encodable ⟨address.offset⟩ addressTempRegister init).buffer
          ++ [.ldrIndex dest address.base addressTempRegister 0] := by
  have h' : ¬ (address.offset ≥ -0xff ∧ address.offset ≤ 0xfff) := h
  unfold load32 setupArmAddress
  rw [if_neg h']
  rfl

theorem store32_buffer_window (encodable : Nat → Bool) (address : Address) (src : RegisterID)
    (h : -255 ≤ address.offset ∧ address.offset ≤ 4095) :
    (store32 encodable src address init).buffer
      = [if address.offset ≥ 0 then
            .str src address.base (ARMThumbImmediate.makeUInt12 address.offset)
          else .strOffset src address.base address.offset true false] := by
  have h' : address.offset ≥ -0xff ∧ address.offset ≤ 0xfff := h
  unfold store32 setupArmAddress
  rw [if_pos h']
  simp only [store32Arm]
  split_ifs <;> rfl

theorem store32_buffer_far (encodable : Nat → Bool) (address : Address) (src : RegisterID)
    (h : ¬ (-255 ≤ address.offset ∧ address.offset ≤ 4095)) :
    (store32 encodable src address init).buffer
      = (move encodable ⟨address.offset⟩ addressTempRegister init).buffer
          ++ [.strIndex src address.base addressTempRegister 0] := by
  have h' : ¬ (address.offset ≥ -0xff ∧ address.offset ≤ 0xfff) := h
  unfold store32 setupArmAddress
  rw [if_neg h']
  rfl

theorem load32_straight (encodable : Nat → Bool) (address : Address) (dest : RegisterID) :
    ∀ i ∈ (load32 encodable address dest init).buffer, i.isStraight = true := by
  by_cases h : -255 ≤ address.offset ∧ address.offset ≤ 4095
  · rw [load32_buffer_window _ _ _ h]
    split_ifs <;> simp [Instr.isStraight]
  · rw [load32_buffer_far _ _ _ h]
    intro i hi
    rcases List.mem_append.mp hi with h1 | h1
    · exact move_straight _ _ _ i h1
    · simp at h1; subst h1; rfl

theorem store32_straight (encodable : Nat → Bool) (address : Address) (src : RegisterID) :
    ∀ i ∈ (store32 encodable src address init).buffer, i.isStraight = true := by
  by_cases h : -255 ≤ address.offset ∧ address.offset ≤ 4095
  · rw [store32_buffer_window _ _ _ h]
    split_ifs <;> simp [Instr.isStraight]
  · rw [store32_buffer_far _ _ _ h]
    intro i hi
    rcases List.mem_append.mp hi with h1 | h1
    · exact move_straight _ _ _ i h1
    · simp at h1; subst h1; rfl

theorem toUInt32_add_nat (x : Nat) (o : Int) :
    (x + toUInt32 o) % 4294967296 = toUInt32 ((x : Int) + o) := by
  unfold toUInt32; omega

/-- The effect of the sequence `load32(Address, dest)` emits. -/
theorem execSeq_load32 (encodable : Nat → Bool) (address : Address) (dest : RegisterID) (c : CPU)
    (hb : address.base ≠ addressTempRegister) :
    (execSeq (load32 encodable address dest init).buffer c).accesses
        = c.accesses ++ [⟨false, toUInt32 ((c.regs address.base : Int) + address.offset), 4⟩]
    ∧ (execSeq (load32 encodable address dest init).buffer c).regs dest
        = c.read32 (toUInt32 ((c.regs address.base : Int) + address.offset))
    ∧ (execSeq (load32 encodable address dest init).buffer c).mem = c.mem := by
  have hr := read32_lt c (toUInt32 ((c.regs address.base : Int) + address.offset))
  by_cases h : -255 ≤ address.offset ∧ address.offset ≤ 4095
  · rw [load32_buffer_window _ _ _ h]
    by_cases h0 : address.offset ≥ 0
    · have e : (c.regs address.base + address.offset.toNat) % 4294967296
          = toUInt32 ((c.regs address.base : Int) + address.offset) := by
        unfold toUInt32; omega
      have hv : (0 ≤ address.offset ∧ address.offset < 4096) := by omega
      simp only [if_pos h0, execSeq, List.foldl_cons, List.foldl_nil, Instr.exec,
        ARMThumbImmediate.makeUInt12, if_pos hv, e, CPU.load32, CPU.setReg, CPU.logAccess,
        if_true, CPU.read32] at hr ⊢
      refine ⟨?_, ?_, ?_⟩ <;> first | trivial | rfl | exact Nat.mod_eq_of_lt hr
    · simp only [if_neg h0, execSeq, List.foldl_cons, List.foldl_nil, Instr.exec,
        CPU.load32, CPU.setReg, CPU.logAccess, if_true, CPU.read32] at hr ⊢
      refine ⟨?_, ?_, ?_⟩ <;> first | trivial | rfl | exact Nat.mod_eq_of_lt hr
  · rw [load32_buffer_far _ _ _ h, execSeq_append, execSeq_move]
    have e : ((c.setReg addressTempRegister (toUInt32 address.offset)).regs address.base
          + (c.setReg addressTempRegister (toUInt32 address.offset)).regs addressTempRegister <<< 0)
          % 4294967296 = toUInt32 ((c.regs address.base : Int) + address.offset) := by
      rw [setReg_regs_other _ _ _ _ hb, setReg_regs_same, Nat.shiftLeft_zero,
        ← toUInt32_add_nat]
      omega
    simp only [execSeq, List.foldl_cons, List.foldl_nil, Instr.exec, e]
    simp only [CPU.load32, CPU.setReg, CPU.logAccess, if_true, CPU.read32] at hr ⊢
    refine ⟨?_, ?_, ?_⟩ <;> first | trivial | rfl | exact Nat.mod_eq_of_lt hr

/-- The effect of the sequence `store32(src, Address)` emits. -/
theorem execSeq_store32 (encodable : Nat → Bool) (address : Address) (src : RegisterID) (c : CPU)
    (hb : address.base ≠ addressTempRegister) :
    (execSeq (store32 encodable src address init).buffer c).accesses
        = c.accesses ++ [⟨true, toUInt32 ((c.regs address.base : Int) + address.offset), 4⟩]
    ∧ (execSeq (store32 encodable src address init).buffer c).mem
        = (c.write32 (toUInt32 ((c.regs address.base : Int) + address.offset))
            ((execSeq (store32 encodable src address init).buffer c).regs src % 4294967296)).mem := by
  by_cases h : -255 ≤ address.offset ∧ address.offset ≤ 4095
  · rw [store32_buffer_window _ _ _ h]
    by_cases h0 : address.offset ≥ 0
    · have e : (c.regs address.base + address.offset.toNat) % 4294967296
          = toUInt32 ((c.regs address.base : Int) + address.offset) := by
        unfold toUInt32; omega
      have hv : (0 ≤ address.offset ∧ address.offset < 4096) := by omega
      simp only [if_pos h0, execSeq, List.foldl_cons, List.foldl_nil, Instr.exec,
        ARMThumbImmediate.makeUInt12, if_pos hv, e, CPU.store32, CPU.write32, CPU.logAccess]
      exact ⟨trivial, trivial⟩
    · simp only [if_neg h0, execSeq, List.foldl_cons, List.foldl_nil, Instr.exec,
        CPU.store32, CPU.write32, CPU.logAccess, if_true, Bool.false_eq_true, if_false]
      exact ⟨trivial, trivial⟩
  · rw [store32_buffer_far _ _ _ h, execSeq_append, execSeq_move]
    have e : ((c.setReg addressTempRegister (toUInt32 address.offset)).regs address.base
          + (c.setReg addressTempRegister (toUInt32 address.offset)).regs addressTempRegister <<< 0)
          % 4294967296 = toUInt32 ((c.regs address.base : Int) + address.offset) := by
      rw [setReg_regs_other _ _ _ _ hb, setReg_regs_same, Nat.shiftLeft_zero,
        ← toUInt32_add_nat]
      omega
    simp only [execSeq, List.foldl_cons, List.foldl_nil, Instr.exec, e]
    simp only [CPU.store32, CPU.setReg, CPU.write32, CPU.logAccess]
    exact ⟨trivial, trivial⟩

/-- C5: for every `Address` whose base is not `addressTempRegister`, the
sequences emitted by `load32(Address, r)` and `store32(r, Address)` consist of
the load or store alone when `-255 <= offset <= 4095`, and of the move of the
offset into `addressTempRegister` followed by one register-indexed load or
store otherwise; running them makes exactly one access, to the word at
`(base + offset) mod 2^32`: the load leaves that word in `r`, the store writes
the value of `r` there. -/
theorem load32_store32_address (encodable : Nat → Bool) (address : Address) (r : RegisterID)
    (c : CPU) (hb : address.base ≠ addressTempRegister) :
    (if -255 ≤ address.offset ∧ address.offset ≤ 4095 then
        (load32 encodable address r init).buffer
          = [if address.offset ≥ 0 then
                .ldr r address.base (ARMThumbImmediate.makeUInt12 address.offset)
              else .ldrOffset r address.base address.offset true false]
        ∧ (store32 encodable r address init).buffer
          = [if address.offset ≥ 0 then
                .str r address.base (ARMThumbImmediate.makeUInt12 address.offset)
              else .strOffset r address.base address.offset true false]
      else
        (load32 encodable address r init).buffer
          = (move encodable ⟨address.offset⟩ addressTempRegister init).buffer
              ++ [.ldrIndex r address.base addressTempRegister 0]
        ∧ (store32 encodable r address init).buffer
          = (move encodable ⟨address.offset⟩ addressTempRegister init).buffer
              ++ [.strIndex r address.base addressTempRegister 0])
    ∧ ((load32 encodable address r init).m_assembler.execute c).halted
        (load32 encodable address r init).m_assembler = true
    ∧ ((load32 encodable address r init).m_assembler.execute c).cpu.accesses
        = c.accesses ++ [⟨false, toUInt32 ((c.regs address.base : Int) + address.offset), 4⟩]
    ∧ ((load32 encodable address r init).m_assembler.execute c).cpu.regs r
        = c.read32 (toUInt32 ((c.regs address.base : Int) + address.offset))
    ∧ ((store32 encodable r address init).m_assembler.execute c).halted
        (store32 encodable r address init).m_assembler = true
    ∧ ((store32 encodable r address init).m_assembler.execute c).cpu.accesses
        = c.accesses ++ [⟨true, toUInt32 ((c.regs address.base : Int) + address.offset), 4⟩]
    ∧ ((store32 encodable r address init).m_assembler.execute c).cpu.mem
        = (c.write32 (toUInt32 ((c.regs address.base : Int) + address.offset))
            (((store32 encodable r address init).m_assembler.execute c).cpu.regs r
              % 4294967296)).mem := by
  refine ⟨?_, ?_⟩
  · by_cases h : -255 ≤ address.offset ∧ address.offset ≤ 4095
    · rw [if_pos h]
      exact ⟨load32_buffer_window _ _ _ h, store32_buffer_window _ _ _ h⟩
    · rw [if_neg h]
      exact ⟨load32_buffer_far _ _ _ h, store32_buffer_far _ _ _ h⟩
  · rw [execute_straight _ c (load32_straight encodable address r),
      execute_straight _ c (store32_straight encodable address r)]
    obtain ⟨l1, l2, _⟩ := execSeq_load32 encodable address r c hb
    obtain ⟨s1, s2⟩ := execSeq_store32 encodable address r c hb
    exact ⟨by simp [Machine.halted], l1, l2, by simp [Machine.halted], s1, s2⟩

/-- Witness for C5: base `r1`, offset `0x12345` (outside the window), register
`r0`, under the Thumb-2 legality predicate. -/
theorem load32_store32_address_witness :
    (⟨.r1, 0x12345⟩ : Address).base ≠ addressTempRegister
    ∧ ((load32 thumb2Encodable ⟨.r1, 0x12345⟩ .r0 init).m_assembler.execute CPU.sample).cpu.accesses
        = [⟨false, 7 + 0x12345, 4⟩]
    ∧ (load32 thumb2Encodable ⟨.r1, 0x12345⟩ .r0 init).buffer
        = [.mov .r6 ⟨.TypeUInt16, 0x2345⟩, .movt .r6 ⟨.TypeUInt16, 1⟩, .ldrIndex .r0 .r1 .r6 0] :=
  ⟨by decide,
   (load32_store32_address thumb2Encodable ⟨.r1, 0x12345⟩ .r0 CPU.sample (by decide)).2.2.1,
   by decide⟩

theorem move_buffer_ne_nil (encodable : Nat → Bool) (imm : TrustedImm32) (dest : RegisterID) :
    (move encodable imm dest init).buffer ≠ [] := by
  unfold move
  simp only [buffer, emit, ARMv7Assembler.emit, init]
  split_ifs <;> simp

/-- C6: `setupArmAddress(Address)` emits nothing and returns the `HasOffset`
form `(base, offset)` exactly when `-255 <= offset <= 4095`; for every other
offset it emits the move of the offset into `addressTempRegister` (at least one
instruction) and returns the `HasIndex` form with that register as index and
scale `TimesOne`. -/
theorem setupArmAddress_window (encodable : Nat → Bool) (address : Address)
    (m : MacroAssemblerARMv7) :
    (if -255 ≤ address.offset ∧ address.offset ≤ 4095 then
        setupArmAddress encodable address m = (.hasOffset address.base address.offset, m)
      else
        setupArmAddress encodable address m
          = (.hasIndex address.base addressTempRegister .TimesOne,
              move encodable ⟨address.offset⟩ addressTempRegister m))
    ∧ ((setupArmAddress encodable address m).1.type = .HasOffset
        ↔ (-255 ≤ address.offset ∧ address.offset ≤ 4095))
    ∧ ((setupArmAddress encodable address m).2.buffer = m.buffer
        ↔ (-255 ≤ address.offset ∧ address.offset ≤ 4095)) := by
  by_cases h : -255 ≤ address.offset ∧ address.offset ≤ 4095
  · have h' : address.offset ≥ -0xff ∧ address.offset ≤ 0xfff := h
    have e : setupArmAddress encodable address m = (.hasOffset address.base address.offset, m) := by
      unfold setupArmAddress; rw [if_pos h']
    rw [if_pos h, e]
    simp [h, ArmAddress.type]
  · have h' : ¬ (address.offset ≥ -0xff ∧ address.offset ≤ 0xfff) := h
    have e : setupArmAddress encodable address m
          = (.hasIndex address.base addressTempRegister .TimesOne,
              move encodable ⟨address.offset⟩ addressTempRegister m) := by
      unfold setupArmAddress; rw [if_neg h']
    rw [if_neg h, e]
    refine ⟨rfl, ?_, ?_⟩
    · simp [h, ArmAddress.type]
    · simp only [h, iff_false]
      rw [move_buffer]
      intro hc
      exact move_buffer_ne_nil encodable ⟨address.offset⟩ addressTempRegister
        (List.append_right_eq_self.mp hc)

theorem setupArmAddressBaseIndex_zero (encodable : Nat → Bool) (address : BaseIndex)
    (m : MacroAssemblerARMv7) (h : address.offset = 0) :
    setupArmAddressBaseIndex encodable address m
      = (.hasIndex address.base address.index address.scale, m) := by
  unfold setupArmAddressBaseIndex
  rw [if_neg (not_not.mpr h)]

theorem setupArmAddressBaseIndex_nonzero (encodable : Nat → Bool) (address : BaseIndex)
    (m : MacroAssemblerARMv7) (h : address.offset ≠ 0) :
    (setupArmAddressBaseIndex encodable address m).1
        = .hasIndex addressTempRegister address.index address.scale
    ∧ (setupArmAddressBaseIndex encodable address m).2.buffer
        = m.buffer ++
          (if (ARMThumbImmediate.makeUInt12OrEncodedImm encodable address.offset).isValid then
            [.add addressTempRegister address.base
              (ARMThumbImmediate.makeUInt12OrEncodedImm encodable address.offset)]
          else
            (move encodable ⟨address.offset⟩ addressTempRegister init).buffer
              ++ [.addReg addressTempRegister addressTempRegister address.base]) := by
  unfold setupArmAddressBaseIndex
  rw [if_pos h]
  refine ⟨rfl, ?_⟩
  by_cases hv : (ARMThumbImmediate.makeUInt12OrEncodedImm encodable address.offset).isValid = true
  · simp only [hv, if_true, emit_buffer]
  · simp only [hv, if_false, emit_buffer, move_buffer _ _ _ m, List.append_assoc,
      Bool.false_eq_true]

theorem setupArmAddressBaseIndex_straight (encodable : Nat → Bool) (address : BaseIndex) :
    ∀ i ∈ (setupArmAddressBaseIndex encodable address init).2.buffer, i.isStraight = true := by
  by_cases h : address.offset = 0
  · rw [setupArmAddressBaseIndex_zero _ _ _ h]; simp [init_buffer]
  · rw [(setupArmAddressBaseIndex_nonzero _ _ init h).2, init_buffer, List.nil_append]
    split_ifs
    · simp [Instr.isStraight]
    · intro i hi
      rcases List.mem_append.mp hi with h1 | h1
      · exact move_straight _ _ _ i h1
      · simp at h1; subst h1; rfl

/-- The value the sequence of `setupArmAddress(BaseIndex)` leaves in
`addressTempRegister` when the offset is not zero; the other registers of the
address keep their values. -/
theorem execSeq_setupArmAddressBaseIndex (encodable : Nat → Bool) (address : BaseIndex)
    (c : CPU) (h : address.offset ≠ 0) (hb : address.base ≠ addressTempRegister) :
    (execSeq (setupArmAddressBaseIndex encodable address init).2.buffer c)
      = c.setReg addressTempRegister (toUInt32 ((c.regs address.base : Int) + address.offset)) := by
  rw [(setupArmAddressBaseIndex_nonzero _ _ init h).2, init_buffer, List.nil_append]
  by_cases hv : (ARMThumbImmediate.makeUInt12OrEncodedImm encodable address.offset).isValid = true
  · rw [if_pos hv]
    simp only [execSeq, List.foldl_cons, List.foldl_nil, Instr.exec,
      makeUInt12OrEncodedImm_value _ _ hv]
    apply setReg_congr
    rw [toUInt32_add_nat, Nat.mod_eq_of_lt (toUInt32_lt _)]
  · rw [if_neg hv, execSeq_append, execSeq_move]
    simp only [execSeq, List.foldl_cons, List.foldl_nil, Instr.exec]
    rw [setReg_regs_same, setReg_regs_other _ _ _ _ hb, setReg_setReg]
    apply setReg_congr
    rw [← toUInt32_add_nat]
    omega

/-- C7: `setupArmAddress(BaseIndex)` with offset 0 emits nothing and returns
`(base, index, scale)`; with a non-zero offset it returns
`(addressTempRegister, index, scale)` after emitting one add-immediate when
`makeUInt12OrEncodedImm(offset)` is valid and otherwise the move of the offset
followed by a register add.  For a base other than `addressTempRegister` these
instructions leave `addressTempRegister = base + offset`, and when the index is
not `addressTempRegister` either, the effective address of the result after
running them is `base + offset + (index << scale)` modulo `2^32`. -/
theorem setupArmAddressBaseIndex_effective (encodable : Nat → Bool) (address : BaseIndex)
    (m : MacroAssemblerARMv7) (c : CPU) :
    (if address.offset = 0 then
        setupArmAddressBaseIndex encodable address m
          = (.hasIndex address.base address.index address.scale, m)
      else
        (setupArmAddressBaseIndex encodable address m).1
            = .hasIndex addressTempRegister address.index address.scale
        ∧ (setupArmAddressBaseIndex encodable address m).2.buffer
            = m.buffer ++
              (if (ARMThumbImmediate.makeUInt12OrEncodedImm encodable address.offset).isValid then
                [.add addressTempRegister address.base
                  (ARMThumbImmediate.makeUInt12OrEncodedImm encodable address.offset)]
              else
                (move encodable ⟨address.offset⟩ addressTempRegister init).buffer
                  ++ [.addReg addressTempRegister addressTempRegister address.base]))
    ∧ ((setupArmAddressBaseIndex encodable address init).2.m_assembler.execute c).halted
        (setupArmAddressBaseIndex encodable address init).2.m_assembler = true
    ∧ (address.base ≠ addressTempRegister → address.offset ≠ 0 →
        ((setupArmAddressBaseIndex encodable address init).2.m_assembler.execute c).cpu.regs
            addressTempRegister
          = toUInt32 ((c.regs address.base : Int) + address.offset))
    ∧ (address.base ≠ addressTempRegister → address.index ≠ addressTempRegister →
        (setupArmAddressBaseIndex encodable address init).1.effective
            ((setupArmAddressBaseIndex encodable address init).2.m_assembler.execute c).cpu
          = toUInt32 ((c.regs address.base : Int) + address.offset
              + ((c.regs address.index <<< address.scale.toNat : Nat) : Int))) := by
  have hex := execute_straight _ c (setupArmAddressBaseIndex_straight encodable address)
  refine ⟨?_, ?_, ?_, ?_⟩
  · by_cases h : address.offset = 0
    · rw [if_pos h]; exact setupArmAddressBaseIndex_zero _ _ _ h
    · rw [if_neg h]; exact setupArmAddressBaseIndex_nonzero _ _ _ h
  · rw [hex]; simp [Machine.halted]
  · intro hb h
    rw [hex]
    show (execSeq (setupArmAddressBaseIndex encodable address init).2.buffer c).regs
      addressTempRegister = _
    rw [execSeq_setupArmAddressBaseIndex _ _ _ h hb, setReg_regs_same,
      Nat.mod_eq_of_lt (toUInt32_lt _)]
  · intro hb hi
    rw [hex]
    show (setupArmAddressBaseIndex encodable address init).1.effective
      (execSeq (setupArmAddressBaseIndex encodable address init).2.buffer c) = _
    by_cases h : address.offset = 0
    · rw [setupArmAddressBaseIndex_zero _ _ _ h, h]
      simp only [init_buffer, execSeq, List.foldl_nil, ArmAddress.effective]
      unfold toUInt32; omega
    · rw [execSeq_setupArmAddressBaseIndex _ _ _ h hb,
        (setupArmAddressBaseIndex_nonzero _ _ init h).1]
      simp only [ArmAddress.effective]
      rw [setReg_regs_same, setReg_regs_other _ _ _ _ hi]
      unfold toUInt32; omega

/-- Witness for C7: base `r1`, index `r2`, scale 4 and offset `0x12345` under the
Thumb-2 legality predicate. -/
theorem setupArmAddressBaseIndex_effective_witness :
    (⟨.r1, .r2, .TimesFour, 0x12345⟩ : BaseIndex).base ≠ addressTempRegister
    ∧ (⟨.r1, .r2, .TimesFour, 0x12345⟩ : BaseIndex).index ≠ addressTempRegister
    ∧ (⟨.r1, .r2, .TimesFour, 0x12345⟩ : BaseIndex).offset ≠ 0
    ∧ ((setupArmAddressBaseIndex thumb2Encodable ⟨.r1, .r2, .TimesFour, 0x12345⟩
          init).2.m_assembler.execute CPU.sample).cpu.regs addressTempRegister = 7 + 0x12345
    ∧ (setupArmAddressBaseIndex thumb2Encodable ⟨.r1, .r2, .TimesFour, 0x12345⟩ init).1.effective
          ((setupArmAddressBaseIndex thumb2Encodable ⟨.r1, .r2, .TimesFour, 0x12345⟩
            init).2.m_assembler.execute CPU.sample).cpu
        = 7 + 0x12345 + 28 :=
  ⟨by decide, by decide, by decide,
   (setupArmAddressBaseIndex_effective thumb2Encodable ⟨.r1, .r2, .TimesFour, 0x12345⟩ init
      CPU.sample).2.2.1 (by decide) (by decide),
   (setupArmAddressBaseIndex_effective thumb2Encodable ⟨.r1, .r2, .TimesFour, 0x12345⟩ init
      CPU.sample).2.2.2 (by decide) (by decide)⟩

theorem vfp_offset_test (offset : Int) :
    (toUInt32 offset &&& 3 ≠ 0 ∨ offset > 255 * 4 ∨ offset < -(255 * 4))
      ↔ ¬ (offset % 4 = 0 ∧ -1020 ≤ offset ∧ offset ≤ 1020) := by
  have e : toUInt32 offset &&& 3 = toUInt32 offset % 4 :=
    Nat.and_pow_two_sub_one_eq_mod (toUInt32 offset) 2
  rw [e]
  unfold toUInt32
  omega

/-- The common shape of the four floating-point loads and stores: the memory
instruction alone when the offset passes the test, and otherwise `add32` into
`addressTempRegister` followed by the memory instruction at offset 0. -/
theorem vfp_access_buffer (encodable : Nat → Bool) (address : Address)
    (mk : RegisterID → Int → Instr) (m : MacroAssemblerARMv7) :
    (if toUInt32 address.offset &&& 3 ≠ 0 ∨ address.offset > 255 * 4
          ∨ address.offset < -(255 * 4) then
        (add32 encodable ⟨address.offset⟩ address.base addressTempRegister m).emit
          (mk addressTempRegister 0)
      else m.emit (mk address.base address.offset)).buffer
      = m.buffer ++
        (if address.offset % 4 = 0 ∧ -1020 ≤ address.offset ∧ address.offset ≤ 1020 then
          [mk address.base address.offset]
        else
          (add32 encodable ⟨address.offset⟩ address.base addressTempRegister init).buffer
            ++ [mk addressTempRegister 0]) := by
  by_cases h : address.offset % 4 = 0 ∧ -1020 ≤ address.offset ∧ address.offset ≤ 1020
  · rw [if_neg (fun hc => (vfp_offset_test _).mp hc h), if_pos h, emit_buffer]
  · rw [if_pos ((vfp_offset_test _).mpr h), if_neg h, emit_buffer, add32_buffer,
      List.append_assoc]

/-- The access made by the common shape, given what the memory instruction
does: it logs one access at its base register plus its offset and changes no
core register. -/
theorem vfp_access_exec (encodable : Nat → Bool) (address : Address)
    (mk : RegisterID → Int → Instr) (isStore : Bool) (size : Nat) (c : CPU)
    (hmk : ∀ (rn : RegisterID) (imm : Int) (s : CPU),
      ((mk rn imm).exec s).accesses
        = s.accesses ++ [⟨isStore, toUInt32 ((s.regs rn : Int) + imm), size⟩])
    (hb : address.base ≠ dataTempRegister) :
    (execSeq
        (if address.offset % 4 = 0 ∧ -1020 ≤ address.offset ∧ address.offset ≤ 1020 then
          [mk address.base address.offset]
        else
          (add32 encodable ⟨address.offset⟩ address.base addressTempRegister init).buffer
            ++ [mk addressTempRegister 0]) c).accesses
      = c.accesses
          ++ [⟨isStore, toUInt32 ((c.regs address.base : Int) + address.offset), size⟩] := by
  by_cases h : address.offset % 4 = 0 ∧ -1020 ≤ address.offset ∧ address.offset ≤ 1020
  · rw [if_pos h]
    simp only [execSeq, List.foldl_cons, List.foldl_nil, hmk]
  · rw [if_neg h, execSeq_append]
    obtain ⟨h1, _, h3, _⟩ :=
      execSeq_add32 encodable ⟨address.offset⟩ address.base addressTempRegister c hb
    simp only [execSeq, List.foldl_cons, List.foldl_nil, hmk]
    simp only [execSeq] at h1 h3
    rw [h1, h3, toUInt32_add_nat]
    congr 3
    unfold toUInt32; omega

/-- Everything the claims need about the common shape of the floating-point
loads and stores, started on an empty buffer. -/
theorem vfp_access_facts (encodable : Nat → Bool) (address : Address)
    (mk : RegisterID → Int → Instr) (isStore : Bool) (size : Nat) (c : CPU)
    (m : MacroAssemblerARMv7)
    (hm : m = (if toUInt32 address.offset &&& 3 ≠ 0 ∨ address.offset > 255 * 4
          ∨ address.offset < -(255 * 4) then
        (add32 encodable ⟨address.offset⟩ address.base addressTempRegister init).emit
          (mk addressTempRegister 0)
      else init.emit (mk address.base address.offset)))
    (hmk : ∀ (rn : RegisterID) (imm : Int) (s : CPU),
      ((mk rn imm).exec s).accesses
        = s.accesses ++ [⟨isStore, toUInt32 ((s.regs rn : Int) + imm), size⟩])
    (hst : ∀ (rn : RegisterID) (imm : Int), (mk rn imm).isStraight = true) :
    m.buffer
      = (if address.offset % 4 = 0 ∧ -1020 ≤ address.offset ∧ address.offset ≤ 1020 then
          [mk address.base address.offset]
        else
          (add32 encodable ⟨address.offset⟩ address.base addressTempRegister init).buffer
            ++ [mk addressTempRegister 0])
    ∧ (m.m_assembler.execute c).halted m.m_assembler = true
    ∧ (address.base ≠ dataTempRegister →
        (m.m_assembler.execute c).cpu.accesses
          = c.accesses
              ++ [⟨isStore, toUInt32 ((c.regs address.base : Int) + address.offset), size⟩]) := by
  have hbuf : m.buffer
      = (if address.offset % 4 = 0 ∧ -1020 ≤ address.offset ∧ address.offset ≤ 1020 then
          [mk address.base address.offset]
        else
          (add32 encodable ⟨address.offset⟩ address.base addressTempRegister init).buffer
            ++ [mk addressTempRegister 0]) := by
    rw [hm, vfp_access_buffer, init_buffer, List.nil_append]
  have hs : ∀ i ∈ m.m_assembler.buffer, i.isStraight = true := by
    show ∀ i ∈ m.buffer, i.isStraight = true
    rw [hbuf]
    split_ifs
    · intro i hi; simp at hi; subst hi; exact hst _ _
    · intro i hi
      rcases List.mem_append.mp hi with h1 | h1
      · exact add32_straight _ _ _ _ i h1
      · simp at h1; subst h1; exact hst _ _
  rw [execute_straight _ c hs]
  refine ⟨hbuf, by simp [Machine.halted], ?_⟩
  intro hb
  show (execSeq m.buffer c).accesses = _
  rw [hbuf]
  exact vfp_access_exec encodable address mk isStore size c hmk hb

/-- C8, as amended: `loadDouble`, `loadFloat`, `storeDouble` and `storeFloat`
issue their memory instruction alone, with the original base and offset, when the
offset is a multiple of 4 within `[-1020, 1020]`, and otherwise after `add32` of
the offset and base into `addressTempRegister`, with that register as base and
offset 0; the run of each sequence ends, and when the base is not
`dataTempRegister` the single access made is at `(base + offset) mod 2^32`. -/
theorem vfp_load_store_window (encodable : Nat → Bool) (address : Address) (fr : FPRegisterID)
    (c : CPU) :
    ((loadDouble encodable address fr init).buffer
        = (if address.offset % 4 = 0 ∧ -1020 ≤ address.offset ∧ address.offset ≤ 1020 then
            [.vldr fr address.base address.offset]
          else
            (add32 encodable ⟨address.offset⟩ address.base addressTempRegister init).buffer
              ++ [.vldr fr addressTempRegister 0])
      ∧ ((loadDouble encodable address fr init).m_assembler.execute c).halted
          (loadDouble encodable address fr init).m_assembler = true
      ∧ (address.base ≠ dataTempRegister →
          ((loadDouble encodable address fr init).m_assembler.execute c).cpu.accesses
            = c.accesses
                ++ [⟨false, toUInt32 ((c.regs address.base : Int) + address.offset), 8⟩]))
    ∧ ((loadFloat encodable address fr init).buffer
        = (if address.offset % 4 = 0 ∧ -1020 ≤ address.offset ∧ address.offset ≤ 1020 then
            [.flds (ARMRegisters.asSingle fr) address.base address.offset]
          else
            (add32 encodable ⟨address.offset⟩ address.base addressTempRegister init).buffer
              ++ [.flds (ARMRegisters.asSingle fr) addressTempRegister 0])
      ∧ ((loadFloat encodable address fr init).m_assembler.execute c).halted
          (loadFloat encodable address fr init).m_assembler = true
      ∧ (address.base ≠ dataTempRegister →
          ((loadFloat encodable address fr init).m_assembler.execute c).cpu.accesses
            = c.accesses
                ++ [⟨false, toUInt32 ((c.regs address.base : Int) + address.offset), 4⟩]))
    ∧ ((storeDouble encodable fr address init).buffer
        = (if address.offset % 4 = 0 ∧ -1020 ≤ address.offset ∧ address.offset ≤ 1020 then
            [.vstr fr address.base address.offset]
          else
            (add32 encodable ⟨address.offset⟩ address.base addressTempRegister init).buffer
              ++ [.vstr fr addressTempRegister 0])
      ∧ ((storeDouble encodable fr address init).m_assembler.execute c).halted
          (storeDouble encodable fr address init).m_assembler = true
      ∧ (address.base ≠ dataTempRegister →
          ((storeDouble encodable fr address init).m_assembler.execute c).cpu.accesses
            = c.accesses
                ++ [⟨true, toUInt32 ((c.regs address.base : Int) + address.offset), 8⟩]))
    ∧ ((storeFloat encodable fr address init).buffer
        = (if address.offset % 4 = 0 ∧ -1020 ≤ address.offset ∧ address.offset ≤ 1020 then
            [.fsts (ARMRegisters.asSingle fr) address.base address.offset]
          else
            (add32 encodable ⟨address.offset⟩ address.base addressTempRegister init).buffer
              ++ [.fsts (ARMRegisters.asSingle fr) addressTempRegister 0])
      ∧ ((storeFloat encodable fr address init).m_assembler.execute c).halted
          (storeFloat encodable fr address init).m_assembler = true
      ∧ (address.base ≠ dataTempRegister →
          ((storeFloat encodable fr address init).m_assembler.execute c).cpu.accesses
            = c.accesses
                ++ [⟨true, toUInt32 ((c.regs address.base : Int) + address.offset), 4⟩])) := by
  refine ⟨?_, ?_, ?_, ?_⟩
  · exact vfp_access_facts encodable address (fun rn imm => .vldr fr rn imm) false 8 c _ rfl
      (fun _ _ _ => rfl) (fun _ _ => rfl)
  · exact vfp_access_facts encodable address
      (fun rn imm => .flds (ARMRegisters.asSingle fr) rn imm) false 4 c _ rfl
      (fun _ _ s => by simp only [Instr.exec, CPU.setSingle]; split_ifs <;> rfl) (fun _ _ => rfl)
  · exact vfp_access_facts encodable address (fun rn imm => .vstr fr rn imm) true 8 c _ rfl
      (fun _ _ _ => rfl) (fun _ _ => rfl)
  · exact vfp_access_facts encodable address
      (fun rn imm => .fsts (ARMRegisters.asSingle fr) rn imm) true 4 c _ rfl
      (fun _ _ _ => rfl) (fun _ _ => rfl)

/-- Witness for C8 as amended: base `r1`, offset `0x12345`, register `d0`, under
the Thumb-2 legality predicate. -/
theorem vfp_load_store_window_witness :
    (⟨.r1, 0x12345⟩ : Address).base ≠ dataTempRegister
    ∧ ((loadDouble thumb2Encodable ⟨.r1, 0x12345⟩ 0 init).m_assembler.execute
          CPU.sample).cpu.accesses = [⟨false, 7 + 0x12345, 8⟩]
    ∧ ((loadFloat thumb2Encodable ⟨.r1, 0x12345⟩ 0 init).m_assembler.execute
          CPU.sample).cpu.accesses = [⟨false, 7 + 0x12345, 4⟩]
    ∧ ((storeDouble thumb2Encodable 0 ⟨.r1, 0x12345⟩ init).m_assembler.execute
          CPU.sample).cpu.accesses = [⟨true, 7 + 0x12345, 8⟩]
    ∧ ((storeFloat thumb2Encodable 0 ⟨.r1, 0x12345⟩ init).m_assembler.execute
          CPU.sample).cpu.accesses = [⟨true, 7 + 0x12345, 4⟩] :=
  ⟨by decide,
   (vfp_load_store_window thumb2Encodable ⟨.r1, 0x12345⟩ 0 CPU.sample).1.2.2 (by decide),
   (vfp_load_store_window thumb2Encodable ⟨.r1, 0x12345⟩ 0 CPU.sample).2.1.2.2 (by decide),
   (vfp_load_store_window thumb2Encodable ⟨.r1, 0x12345⟩ 0 CPU.sample).2.2.1.2.2 (by decide),
   (vfp_load_store_window thumb2Encodable ⟨.r1, 0x12345⟩ 0 CPU.sample).2.2.2.2.2 (by decide)⟩

theorem loadDouble_scratch_base_eq :
    loadDouble thumb2Encodable ⟨dataTempRegister, 0x12345⟩ 0 init
      = ⟨⟨[.mov .r12 ⟨.TypeUInt16, 0x2345⟩, .movt .r12 ⟨.TypeUInt16, 1⟩,
            .addReg .r6 .r12 .r12, .vldr 0 .r6 0], []⟩, false⟩ := by
  simp only [loadDouble]
  rw [add32_of_not_sp _ _ _ _ _ (by decide)]
  decide

/-- Counterexample to C8 as stated: for the address with base `dataTempRegister`
(holding 7) and offset `0x12345`, `loadDouble` loads the offset into the base
register itself before adding, so the access is made at `2 * 0x12345` and not at
`base + offset`. -/
theorem loadDouble_scratch_base_counterexample :
    ((loadDouble thumb2Encodable ⟨dataTempRegister, 0x12345⟩ 0 init).m_assembler.execute
        CPU.sample).cpu.accesses = [⟨false, 2 * 0x12345, 8⟩]
    ∧ ((loadDouble thumb2Encodable ⟨dataTempRegister, 0x12345⟩ 0 init).m_assembler.execute
        CPU.sample).cpu.accesses
      ≠ CPU.sample.accesses
          ++ [⟨false, toUInt32 ((CPU.sample.regs dataTempRegister : Int) + 0x12345), 8⟩] := by
  rw [loadDouble_scratch_base_eq]
  constructor <;> decide

theorem and_low_half (v : Nat) : v &&& 0xffff = v % 65536 :=
  Nat.and_pow_two_sub_one_eq_mod v 16

/-- C9: for every 32-bit value `v` and register `dst`, `moveFixedWidthEncoding`
and `moveWithPatch` append exactly the two instructions `movT3 dst, #(v & 0xffff)`
and `movt dst, #(v >> 16)`, whatever the value, `moveWithPatch` returning the
label after them; the run of the two instructions ends with `dst = v`. -/
theorem moveFixedWidthEncoding_fixed (v : Int) (dst : RegisterID) (m : MacroAssemblerARMv7)
    (c : CPU) :
    (moveFixedWidthEncoding ⟨v⟩ dst m).buffer
        = m.buffer ++ [.movT3 dst (ARMThumbImmediate.makeUInt16 (toUInt32 v &&& 0xffff)),
            .movt dst (ARMThumbImmediate.makeUInt16 (toUInt32 v >>> 16))]
    ∧ (moveWithPatch ⟨v⟩ dst m).2.buffer
        = m.buffer ++ [.movT3 dst (ARMThumbImmediate.makeUInt16 (toUInt32 v &&& 0xffff)),
            .movt dst (ARMThumbImmediate.makeUInt16 (toUInt32 v >>> 16))]
    ∧ (moveWithPatch ⟨v⟩ dst m).1 = ⟨m.buffer.length + 2⟩
    ∧ (moveFixedWidthEncoding ⟨v⟩ dst m).buffer.length = m.buffer.length + 2
    ∧ ((moveFixedWidthEncoding ⟨v⟩ dst init).m_assembler.execute c).halted
        (moveFixedWidthEncoding ⟨v⟩ dst init).m_assembler = true
    ∧ ((moveFixedWidthEncoding ⟨v⟩ dst init).m_assembler.execute c).exited = none
    ∧ ((moveFixedWidthEncoding ⟨v⟩ dst init).m_assembler.execute c).cpu.regs dst = toUInt32 v := by
  have hlt := toUInt32_lt v
  have hb : (moveFixedWidthEncoding ⟨v⟩ dst m).buffer
        = m.buffer ++ [.movT3 dst (ARMThumbImmediate.makeUInt16 (toUInt32 v &&& 0xffff)),
            .movt dst (ARMThumbImmediate.makeUInt16 (toUInt32 v >>> 16))] := by
    simp [moveFixedWidthEncoding, buffer, emit, ARMv7Assembler.emit]
  have hs : ∀ i ∈ (moveFixedWidthEncoding ⟨v⟩ dst init).m_assembler.buffer,
      i.isStraight = true := by
    simp [moveFixedWidthEncoding, emit, ARMv7Assembler.emit, init, Instr.isStraight]
  refine ⟨hb, hb, ?_, ?_, ?_, ?_, ?_⟩
  · simp [moveWithPatch, padBeforePatch, moveFixedWidthEncoding, buffer, emit,
      ARMv7Assembler.emit, ARMv7Assembler.label]
  · rw [hb]; simp
  · rw [execute_straight _ c hs]; simp [Machine.halted]
  · rw [execute_straight _ c hs]
  · rw [execute_straight _ c hs]
    simp only [moveFixedWidthEncoding, emit, ARMv7Assembler.emit, init, List.nil_append,
      List.cons_append, execSeq, List.foldl_cons, List.foldl_nil, Instr.exec,
      ARMThumbImmediate.makeUInt16, and_low_half, Nat.shiftRight_eq_div_pow]
    rw [setReg_regs_same, setReg_regs_same]
    omega

theorem moveFixedWidthEncoding_zero (dst : RegisterID) (m : MacroAssemblerARMv7) :
    moveFixedWidthEncoding ⟨0⟩ dst m
      = (m.emit (.movT3 dst ⟨.TypeUInt16, 0⟩)).emit (.movt dst ⟨.TypeUInt16, 0⟩) := by
  rfl

/-- C10: `nearCall()`, `nearTailCall()` and `call(PtrTag)` each append the
fixed-width load of the placeholder 0 into `dataTempRegister` (`movT3`, `movt`)
and one branch through it (`blx`, `bx`, `blx`), and return a call at the
position after it tagged `LinkableNear`, `LinkableNearTail` and `Linkable`;
`call(RegisterID, PtrTag)` appends the single `blx target` and returns a call
tagged `None`. -/
theorem call_forms (target : RegisterID) (m : MacroAssemblerARMv7) :
    ((nearCall m).2.buffer
        = m.buffer ++ [.movT3 dataTempRegister ⟨.TypeUInt16, 0⟩,
            .movt dataTempRegister ⟨.TypeUInt16, 0⟩, .blx dataTempRegister]
      ∧ (nearCall m).1 = ⟨m.buffer.length + 3, .LinkableNear⟩)
    ∧ ((nearTailCall m).2.buffer
        = m.buffer ++ [.movT3 dataTempRegister ⟨.TypeUInt16, 0⟩,
            .movt dataTempRegister ⟨.TypeUInt16, 0⟩, .bx dataTempRegister]
      ∧ (nearTailCall m).1 = ⟨m.buffer.length + 3, .LinkableNearTail⟩)
    ∧ ((call m).2.buffer
        = m.buffer ++ [.movT3 dataTempRegister ⟨.TypeUInt16, 0⟩,
            .movt dataTempRegister ⟨.TypeUInt16, 0⟩, .blx dataTempRegister]
      ∧ (call m).1 = ⟨m.buffer.length + 3, .Linkable⟩)
    ∧ ((callReg target m).2.buffer = m.buffer ++ [.blx target]
      ∧ (callReg target m).1 = ⟨m.buffer.length + 1, .None⟩) := by
  simp [nearCall, nearTailCall, call, callReg, moveFixedWidthEncoding_zero, buffer, emit,
    ARMv7Assembler.emit, ARMv7Assembler.label]

/-- The instructions `move(TrustedImm32, RegisterID)` appends, by class. -/
theorem move_buffer_classes (encodable : Nat → Bool) (v : Int) (dest : RegisterID) :
    (move encodable ⟨v⟩ dest init).buffer
      = (if encodable (toUInt32 v) = true then
          [.mov dest ⟨.TypeEncoded, toUInt32 v⟩]
        else if encodable (4294967295 - toUInt32 v) = true then
          [.mvn dest ⟨.TypeEncoded, 4294967295 - toUInt32 v⟩]
        else if 65536 ≤ toUInt32 v then
          [.mov dest (ARMThumbImmediate.makeUInt16 (toUInt32 v)),
            .movt dest (ARMThumbImmediate.makeUInt16 (toUInt32 v >>> 16))]
        else
          [.mov dest (ARMThumbImmediate.makeUInt16 (toUInt32 v))]) := by
  have hlt := toUInt32_lt v
  unfold move
  simp only [buffer, emit, ARMv7Assembler.emit, init, ARMThumbImmediate.makeEncodedImm]
  by_cases h1 : encodable (toUInt32 v) = true
  · simp [h1, ARMThumbImmediate.isValid]
  · by_cases h2 : encodable (4294967295 - toUInt32 v) = true
    · simp [h1, h2, ARMThumbImmediate.isValid, ARMThumbImmediate.invalid]
    · by_cases h3 : toUInt32 v &&& 0xffff0000 = 0
      · have h4 : ¬ 65536 ≤ toUInt32 v := by
          have := (and_high_half _ hlt).mp h3; omega
        simp [h1, h2, h3, h4, ARMThumbImmediate.isValid, ARMThumbImmediate.invalid]
      · have h4 : 65536 ≤ toUInt32 v := by
          by_contra hc
          exact h3 ((and_high_half _ hlt).mpr (by omega))
        simp [h1, h2, h3, h4, ARMThumbImmediate.isValid, ARMThumbImmediate.invalid]

/-- C14, as amended: for every 32-bit value `v`, `move(TrustedImm32(v), dest)`
appends exactly one of: a single `mov` of the encoded immediate when
`makeEncodedImm(v)` is valid; otherwise a single `mvn` of the encoded complement
when `makeEncodedImm(~v)` is valid; otherwise a `mov` of the low 16 bits,
followed by a `movt` of the high 16 bits only when the high half is not zero. -/
theorem move_three_classes (encodable : Nat → Bool) (v : Int) (dest : RegisterID)
    (m : MacroAssemblerARMv7) :
    (move encodable ⟨v⟩ dest m).buffer
      = m.buffer ++
        (if (ARMThumbImmediate.makeEncodedImm encodable (toUInt32 v)).isValid = true then
          [.mov dest (ARMThumbImmediate.makeEncodedImm encodable (toUInt32 v))]
        else if (ARMThumbImmediate.makeEncodedImm encodable
            (4294967295 - toUInt32 v)).isValid = true then
          [.mvn dest (ARMThumbImmediate.makeEncodedImm encodable (4294967295 - toUInt32 v))]
        else if 65536 ≤ toUInt32 v then
          [.mov dest (ARMThumbImmediate.makeUInt16 (toUInt32 v)),
            .movt dest (ARMThumbImmediate.makeUInt16 (toUInt32 v >>> 16))]
        else
          [.mov dest (ARMThumbImmediate.makeUInt16 (toUInt32 v))]) := by
  rw [move_buffer, move_buffer_classes]
  congr 1
  unfold ARMThumbImmediate.makeEncodedImm
  by_cases h1 : encodable (toUInt32 v) = true
  · simp [h1, ARMThumbImmediate.isValid]
  · by_cases h2 : encodable (4294967295 - toUInt32 v) = true
    · simp [h1, h2, ARMThumbImmediate.isValid, ARMThumbImmediate.invalid]
    · simp [h1, h2, ARMThumbImmediate.isValid, ARMThumbImmediate.invalid]

/-- Counterexample to C14 as stated: `0x1234` and its complement are both
rejected by the Thumb-2 legality predicate, yet `move` emits the single `mov` of
the low 16 bits and no `movt`. -/
theorem move_three_classes_counterexample :
    (ARMThumbImmediate.makeEncodedImm thumb2Encodable (toUInt32 0x1234)).isValid = false
    ∧ (ARMThumbImmediate.makeEncodedImm thumb2Encodable
        (4294967295 - toUInt32 0x1234)).isValid = false
    ∧ (move thumb2Encodable ⟨0x1234⟩ .r0 init).buffer = [.mov .r0 ⟨.TypeUInt16, 0x1234⟩] := by
  decide

/-- C15: for every immediate and every `dest`, `add32(TrustedImm32(imm), dest)`
appends exactly one add-immediate when `makeUInt12OrEncodedImm(imm)` is valid,
otherwise exactly one sub-immediate of `-imm` when `makeUInt12OrEncodedImm(-imm)` is
valid, and otherwise the move of `imm` into `dataTempRegister` followed by one
register add.  Under the Thumb-2 legality predicate `imm = 5` gives the single
add-immediate, and `imm = 0x12345` gives `mov`, `movt`, `add`. -/
theorem add32Imm_forms (encodable : Nat → Bool) (imm : TrustedImm32) (dest : RegisterID)
    (m : MacroAssemblerARMv7) :
    (add32Imm encodable imm dest m).buffer
      = m.buffer ++
        (if (ARMThumbImmediate.makeUInt12OrEncodedImm encodable imm.m_value).isValid = true then
          [.add dest dest (ARMThumbImmediate.makeUInt12OrEncodedImm encodable imm.m_value)]
        else if (ARMThumbImmediate.makeUInt12OrEncodedImm encodable
            (wrapInt32 (-imm.m_value))).isValid = true then
          [.sub dest dest
            (ARMThumbImmediate.makeUInt12OrEncodedImm encodable (wrapInt32 (-imm.m_value)))]
        else
          (move encodable imm dataTempRegister init).buffer
            ++ [.addReg dest dest dataTempRegister])
    ∧ (add32Imm thumb2Encodable ⟨5⟩ .r0 init).buffer = [.add .r0 .r0 ⟨.TypeUInt16, 5⟩]
    ∧ (add32Imm thumb2Encodable ⟨0x12345⟩ .r0 init).buffer
        = [.mov .r12 ⟨.TypeUInt16, 0x2345⟩, .movt .r12 ⟨.TypeUInt16, 1⟩,
            .addReg .r0 .r0 .r12] := by
  refine ⟨?_, ?_, ?_⟩
  · unfold add32Imm
    rw [add32_of_not_sp _ _ _ _ m (fun h => h.2 rfl)]
    split_ifs
    · rw [emit_buffer]
    · rw [emit_buffer]
    · rw [emit_buffer, move_buffer, List.append_assoc]
  · rw [add32Imm, add32_of_not_sp _ _ _ _ _ (by decide)]
    decide
  · rw [add32Imm, add32_of_not_sp _ _ _ _ _ (by decide)]
    decide

/-- C17, as amended: with `r0 = 0x40000000` and `r1 = 2` the product is `2^31`,
which is above the largest signed 32-bit value, so the run of the sequence
emitted by `branchMul32(Overflow, r0, r1, r2)` ends with the returned jump
taken. -/
theorem branchMul32_overflow_boundary :
    toInt32 0x40000000 * toInt32 2 = 2147483648
    ∧ ((branchMul32 thumb2Encodable .Overflow .r0 .r1 .r2 init).2.m_assembler.execute
          ((CPU.sample.setReg .r0 0x40000000).setReg .r1 2)).halted
        (branchMul32 thumb2Encodable .Overflow .r0 .r1 .r2 init).2.m_assembler = true
    ∧ (branchMul32 thumb2Encodable .Overflow .r0 .r1 .r2 init).1.taken
        ((branchMul32 thumb2Encodable .Overflow .r0 .r1 .r2 init).2.m_assembler.execute
          ((CPU.sample.setReg .r0 0x40000000).setReg .r1 2)) := by
  obtain ⟨he, hh⟩ := execute_branchMul32_overflow thumb2Encodable .r0 .r1 .r2
    ((CPU.sample.setReg .r0 0x40000000).setReg .r1 2) (by decide)
  refine ⟨by decide, hh, ?_⟩
  unfold Jump.taken
  rw [he, branchMul32_overflow_eq]
  decide

/-- Counterexample to C17 as stated: for the operand pair `(0x40000000, 2)` it
is not the case that the jump returned by `branchMul32(Overflow, ...)` is not
taken. -/
theorem branchMul32_overflow_boundary_counterexample :
    ¬ ¬ (branchMul32 thumb2Encodable .Overflow .r0 .r1 .r2 init).1.taken
        ((branchMul32 thumb2Encodable .Overflow .r0 .r1 .r2 init).2.m_assembler.execute
          ((CPU.sample.setReg .r0 0x40000000).setReg .r1 2)) := by
  obtain ⟨he, _⟩ := execute_branchMul32_overflow thumb2Encodable .r0 .r1 .r2
    ((CPU.sample.setReg .r0 0x40000000).setReg .r1 2) (by decide)
  unfold Jump.taken
  rw [he, branchMul32_overflow_eq]
  decide

/-- The block `jump` emits: the scratch register is loaded and the `bx` either
follows its link record or leaves the buffer. -/
theorem run_jump_block (a : ARMv7Assembler) (pre post : List Instr)
    (i1 i2 : ARMThumbImmediate) (c : CPU)
    (hb : a.buffer = pre ++ ([.movT3 dataTempRegister i1,
      .movt dataTempRegister i2, .bx dataTempRegister] ++ post)) :
    Machine.run a 3 ⟨c, [], pre.length, none⟩ =
      match a.m_jumpsToLink.find? (fun r => r.m_from == pre.length + 3) with
      | some r => ⟨(Instr.movt dataTempRegister i2).exec
          ((Instr.movT3 dataTempRegister i1).exec c), [], r.m_to, none⟩
      | none => ⟨(Instr.movt dataTempRegister i2).exec
          ((Instr.movT3 dataTempRegister i1).exec c), [], pre.length + 2,
          some (pre.length + 3)⟩ := by
  have h0 : a.buffer[pre.length]? = some (.movT3 dataTempRegister i1) := by
    have := getElem?_append_add pre ([.movT3 dataTempRegister i1,
      .movt dataTempRegister i2, .bx dataTempRegister] ++ post) 0
    rw [hb]; simpa using this
  have h1 : a.buffer[pre.length + 1]? = some (.movt dataTempRegister i2) := by
    rw [hb, getElem?_append_add]; simp
  have h2 : a.buffer[pre.length + 1 + 1]? = some (.bx dataTempRegister) := by
    rw [hb, Nat.add_assoc, getElem?_append_add]; simp
  rw [show (3 : Nat) = 0 + 1 + 1 + 1 from rfl]
  simp only [run_succ, run_zero, Machine.step, h0, h1, h2, Machine.perform,
    Instr.exec, CPU.setReg]

theorem branchDouble_eqOrUnordered_eq (left right : FPRegisterID) :
    branchDouble .DoubleEqualOrUnordered left right init
      = (⟨13, .JumpNoCondition, .ConditionInvalid⟩,
         ⟨⟨[.vcmp left right, .vmrs,
            .it .ConditionVS [true, true], .movT3 .r12 ⟨.TypeUInt16, 0⟩,
            .movt .r12 ⟨.TypeUInt16, 0⟩, .bx .r12,
            .it .ConditionNE [true, true], .movT3 .r12 ⟨.TypeUInt16, 0⟩,
            .movt .r12 ⟨.TypeUInt16, 0⟩, .bx .r12,
            .movT3 .r12 ⟨.TypeUInt16, 0⟩, .movt .r12 ⟨.TypeUInt16, 0⟩, .bx .r12],
           [⟨6, 10, .JumpCondition, .ConditionVS⟩,
            ⟨10, 13, .JumpCondition, .ConditionNE⟩]⟩, false⟩) := by
  rfl

/-- Where the run of the sequence emitted by
`branchDouble(DoubleEqualOrUnordered, ...)` ends. -/
theorem execute_branchDouble_eqOrUnordered (left right : FPRegisterID) (c : CPU) :
    ((branchDouble .DoubleEqualOrUnordered left right init).2.m_assembler.execute c).exited
      = (if doubleCompare (c.fpr left) (c.fpr right) = .lessThan
            ∨ doubleCompare (c.fpr left) (c.fpr right) = .greaterThan then none else some 13)
    ∧ ((branchDouble .DoubleEqualOrUnordered left right init).2.m_assembler.execute c).halted
        (branchDouble .DoubleEqualOrUnordered left right init).2.m_assembler = true := by
  rw [branchDouble_eqOrUnordered_eq]
  generalize ha : (⟨[.vcmp left right, .vmrs,
            .it .ConditionVS [true, true], .movT3 .r12 ⟨.TypeUInt16, 0⟩,
            .movt .r12 ⟨.TypeUInt16, 0⟩, .bx .r12,
            .it .ConditionNE [true, true], .movT3 .r12 ⟨.TypeUInt16, 0⟩,
            .movt .r12 ⟨.TypeUInt16, 0⟩, .bx .r12,
            .movT3 .r12 ⟨.TypeUInt16, 0⟩, .movt .r12 ⟨.TypeUInt16, 0⟩, .bx .r12],
           [⟨6, 10, .JumpCondition, .ConditionVS⟩,
            ⟨10, 13, .JumpCondition, .ConditionNE⟩]⟩ : ARMv7Assembler) = a
  have hlen : a.buffer.length = 13 := by rw [← ha]; rfl
  have hs := run_straight a [.vcmp left right, .vmrs]
      [.it .ConditionVS [true, true], .movT3 .r12 ⟨.TypeUInt16, 0⟩,
            .movt .r12 ⟨.TypeUInt16, 0⟩, .bx .r12,
            .it .ConditionNE [true, true], .movT3 .r12 ⟨.TypeUInt16, 0⟩,
            .movt .r12 ⟨.TypeUInt16, 0⟩, .bx .r12,
            .movT3 .r12 ⟨.TypeUInt16, 0⟩, .movt .r12 ⟨.TypeUInt16, 0⟩, .bx .r12] [] c
      (by rw [← ha]; rfl) (by simp [Instr.isStraight])
  have hb1 := run_branch_block a [.vcmp left right, .vmrs]
      [.it .ConditionNE [true, true], .movT3 .r12 ⟨.TypeUInt16, 0⟩,
            .movt .r12 ⟨.TypeUInt16, 0⟩, .bx .r12,
            .movT3 .r12 ⟨.TypeUInt16, 0⟩, .movt .r12 ⟨.TypeUInt16, 0⟩, .bx .r12]
      .ConditionVS ⟨.TypeUInt16, 0⟩ ⟨.TypeUInt16, 0⟩
      (execSeq [.vcmp left right, .vmrs] c) (by rw [← ha]; rfl)
  have hb2 := run_branch_block a [.vcmp left right, .vmrs,
            .it .ConditionVS [true, true], .movT3 .r12 ⟨.TypeUInt16, 0⟩,
            .movt .r12 ⟨.TypeUInt16, 0⟩, .bx .r12]
      [.movT3 .r12 ⟨.TypeUInt16, 0⟩, .movt .r12 ⟨.TypeUInt16, 0⟩, .bx .r12]
      .ConditionNE ⟨.TypeUInt16, 0⟩ ⟨.TypeUInt16, 0⟩
      (execSeq [.vcmp left right, .vmrs] c) (by rw [← ha]; rfl)
  have hj : ∀ c0 : CPU, (Machine.run a 3 ⟨c0, [], 10, none⟩).exited = some 13
      ∧ (Machine.run a 3 ⟨c0, [], 10, none⟩).halted a = true := by
    intro c0
    have := run_jump_block a [.vcmp left right, .vmrs,
            .it .ConditionVS [true, true], .movT3 .r12 ⟨.TypeUInt16, 0⟩,
            .movt .r12 ⟨.TypeUInt16, 0⟩, .bx .r12,
            .it .ConditionNE [true, true], .movT3 .r12 ⟨.TypeUInt16, 0⟩,
            .movt .r12 ⟨.TypeUInt16, 0⟩, .bx .r12] []
      ⟨.TypeUInt16, 0⟩ ⟨.TypeUInt16, 0⟩ c0 (by rw [← ha]; rfl)
    have hf : a.m_jumpsToLink.find? (fun r => r.m_from == 13) = none := by
      rw [← ha]; rfl
    simp only [List.length_cons, List.length_nil, Nat.reduceAdd, hf] at this
    rw [this]
    exact ⟨rfl, rfl⟩
  have hf1 : a.m_jumpsToLink.find? (fun r => r.m_from == 6)
      = some ⟨6, 10, .JumpCondition, .ConditionVS⟩ := by rw [← ha]; rfl
  have hf2 : a.m_jumpsToLink.find? (fun r => r.m_from == 10)
      = some ⟨10, 13, .JumpCondition, .ConditionNE⟩ := by rw [← ha]; rfl
  simp only [List.length_cons, List.length_nil, Nat.reduceAdd, hf1, hf2] at hs hb1 hb2
  have hfl : (execSeq [.vcmp left right, .vmrs] c).apsr
      = (doubleCompare (c.fpr left) (c.fpr right)).flags := by
    simp [execSeq, Instr.exec]
  rw [hfl] at hb1 hb2
  simp only [ARMv7Assembler.execute, Machine.boot, hlen]
  cases hc : doubleCompare (c.fpr left) (c.fpr right)
  · -- equal
    rw [show (13 : Nat) = 2 + (4 + (4 + 3)) from rfl, run_add, run_add, run_add, hs, hb1]
    simp only [hc, FPCompareResult.flags, Condition.holds] at hb2 ⊢
    simp only [Bool.false_eq_true, if_false]
    rw [hb2]
    simp only [Bool.not_true, Bool.false_eq_true, if_false]
    simpa using hj _
  · -- less than
    rw [show (13 : Nat) = 2 + (4 + (4 + 3)) from rfl, run_add, run_add, run_add, hs, hb1]
    simp only [hc, FPCompareResult.flags, Condition.holds] at hb2 ⊢
    simp only [Bool.false_eq_true, if_false]
    rw [hb2]
    simp only [Bool.not_false, if_true]
    rw [run_halted _ _ _ (by simp [Machine.halted, hlen])]
    simp [Machine.halted, hlen]
  · -- greater than
    rw [show (13 : Nat) = 2 + (4 + (4 + 3)) from rfl, run_add, run_add, run_add, hs, hb1]
    simp only [hc, FPCompareResult.flags, Condition.holds] at hb2 ⊢
    simp only [Bool.false_eq_true, if_false]
    rw [hb2]
    simp only [Bool.not_false, if_true]
    rw [run_halted _ _ _ (by simp [Machine.halted, hlen])]
    simp [Machine.halted, hlen]
  · -- unordered
    rw [show (13 : Nat) = 2 + (4 + (3 + 4)) from rfl, run_add, run_add, run_add, hs, hb1]
    simp only [hc, FPCompareResult.flags, Condition.holds, if_true]
    rw [run_halted _ 4 _ (hj _).2]
    simpa using hj _

/-- C18: `branchDouble(DoubleEqualOrUnordered, left, right)` emits the compare,
a branch on VS, a branch on NE, links the VS branch to the unconditional jump
that follows and is returned, and links the NE branch past that jump; the run
of this sequence ends, and the returned jump is taken if and only if an operand
is a NaN or the operands are numerically equal. -/
theorem branchDouble_equalOrUnordered_taken (left right : FPRegisterID) (c : CPU) :
    branchDouble .DoubleEqualOrUnordered left right init
      = (⟨13, .JumpNoCondition, .ConditionInvalid⟩,
         ⟨⟨[.vcmp left right, .vmrs,
            .it .ConditionVS [true, true], .movT3 .r12 ⟨.TypeUInt16, 0⟩,
            .movt .r12 ⟨.TypeUInt16, 0⟩, .bx .r12,
            .it .ConditionNE [true, true], .movT3 .r12 ⟨.TypeUInt16, 0⟩,
            .movt .r12 ⟨.TypeUInt16, 0⟩, .bx .r12,
            .movT3 .r12 ⟨.TypeUInt16, 0⟩, .movt .r12 ⟨.TypeUInt16, 0⟩, .bx .r12],
           [⟨6, 10, .JumpCondition, .ConditionVS⟩,
            ⟨10, 13, .JumpCondition, .ConditionNE⟩]⟩, false⟩)
    ∧ ((branchDouble .DoubleEqualOrUnordered left right init).2.m_assembler.execute c).halted
        (branchDouble .DoubleEqualOrUnordered left right init).2.m_assembler = true
    ∧ ((branchDouble .DoubleEqualOrUnordered left right init).1.taken
          ((branchDouble .DoubleEqualOrUnordered left right init).2.m_assembler.execute c)
        ↔ (doubleIsNaN (c.fpr left) = true ∨ doubleIsNaN (c.fpr right) = true
            ∨ doubleOrderKey (c.fpr left) = doubleOrderKey (c.fpr right))) := by
  obtain ⟨he, hh⟩ := execute_branchDouble_eqOrUnordered left right c
  refine ⟨rfl, hh, ?_⟩
  unfold Jump.taken
  rw [he, branchDouble_eqOrUnordered_eq]
  have ho := doubleCompare_ordered_unequal (c.fpr left) (c.fpr right)
  by_cases hi : doubleCompare (c.fpr left) (c.fpr right) = .lessThan
            ∨ doubleCompare (c.fpr left) (c.fpr right) = .greaterThan
  · obtain ⟨n1, n2, n3⟩ := ho.mp hi
    simp [hi, n1, n2, n3]
  · have hn : ¬ (doubleIsNaN (c.fpr left) = false ∧ doubleIsNaN (c.fpr right) = false
        ∧ doubleOrderKey (c.fpr left) ≠ doubleOrderKey (c.fpr right)) := fun h => hi (ho.mpr h)
    simp only [hi, if_false, true_iff]
    cases h1 : doubleIsNaN (c.fpr left)
    · cases h2 : doubleIsNaN (c.fpr right)
      · right; right
        by_contra h3
        exact hn ⟨h1, h2, h3⟩
      · right; left; rfl
    · left; rfl

theorem branchDouble_single_eq (cond : DoubleCondition) (left right : FPRegisterID)
    (h1 : cond ≠ .DoubleNotEqualAndOrdered) (h2 : cond ≠ .DoubleEqualOrUnordered) :
    branchDouble cond left right init
      = (⟨6, .JumpCondition, cond.armV7Condition⟩,
         ⟨⟨[.vcmp left right, .vmrs,
            .it cond.armV7Condition [true, true], .movT3 .r12 ⟨.TypeUInt16, 0⟩,
            .movt .r12 ⟨.TypeUInt16, 0⟩, .bx .r12], []⟩, false⟩) := by
  unfold branchDouble
  simp only [h1, h2, if_false]
  rfl

/-- Where the run of a compare followed by one conditional branch ends. -/
theorem execute_vcmp_branch (hw : Condition) (left right : FPRegisterID) (c : CPU) :
    (ARMv7Assembler.execute ⟨[.vcmp left right, .vmrs,
            .it hw [true, true], .movT3 .r12 ⟨.TypeUInt16, 0⟩,
            .movt .r12 ⟨.TypeUInt16, 0⟩, .bx .r12], []⟩ c).exited
      = (if hw.holds (doubleCompare (c.fpr left) (c.fpr right)).flags = true then some 6
          else none)
    ∧ (ARMv7Assembler.execute ⟨[.vcmp left right, .vmrs,
            .it hw [true, true], .movT3 .r12 ⟨.TypeUInt16, 0⟩,
            .movt .r12 ⟨.TypeUInt16, 0⟩, .bx .r12], []⟩ c).halted
        ⟨[.vcmp left right, .vmrs,
            .it hw [true, true], .movT3 .r12 ⟨.TypeUInt16, 0⟩,
            .movt .r12 ⟨.TypeUInt16, 0⟩, .bx .r12], []⟩ = true := by
  generalize ha : (⟨[.vcmp left right, .vmrs,
            .it hw [true, true], .movT3 .r12 ⟨.TypeUInt16, 0⟩,
            .movt .r12 ⟨.TypeUInt16, 0⟩, .bx .r12], []⟩ : ARMv7Assembler) = a
  have hlen : a.buffer.length = 6 := by rw [← ha]; rfl
  have hs := run_straight a [.vcmp left right, .vmrs]
      [.it hw [true, true], .movT3 .r12 ⟨.TypeUInt16, 0⟩,
            .movt .r12 ⟨.TypeUInt16, 0⟩, .bx .r12] [] c
      (by rw [← ha]; rfl) (by simp [Instr.isStraight])
  have hb := run_branch_block a [.vcmp left right, .vmrs] [] hw
      ⟨.TypeUInt16, 0⟩ ⟨.TypeUInt16, 0⟩
      (execSeq [.vcmp left right, .vmrs] c) (by rw [← ha]; rfl)
  have hf : a.m_jumpsToLink.find? (fun r => r.m_from == 6) = none := by rw [← ha]; rfl
  simp only [List.length_cons, List.length_nil, Nat.reduceAdd, hf] at hs hb
  have hfl : (execSeq [.vcmp left right, .vmrs] c).apsr
      = (doubleCompare (c.fpr left) (c.fpr right)).flags := by
    simp [execSeq, Instr.exec]
  rw [hfl] at hb
  simp only [ARMv7Assembler.execute, Machine.boot, hlen]
  rw [show (6 : Nat) = 2 + 4 from rfl, run_add, hs, hb]
  by_cases h : hw.holds (doubleCompare (c.fpr left) (c.fpr right)).flags = true
  · simp [h, Machine.halted]
  · simp [h, Machine.halted, hlen]

theorem doubleCondition_table (cond : DoubleCondition) (r : FPCompareResult)
    (h1 : cond ≠ .DoubleNotEqualAndOrdered) (h2 : cond ≠ .DoubleEqualOrUnordered) :
    cond.armV7Condition.holds r.flags = cond.holdsFor r := by
  cases cond <;> cases r <;> first | rfl | exact absurd rfl h1 | exact absurd rfl h2

/-- C19: for each of the ten floating-point conditions other than
`DoubleNotEqualAndOrdered` and `DoubleEqualOrUnordered`, `branchDouble` emits the
compare and a single conditional branch on the condition's hardware code; on the
flags of each of the four outcomes that code passes exactly when the named
relation holds, so the run ends with the returned jump taken if and only if the
relation holds of the operands, and on an unordered comparison the jump is
taken exactly for the `...OrUnordered` conditions. -/
theorem branchDouble_single_taken (cond : DoubleCondition) (left right : FPRegisterID)
    (c : CPU) (h1 : cond ≠ .DoubleNotEqualAndOrdered) (h2 : cond ≠ .DoubleEqualOrUnordered) :
    branchDouble cond left right init
      = (⟨6, .JumpCondition, cond.armV7Condition⟩,
         ⟨⟨[.vcmp left right, .vmrs,
            .it cond.armV7Condition [true, true], .movT3 .r12 ⟨.TypeUInt16, 0⟩,
            .movt .r12 ⟨.TypeUInt16, 0⟩, .bx .r12], []⟩, false⟩)
    ∧ (∀ r : FPCompareResult, cond.armV7Condition.holds r.flags = cond.holdsFor r)
    ∧ ((branchDouble cond left right init).2.m_assembler.execute c).halted
        (branchDouble cond left right init).2.m_assembler = true
    ∧ ((branchDouble cond left right init).1.taken
          ((branchDouble cond left right init).2.m_assembler.execute c)
        ↔ cond.holdsFor (doubleCompare (c.fpr left) (c.fpr right)) = true)
    ∧ cond.holdsFor .unordered = cond.isOrUnordered := by
  have hq := branchDouble_single_eq cond left right h1 h2
  obtain ⟨he, hh⟩ := execute_vcmp_branch cond.armV7Condition left right c
  refine ⟨hq, fun r => doubleCondition_table cond r h1 h2, ?_, ?_, ?_⟩
  · rw [hq]; exact hh
  · unfold Jump.taken
    rw [hq]
    show (ARMv7Assembler.execute _ c).exited = some 6 ↔ _
    rw [he, doubleCondition_table cond _ h1 h2]
    by_cases h : cond.holdsFor (doubleCompare (c.fpr left) (c.fpr right)) = true
    · simp [h]
    · simp [h]
  · cases cond <;> rfl

/-- Witness for C19: `DoubleLessThanAndOrdered` on `d0 = 1.0` and `d1 = 2.0`. -/
theorem branchDouble_single_taken_witness :
    DoubleCondition.DoubleLessThanAndOrdered ≠ .DoubleNotEqualAndOrdered
    ∧ DoubleCondition.DoubleLessThanAndOrdered ≠ .DoubleEqualOrUnordered
    ∧ (branchDouble .DoubleLessThanAndOrdered 0 1 init).1.taken
        ((branchDouble .DoubleLessThanAndOrdered 0 1 init).2.m_assembler.execute
          ((CPU.sample.setDouble 0 0x3FF0000000000000).setDouble 1 0x4000000000000000)) :=
  ⟨by decide, by decide,
   (branchDouble_single_taken .DoubleLessThanAndOrdered 0 1
      ((CPU.sample.setDouble 0 0x3FF0000000000000).setDouble 1 0x4000000000000000)
      (by decide) (by decide)).2.2.2.1.mpr (by decide)⟩

theorem and_low_five (v : Nat) : v &&& 0x1f = v % 32 :=
  Nat.and_pow_two_sub_one_eq_mod v 5

theorem and_31 (v : Nat) : v &&& 31 = v % 32 :=
  Nat.and_pow_two_sub_one_eq_mod v 5

/-- The state after the masking `and` and a shift by `dataTempRegister`, for a
source other than `dataTempRegister`. -/
theorem shift_reg_regs (c : CPU) (src shiftAmount : RegisterID) (hsrc : src ≠ dataTempRegister) :
    (c.setReg dataTempRegister (c.regs shiftAmount &&& 31)).regs src = c.regs src
    ∧ (c.setReg dataTempRegister (c.regs shiftAmount &&& 31)).regs dataTempRegister % 256
        = c.regs shiftAmount % 32 := by
  rw [setReg_regs_other _ _ _ _ hsrc, setReg_regs_same, and_31]
  exact ⟨rfl, by omega⟩

/-- C12, as amended: when the mask `0x1f` is encodable, the register forms of
`lshift32`, `rshift32` and `urshift32` append `and dataTempRegister, shiftAmount,
#0x1f` and the shift of `src` by `dataTempRegister`, and for `src` other than
`dataTempRegister` the run leaves in `dest` the value of `src` shifted (logical
left, arithmetic right, logical right) by `shiftAmount mod 32`.  The immediate
form of `lshift32` appends one `lsl` by `imm & 0x1f`; the immediate forms of
`rshift32` and `urshift32` append one `asr` / `lsr` by `imm & 0x1f` when `imm`
is not 0 and the register move `src -> dest` when it is 0; `imm & 0x1f` lies in
`0..31`. -/
theorem shift32_masked (encodable : Nat → Bool) (src shiftAmount dest : RegisterID)
    (imm : TrustedImm32) (m : MacroAssemblerARMv7) (c : CPU)
    (henc : encodable 0x1f = true) :
    ((lshift32 encodable src shiftAmount dest m).buffer
        = m.buffer ++ [.ARM_and dataTempRegister shiftAmount ⟨.TypeEncoded, 0x1f⟩,
            .lslReg dest src dataTempRegister]
      ∧ (rshift32 encodable src shiftAmount dest m).buffer
        = m.buffer ++ [.ARM_and dataTempRegister shiftAmount ⟨.TypeEncoded, 0x1f⟩,
            .asrReg dest src dataTempRegister]
      ∧ (urshift32 encodable src shiftAmount dest m).buffer
        = m.buffer ++ [.ARM_and dataTempRegister shiftAmount ⟨.TypeEncoded, 0x1f⟩,
            .lsrReg dest src dataTempRegister])
    ∧ (src ≠ dataTempRegister →
        ((lshift32 encodable src shiftAmount dest init).m_assembler.execute c).halted
            (lshift32 encodable src shiftAmount dest init).m_assembler = true
        ∧ ((lshift32 encodable src shiftAmount dest init).m_assembler.execute c).cpu.regs dest
          = ((c.regs src % 4294967296) <<< (c.regs shiftAmount % 32)) % 4294967296
        ∧ ((rshift32 encodable src shiftAmount dest init).m_assembler.execute c).halted
            (rshift32 encodable src shiftAmount dest init).m_assembler = true
        ∧ ((rshift32 encodable src shiftAmount dest init).m_assembler.execute c).cpu.regs dest
          = toUInt32 (toInt32 (c.regs src) / 2 ^ (c.regs shiftAmount % 32))
        ∧ ((urshift32 encodable src shiftAmount dest init).m_assembler.execute c).halted
            (urshift32 encodable src shiftAmount dest init).m_assembler = true
        ∧ ((urshift32 encodable src shiftAmount dest init).m_assembler.execute c).cpu.regs dest
          = c.regs src % 4294967296 / 2 ^ (c.regs shiftAmount % 32))
    ∧ ((lshift32Imm src imm dest m).buffer
          = m.buffer ++ [.lsl dest src (toUInt32 imm.m_value &&& 0x1f)]
      ∧ (rshift32Imm src imm dest m).buffer
          = (if imm.m_value = 0 then (moveReg src dest m).buffer
            else m.buffer ++ [.asr dest src (toUInt32 imm.m_value &&& 0x1f)])
      ∧ (urshift32Imm src imm dest m).buffer
          = (if imm.m_value = 0 then (moveReg src dest m).buffer
            else m.buffer ++ [.lsr dest src (toUInt32 imm.m_value &&& 0x1f)])
      ∧ toUInt32 imm.m_value &&& 0x1f < 32) := by
  have hi : ARMThumbImmediate.makeEncodedImm encodable 0x1f = ⟨.TypeEncoded, 0x1f⟩ := by
    simp [ARMThumbImmediate.makeEncodedImm, henc]
  refine ⟨⟨?_, ?_, ?_⟩, ?_, ⟨?_, ?_, ?_, ?_⟩⟩
  · simp [lshift32, hi, emit_buffer]
  · simp [rshift32, hi, emit_buffer]
  · simp [urshift32, hi, emit_buffer]
  · intro hsrc
    obtain ⟨h1, h2⟩ := shift_reg_regs c src shiftAmount hsrc
    have hl : ∀ i ∈ (lshift32 encodable src shiftAmount dest init).m_assembler.buffer,
        i.isStraight = true := by
      simp [lshift32, emit, ARMv7Assembler.emit, init, Instr.isStraight]
    have hr : ∀ i ∈ (rshift32 encodable src shiftAmount dest init).m_assembler.buffer,
        i.isStraight = true := by
      simp [rshift32, emit, ARMv7Assembler.emit, init, Instr.isStraight]
    have hu : ∀ i ∈ (urshift32 encodable src shiftAmount dest init).m_assembler.buffer,
        i.isStraight = true := by
      simp [urshift32, emit, ARMv7Assembler.emit, init, Instr.isStraight]
    rw [execute_straight _ c hl, execute_straight _ c hr, execute_straight _ c hu]
    refine ⟨by simp [Machine.halted], ?_, by simp [Machine.halted], ?_,
      by simp [Machine.halted], ?_⟩
    · simp only [lshift32, hi, emit, ARMv7Assembler.emit, init, List.nil_append,
        List.cons_append, execSeq, List.foldl_cons, List.foldl_nil, Instr.exec]
      rw [setReg_regs_same, h1, h2]
    · simp only [rshift32, hi, emit, ARMv7Assembler.emit, init, List.nil_append,
        List.cons_append, execSeq, List.foldl_cons, List.foldl_nil, Instr.exec]
      rw [setReg_regs_same, h1, h2]
      exact Nat.mod_eq_of_lt (toUInt32_lt _)
    · simp only [urshift32, hi, emit, ARMv7Assembler.emit, init, List.nil_append,
        List.cons_append, execSeq, List.foldl_cons, List.foldl_nil, Instr.exec]
      rw [setReg_regs_same, h1, h2]
      apply Nat.mod_eq_of_lt
      exact lt_of_le_of_lt (Nat.div_le_self _ _) (Nat.mod_lt _ (by norm_num))
  · simp [lshift32Imm, emit_buffer]
  · unfold rshift32Imm
    split_ifs <;> simp [emit_buffer]
  · unfold urshift32Imm
    split_ifs <;> simp [emit_buffer]
  · rw [and_low_five]; omega

/-- Witness for C12 as amended: `r0` shifted by `r1` into `r2` under the Thumb-2
legality predicate, every register holding 7. -/
theorem shift32_masked_witness :
    thumb2Encodable 0x1f = true
    ∧ RegisterID.r0 ≠ dataTempRegister
    ∧ ((lshift32 thumb2Encodable .r0 .r1 .r2 init).m_assembler.execute CPU.sample).cpu.regs .r2
        = 896
    ∧ ((rshift32 thumb2Encodable .r0 .r1 .r2 init).m_assembler.execute CPU.sample).cpu.regs .r2
        = 0
    ∧ ((urshift32 thumb2Encodable .r0 .r1 .r2 init).m_assembler.execute CPU.sample).cpu.regs .r2
        = 0 :=
  ⟨by decide, by decide,
   ((shift32_masked thumb2Encodable .r0 .r1 .r2 ⟨0⟩ init CPU.sample (by decide)).2.1
      (by decide)).2.1.trans (by decide),
   ((shift32_masked thumb2Encodable .r0 .r1 .r2 ⟨0⟩ init CPU.sample (by decide)).2.1
      (by decide)).2.2.2.1.trans (by decide),
   ((shift32_masked thumb2Encodable .r0 .r1 .r2 ⟨0⟩ init CPU.sample (by decide)).2.1
      (by decide)).2.2.2.2.2.trans (by decide)⟩

/-- Counterexample to C12 as stated: for `imm = 0` the immediate forms of
`rshift32` and `urshift32` pass no shift amount at all; they emit the register
move alone. -/
theorem shift32_masked_counterexample :
    (rshift32Imm .r0 ⟨0⟩ .r1 init).buffer = [.movReg .r1 .r0]
    ∧ (urshift32Imm .r0 ⟨0⟩ .r1 init).buffer = [.movReg .r1 .r0]
    ∧ (rshift32Imm .r0 ⟨0⟩ .r1 init).buffer ≠ [.asr .r1 .r0 (toUInt32 0 &&& 0x1f)]
    ∧ (urshift32Imm .r0 ⟨0⟩ .r1 init).buffer ≠ [.lsr .r1 .r0 (toUInt32 0 &&& 0x1f)] := by
  decide

theorem move_no_smull (encodable : Nat → Bool) (imm : TrustedImm32) (dest : RegisterID) :
    (move encodable imm dest init).buffer.filter Instr.isSmull = [] := by
  unfold move
  simp only [buffer, emit, ARMv7Assembler.emit, init]
  split_ifs <;> simp [Instr.isSmull]

theorem smull_halves (p : Int) :
    (p % 18446744073709551616).toNat % 4294967296 % 4294967296 = toUInt32 p
    ∧ (p % 18446744073709551616).toNat / 4294967296 % 4294967296
        = toUInt32 (p / 4294967296) := by
  unfold toUInt32
  constructor <;> omega

/-- The registers after a `smull` into `rdLo` and `dataTempRegister`. -/
theorem exec_smull_regs (c : CPU) (rdLo rn rm : RegisterID) (h : rdLo ≠ dataTempRegister) :
    ((Instr.smull rdLo dataTempRegister rn rm).exec c).regs rdLo
        = toUInt32 (toInt32 (c.regs rn) * toInt32 (c.regs rm))
    ∧ ((Instr.smull rdLo dataTempRegister rn rm).exec c).regs dataTempRegister
        = toUInt32 (toInt32 (c.regs rn) * toInt32 (c.regs rm) / 4294967296) := by
  obtain ⟨h1, h2⟩ := smull_halves (toInt32 (c.regs rn) * toInt32 (c.regs rm))
  simp only [Instr.exec]
  rw [setReg_regs_other _ _ _ _ h, setReg_regs_same, setReg_regs_same]
  exact ⟨h1, h2⟩

/-- C13, as amended: `mul32(src, dest)`, `mul32(left, right, dest)` and
`mul32(imm, src, dest)` each append exactly one `smull` with low-word
destination `dest` and high-word destination `dataTempRegister` (the immediate
form after the move of `imm` into `dataTempRegister`); for `dest` other than
`dataTempRegister`, and for the immediate form `src` other than
`dataTempRegister` as well, the run leaves in `dest` the low 32 bits and in
`dataTempRegister` the high 32 bits of the signed product of the operands. -/
theorem mul32_smull (encodable : Nat → Bool) (imm : TrustedImm32) (left right dest : RegisterID)
    (m : MacroAssemblerARMv7) (c : CPU) :
    ((mul32 right dest m).buffer = m.buffer ++ [.smull dest dataTempRegister dest right]
      ∧ (mul32Reg left right dest m).buffer
          = m.buffer ++ [.smull dest dataTempRegister left right]
      ∧ (mul32Imm encodable imm left dest m).buffer
          = m.buffer ++ ((move encodable imm dataTempRegister init).buffer
              ++ [.smull dest dataTempRegister left dataTempRegister])
      ∧ ((mul32Imm encodable imm left dest init).buffer.filter Instr.isSmull).length = 1)
    ∧ (dest ≠ dataTempRegister →
        ((mul32 right dest init).m_assembler.execute c).halted
            (mul32 right dest init).m_assembler = true
        ∧ ((mul32 right dest init).m_assembler.execute c).cpu.regs dest
            = toUInt32 (toInt32 (c.regs dest) * toInt32 (c.regs right))
        ∧ ((mul32 right dest init).m_assembler.execute c).cpu.regs dataTempRegister
            = toUInt32 (toInt32 (c.regs dest) * toInt32 (c.regs right) / 4294967296)
        ∧ ((mul32Reg left right dest init).m_assembler.execute c).halted
            (mul32Reg left right dest init).m_assembler = true
        ∧ ((mul32Reg left right dest init).m_assembler.execute c).cpu.regs dest
            = toUInt32 (toInt32 (c.regs left) * toInt32 (c.regs right))
        ∧ ((mul32Reg left right dest init).m_assembler.execute c).cpu.regs dataTempRegister
            = toUInt32 (toInt32 (c.regs left) * toInt32 (c.regs right) / 4294967296))
    ∧ (dest ≠ dataTempRegister → left ≠ dataTempRegister →
        ((mul32Imm encodable imm left dest init).m_assembler.execute c).halted
            (mul32Imm encodable imm left dest init).m_assembler = true
        ∧ ((mul32Imm encodable imm left dest init).m_assembler.execute c).cpu.regs dest
            = toUInt32 (toInt32 (c.regs left) * toInt32 (toUInt32 imm.m_value))
        ∧ ((mul32Imm encodable imm left dest init).m_assembler.execute c).cpu.regs
              dataTempRegister
            = toUInt32 (toInt32 (c.regs left) * toInt32 (toUInt32 imm.m_value)
                / 4294967296)) := by
  have hbi : ∀ m : MacroAssemblerARMv7, (mul32Imm encodable imm left dest m).buffer
      = m.buffer ++ ((move encodable imm dataTempRegister init).buffer
          ++ [.smull dest dataTempRegister left dataTempRegister]) := by
    intro m
    simp only [mul32Imm, emit_buffer]
    rw [move_buffer, List.append_assoc]
  refine ⟨⟨rfl, rfl, hbi m, ?_⟩, ?_, ?_⟩
  · rw [hbi init, init_buffer, List.nil_append, List.filter_append, move_no_smull]
    rfl
  · intro hd
    have h1 : ∀ i ∈ (mul32 right dest init).m_assembler.buffer, i.isStraight = true := by
      simp [mul32, emit, ARMv7Assembler.emit, init, Instr.isStraight]
    have h2 : ∀ i ∈ (mul32Reg left right dest init).m_assembler.buffer,
        i.isStraight = true := by
      simp [mul32Reg, emit, ARMv7Assembler.emit, init, Instr.isStraight]
    rw [execute_straight _ c h1, execute_straight _ c h2]
    obtain ⟨a1, a2⟩ := exec_smull_regs c dest dest right hd
    obtain ⟨b1, b2⟩ := exec_smull_regs c dest left right hd
    exact ⟨by simp [Machine.halted], a1, a2, by simp [Machine.halted], b1, b2⟩
  · intro hd hl
    have h3 : ∀ i ∈ (mul32Imm encodable imm left dest init).m_assembler.buffer,
        i.isStraight = true := by
      show ∀ i ∈ (mul32Imm encodable imm left dest init).buffer, i.isStraight = true
      rw [hbi init, init_buffer, List.nil_append]
      intro i hi
      rcases List.mem_append.mp hi with h | h
      · exact move_straight _ _ _ i h
      · simp at h; subst h; rfl
    rw [execute_straight _ c h3]
    refine ⟨by simp [Machine.halted], ?_⟩
    show (execSeq (mul32Imm encodable imm left dest init).buffer c).regs dest = _
      ∧ (execSeq (mul32Imm encodable imm left dest init).buffer c).regs dataTempRegister = _
    rw [hbi init, init_buffer, List.nil_append, execSeq_append, execSeq_move]
    obtain ⟨a1, a2⟩ := exec_smull_regs
      (c.setReg dataTempRegister (toUInt32 imm.m_value)) dest left dataTempRegister hd
    rw [setReg_regs_other _ _ _ _ hl, setReg_regs_same,
      Nat.mod_eq_of_lt (toUInt32_lt _)] at a1 a2
    exact ⟨a1, a2⟩

/-- Witness for C13 as amended: `mul32(3, r1, r0)` with every register holding 7
leaves `r0 = 21` and `dataTempRegister = 0`. -/
theorem mul32_smull_witness :
    RegisterID.r0 ≠ dataTempRegister ∧ RegisterID.r1 ≠ dataTempRegister
    ∧ ((mul32Imm thumb2Encodable ⟨3⟩ .r1 .r0 init).m_assembler.execute CPU.sample).cpu.regs .r0
        = 21
    ∧ ((mul32Reg .r1 .r2 .r0 init).m_assembler.execute CPU.sample).cpu.regs .r0 = 49 :=
  ⟨by decide, by decide,
   ((mul32_smull thumb2Encodable ⟨3⟩ .r1 .r2 .r0 init CPU.sample).2.2 (by decide)
      (by decide)).2.1.trans (by decide),
   ((mul32_smull thumb2Encodable ⟨3⟩ .r1 .r2 .r0 init CPU.sample).2.1
      (by decide)).2.2.2.2.1.trans (by decide)⟩

/-- Counterexample to C13 as stated: `mul32(3, dataTempRegister, r0)` with every
register holding 7 moves 3 into the source register before multiplying, so `r0`
ends as 9 and not as the low word 21 of the product of the operands. -/
theorem mul32_smull_counterexample :
    RegisterID.r0 ≠ dataTempRegister
    ∧ ((mul32Imm thumb2Encodable ⟨3⟩ dataTempRegister .r0 init).m_assembler.execute
          CPU.sample).cpu.regs .r0 = 9
    ∧ toUInt32 (toInt32 (CPU.sample.regs dataTempRegister) * toInt32 (toUInt32 3)) = 21 := by
  decide

/-- C16, as amended: for every immediate `imm` such that
`makeUInt12OrEncodedImm(imm)` is invalid, whether or not
`makeUInt12OrEncodedImm(-imm)` is valid, `sub32(TrustedImm32(imm), dest)` and
`sub32(left, TrustedImm32(imm), dest)` append the move of `imm` into
`dataTempRegister` followed by one register subtract, the scratch-register
fallback; no add-immediate of `-imm` is substituted.  For `left` other than
`dataTempRegister` the run leaves `dest = (left - imm) mod 2^32`. -/
theorem sub32_imm_fallback (encodable : Nat → Bool) (imm : TrustedImm32)
    (left dest : RegisterID) (m : MacroAssemblerARMv7) (c : CPU)
    (hinv : (ARMThumbImmediate.makeUInt12OrEncodedImm encodable imm.m_value).isValid = false) :
    (sub32Imm encodable imm dest m).buffer
        = m.buffer ++ ((move encodable imm dataTempRegister init).buffer
            ++ [.subReg dest dest dataTempRegister])
    ∧ (sub32RegImm encodable left imm dest m).buffer
        = m.buffer ++ ((move encodable imm dataTempRegister init).buffer
            ++ [.subReg dest left dataTempRegister])
    ∧ (left ≠ dataTempRegister →
        ((sub32RegImm encodable left imm dest init).m_assembler.execute c).halted
            (sub32RegImm encodable left imm dest init).m_assembler = true
        ∧ ((sub32RegImm encodable left imm dest init).m_assembler.execute c).cpu.regs dest
            = toUInt32 ((c.regs left : Int) - imm.m_value)) := by
  have hb1 : ∀ m : MacroAssemblerARMv7, (sub32Imm encodable imm dest m).buffer
        = m.buffer ++ ((move encodable imm dataTempRegister init).buffer
            ++ [.subReg dest dest dataTempRegister]) := by
    intro m
    simp only [sub32Imm, hinv, Bool.false_eq_true, if_false, emit_buffer]
    rw [move_buffer, List.append_assoc]
  have hb2 : ∀ m : MacroAssemblerARMv7, (sub32RegImm encodable left imm dest m).buffer
        = m.buffer ++ ((move encodable imm dataTempRegister init).buffer
            ++ [.subReg dest left dataTempRegister]) := by
    intro m
    simp only [sub32RegImm, hinv, Bool.false_eq_true, if_false, emit_buffer]
    rw [move_buffer, List.append_assoc]
  refine ⟨hb1 m, hb2 m, ?_⟩
  intro hl
  have hs : ∀ i ∈ (sub32RegImm encodable left imm dest init).m_assembler.buffer,
      i.isStraight = true := by
    show ∀ i ∈ (sub32RegImm encodable left imm dest init).buffer, i.isStraight = true
    rw [hb2 init, init_buffer, List.nil_append]
    intro i hi
    rcases List.mem_append.mp hi with h | h
    · exact move_straight _ _ _ i h
    · simp at h; subst h; rfl
  rw [execute_straight _ c hs]
  refine ⟨by simp [Machine.halted], ?_⟩
  show (execSeq (sub32RegImm encodable left imm dest init).buffer c).regs dest = _
  rw [hb2 init, init_buffer, List.nil_append, execSeq_append, execSeq_move]
  simp only [execSeq, List.foldl_cons, List.foldl_nil, Instr.exec]
  rw [setReg_regs_same, setReg_regs_other _ _ _ _ hl, setReg_regs_same]
  unfold toUInt32
  omega

/-- Witness for C16 as amended: `imm = -5`, `left = r1`, `dest = r0` under the
Thumb-2 legality predicate, every register holding 7. -/
theorem sub32_imm_fallback_witness :
    (ARMThumbImmediate.makeUInt12OrEncodedImm thumb2Encodable (-5)).isValid = false
    ∧ RegisterID.r1 ≠ dataTempRegister
    ∧ ((sub32RegImm thumb2Encodable .r1 ⟨-5⟩ .r0 init).m_assembler.execute
          CPU.sample).cpu.regs .r0 = 12 :=
  ⟨by decide, by decide,
   ((sub32_imm_fallback thumb2Encodable ⟨-5⟩ .r1 .r0 init CPU.sample (by decide)).2.2
      (by decide)).2.trans (by decide)⟩

/-- Counterexample to C16 as stated: for `imm = -5` the first test fails and the
test of `-imm` would pass, yet both forms of `sub32` emit `mvn` into
`dataTempRegister` and a register subtract, not a single add-immediate of 5. -/
theorem sub32_imm_fallback_counterexample :
    (ARMThumbImmediate.makeUInt12OrEncodedImm thumb2Encodable (-5)).isValid = false
    ∧ (ARMThumbImmediate.makeUInt12OrEncodedImm thumb2Encodable (wrapInt32 (- -5))).isValid = true
    ∧ (sub32Imm thumb2Encodable ⟨-5⟩ .r0 init).buffer
        = [.mvn .r12 ⟨.TypeEncoded, 4⟩, .subReg .r0 .r0 .r12]
    ∧ (sub32RegImm thumb2Encodable .r1 ⟨-5⟩ .r0 init).buffer
        = [.mvn .r12 ⟨.TypeEncoded, 4⟩, .subReg .r0 .r1 .r12]
    ∧ (sub32Imm thumb2Encodable ⟨-5⟩ .r0 init).buffer ≠ [.add .r0 .r0 ⟨.TypeUInt16, 5⟩] := by
  decide

theorem makeBranch_eq (cond : Condition) (m : MacroAssemblerARMv7) :
    makeBranch cond m
      = (⟨m.buffer.length + 4,
          if m.m_makeJumpPatchable then .JumpConditionFixedSize else .JumpCondition, cond⟩,
         ⟨⟨m.buffer ++ [.it cond [true, true], .movT3 dataTempRegister ⟨.TypeUInt16, 0⟩,
            .movt dataTempRegister ⟨.TypeUInt16, 0⟩, .bx dataTempRegister],
           m.m_assembler.m_jumpsToLink⟩, m.m_makeJumpPatchable⟩) := by
  simp [makeBranch, moveFixedWidthEncoding_zero, buffer, emit, ARMv7Assembler.emit,
    ARMv7Assembler.label]

/-- Where the run of a straight-line sequence followed by the block of
`makeBranch` ends, when the buffer has no link record. -/
theorem execute_straight_branch (cond : Condition) (m : MacroAssemblerARMv7) (c : CPU)
    (hs : ∀ i ∈ m.buffer, i.isStraight = true) (hl : m.m_assembler.m_jumpsToLink = []) :
    ((makeBranch cond m).2.m_assembler.execute c).exited
      = (if cond.holds (execSeq m.buffer c).apsr = true then some (m.buffer.length + 4)
          else none)
    ∧ ((makeBranch cond m).2.m_assembler.execute c).halted
        (makeBranch cond m).2.m_assembler = true := by
  rw [makeBranch_eq]
  generalize ha : (⟨m.buffer ++ [.it cond [true, true],
      .movT3 dataTempRegister ⟨.TypeUInt16, 0⟩,
      .movt dataTempRegister ⟨.TypeUInt16, 0⟩, .bx dataTempRegister],
      m.m_assembler.m_jumpsToLink⟩ : ARMv7Assembler) = a
  have hbuf : a.buffer = m.buffer ++ [.it cond [true, true],
      .movT3 dataTempRegister ⟨.TypeUInt16, 0⟩,
      .movt dataTempRegister ⟨.TypeUInt16, 0⟩, .bx dataTempRegister] := by rw [← ha]
  have hlen : a.buffer.length = m.buffer.length + 4 := by rw [hbuf]; simp
  have hlk : a.m_jumpsToLink = [] := by rw [← ha]; exact hl
  have h1 := run_straight a m.buffer [.it cond [true, true],
      .movT3 dataTempRegister ⟨.TypeUInt16, 0⟩,
      .movt dataTempRegister ⟨.TypeUInt16, 0⟩, .bx dataTempRegister] [] c
      (by rw [hbuf]; rfl) hs
  have h2 := run_branch_block a m.buffer [] cond ⟨.TypeUInt16, 0⟩ ⟨.TypeUInt16, 0⟩
      (execSeq m.buffer c) (by rw [hbuf]; simp)
  simp only [List.length_nil, Nat.zero_add, hlk, List.find?_nil] at h1 h2
  show (Machine.run a a.buffer.length (Machine.boot c)).exited = _
    ∧ (Machine.run a a.buffer.length (Machine.boot c)).halted a = true
  rw [hlen, run_add]
  show (Machine.run a 4 (Machine.run a m.buffer.length ⟨c, [], 0, none⟩)).exited = _
    ∧ (Machine.run a 4 (Machine.run a m.buffer.length ⟨c, [], 0, none⟩)).halted a = true
  rw [h1, h2]
  by_cases h : cond.holds (execSeq m.buffer c).apsr = true
  · simp [h, Machine.halted]
  · simp [h, Machine.halted, hlen]

theorem flags_ext (f g : Flags) (hn : f.n = g.n) (hz : f.z = g.z) (hc : f.c = g.c)
    (hv : f.v = g.v) : f = g := by
  cases f; cases g; simp_all

/-- Adding the negation sets the flags of the subtraction, except for the two
immediates whose negation is themselves. -/
theorem addFlags_neg (x u : Nat) (hu : u < 4294967296) (h0 : u ≠ 0) (hmin : u ≠ 2147483648) :
    addFlags x ((4294967296 - u) % 4294967296) = subFlags x u := by
  apply flags_ext
  · simp only [addFlags, subFlags]
    congr 1
    apply propext
    constructor <;> intro h <;> omega
  · simp only [addFlags, subFlags]
    congr 1
    apply propext
    constructor <;> intro h <;> omega
  · simp only [addFlags, subFlags]
    congr 1
    apply propext
    constructor <;> intro h <;> omega
  · simp only [addFlags, subFlags, toInt32]
    congr 1
    apply propext
    constructor <;> intro h <;> split_ifs at h ⊢ <;> omega

theorem bestTempRegister_ne (left : RegisterID) : bestTempRegister left ≠ left := by
  unfold bestTempRegister
  split_ifs with h
  · rw [h]; decide
  · exact fun hc => h hc.symm

theorem compare32AndSetFlags_buffer (encodable : Nat → Bool) (left : RegisterID)
    (right : TrustedImm32) (m : MacroAssemblerARMv7) :
    (compare32AndSetFlags encodable left right m).buffer
      = m.buffer ++ (compare32AndSetFlags encodable left right init).buffer := by
  unfold compare32AndSetFlags
  simp only []
  split_ifs
  · simp [emit_buffer, init_buffer]
  · simp [emit_buffer, init_buffer]
  · simp [emit_buffer, init_buffer]
  · rw [emit_buffer, emit_buffer, move_buffer, List.append_assoc]

theorem compare32AndSetFlags_links (encodable : Nat → Bool) (left : RegisterID)
    (right : TrustedImm32) (m : MacroAssemblerARMv7) :
    (compare32AndSetFlags encodable left right m).m_assembler.m_jumpsToLink
        = m.m_assembler.m_jumpsToLink
    ∧ (compare32AndSetFlags encodable left right m).m_makeJumpPatchable
        = m.m_makeJumpPatchable := by
  unfold compare32AndSetFlags
  simp only []
  split_ifs
  · exact ⟨rfl, rfl⟩
  · exact ⟨rfl, rfl⟩
  · exact ⟨rfl, rfl⟩
  · exact move_links _ _ _ _

theorem compare32AndSetFlags_straight (encodable : Nat → Bool) (left : RegisterID)
    (right : TrustedImm32) :
    ∀ i ∈ (compare32AndSetFlags encodable left right init).buffer, i.isStraight = true := by
  unfold compare32AndSetFlags
  simp only []
  split_ifs
  · simp [emit_buffer, init_buffer, Instr.isStraight]
  · simp [emit_buffer, init_buffer, Instr.isStraight]
  · simp [emit_buffer, init_buffer, Instr.isStraight]
  · rw [emit_buffer]
    intro i hi
    rcases List.mem_append.mp hi with h | h
    · exact move_straight _ _ _ i h
    · simp at h; subst h; rfl

theorem compare32AndSetFlags_cmp (encodable : Nat → Bool) (left : RegisterID)
    (right : TrustedImm32) (m : MacroAssemblerARMv7)
    (h1 : encodable (toUInt32 right.m_value) = true) :
    compare32AndSetFlags encodable left right m
      = m.emit (.cmpImm left ⟨.TypeEncoded, toUInt32 right.m_value⟩) := by
  simp [compare32AndSetFlags, ARMThumbImmediate.makeEncodedImm, h1, ARMThumbImmediate.isValid]

theorem compare32AndSetFlags_neg (encodable : Nat → Bool) (left : RegisterID)
    (right : TrustedImm32) (m : MacroAssemblerARMv7)
    (h1 : ¬ encodable (toUInt32 right.m_value) = true)
    (h2 : encodable (toUInt32 (wrapInt32 (-right.m_value))) = true) :
    compare32AndSetFlags encodable left right m
        = m.emit (.add_S addressTempRegister left
            ⟨.TypeEncoded, toUInt32 (wrapInt32 (-right.m_value))⟩)
    ∨ compare32AndSetFlags encodable left right m
        = m.emit (.cmn left ⟨.TypeEncoded, toUInt32 (wrapInt32 (-right.m_value))⟩) := by
  by_cases ha : left.toNat &&& 8 = 0
  · by_cases hb : ARMThumbImmediate.isUInt3
        (⟨.TypeEncoded, toUInt32 (wrapInt32 (-right.m_value))⟩ : ARMThumbImmediate) = true
    · by_cases hc : left = addressTempRegister
      · right
        simp [compare32AndSetFlags, ARMThumbImmediate.makeEncodedImm, h1, h2,
          ARMThumbImmediate.isValid, ARMThumbImmediate.invalid, hc]
      · left
        simp [compare32AndSetFlags, ARMThumbImmediate.makeEncodedImm, h1, h2,
          ARMThumbImmediate.isValid, ARMThumbImmediate.invalid, ha, hb, hc]
    · right
      simp [compare32AndSetFlags, ARMThumbImmediate.makeEncodedImm, h1, h2,
        ARMThumbImmediate.isValid, ARMThumbImmediate.invalid, hb]
  · right
    simp [compare32AndSetFlags, ARMThumbImmediate.makeEncodedImm, h1, h2,
      ARMThumbImmediate.isValid, ARMThumbImmediate.invalid, ha]

theorem compare32AndSetFlags_scratch (encodable : Nat → Bool) (left : RegisterID)
    (right : TrustedImm32) (m : MacroAssemblerARMv7)
    (h1 : ¬ encodable (toUInt32 right.m_value) = true)
    (h2 : ¬ encodable (toUInt32 (wrapInt32 (-right.m_value))) = true) :
    compare32AndSetFlags encodable left right m
      = (move encodable right (bestTempRegister left) m).emit
          (.cmp left (bestTempRegister left)) := by
  simp [compare32AndSetFlags, ARMThumbImmediate.makeEncodedImm, h1, h2,
    ARMThumbImmediate.isValid, ARMThumbImmediate.invalid]

/-- The flags after the sequence of `compare32AndSetFlags` are those of the
subtraction of the immediate from the value of `left`, on each path. -/
theorem compare32AndSetFlags_flags (encodable : Nat → Bool) (left : RegisterID)
    (right : TrustedImm32) (c : CPU)
    (h0 : encodable 0 = true) (hmin : encodable 2147483648 = true) :
    (execSeq (compare32AndSetFlags encodable left right init).buffer c).apsr
      = subFlags (c.regs left) (toUInt32 right.m_value) := by
  have hlt := toUInt32_lt right.m_value
  by_cases h1 : encodable (toUInt32 right.m_value) = true
  · rw [compare32AndSetFlags_cmp _ _ _ _ h1]
    simp [emit_buffer, init_buffer, execSeq, Instr.exec]
  · have hne0 : toUInt32 right.m_value ≠ 0 := fun hc => h1 (hc ▸ h0)
    have hnemin : toUInt32 right.m_value ≠ 2147483648 := fun hc => h1 (hc ▸ hmin)
    have hfl := addFlags_neg (c.regs left) _ hlt hne0 hnemin
    rw [← toUInt32_wrapInt32_neg] at hfl
    by_cases h2 : encodable (toUInt32 (wrapInt32 (-right.m_value))) = true
    · rcases compare32AndSetFlags_neg encodable left right init h1 h2 with e | e
      · rw [e]
        simpa [emit_buffer, init_buffer, execSeq, Instr.exec, CPU.setReg] using hfl
      · rw [e]
        simpa [emit_buffer, init_buffer, execSeq, Instr.exec] using hfl
    · rw [compare32AndSetFlags_scratch _ _ _ _ h1 h2, emit_buffer, execSeq_append, execSeq_move]
      simp only [execSeq, List.foldl_cons, List.foldl_nil, Instr.exec]
      rw [setReg_regs_other _ _ _ _ (bestTempRegister_ne left).symm, setReg_regs_same]
      simp [subFlags]

/-- On the flags of `x - imm`, each relational condition's hardware code passes
exactly when the relation it names holds. -/
theorem relational_table (cond : RelationalCondition) (x : Nat) (i : Int) (hi : isInt32 i) :
    cond.armV7Condition.holds (subFlags x (toUInt32 i)) = true ↔ cond.relation x i := by
  unfold isInt32 at hi
  have hu : toUInt32 i % 4294967296 = toUInt32 i := Nat.mod_eq_of_lt (toUInt32_lt i)
  have hs : toInt32 (toUInt32 i) = i := by
    unfold toInt32 toUInt32; split_ifs <;> omega
  have hx := toInt32_bounds x
  have hxd : toInt32 x = if x % 4294967296 < 2147483648 then ((x % 4294967296 : Nat) : Int)
      else ((x % 4294967296 : Nat) : Int) - 4294967296 := rfl
  have hud : (toUInt32 i : Int) = i % 4294967296 := by
    unfold toUInt32; omega
  have hr : ∀ r : Nat, toInt32 r = if r % 4294967296 < 2147483648 then ((r % 4294967296 : Nat) : Int)
      else ((r % 4294967296 : Nat) : Int) - 4294967296 := fun _ => rfl
  cases cond <;>
    simp only [RelationalCondition.armV7Condition, Condition.holds, subFlags,
      RelationalCondition.relation, hu, Nat.mod_mod, decide_eq_true_eq, Bool.and_eq_true,
      Bool.or_eq_true, Bool.not_eq_true', decide_eq_false_iff_not, beq_iff_eq, bne_iff_ne,
      decide_eq_decide, ne_eq, hr, hs] <;>
    omega

/-- C20: for every relational condition, register `left` and 32-bit immediate, the code of
`branch32(cond, left, TrustedImm32(imm))` runs to its end, the flags its comparison leaves are
those of `x - imm` for the value `x` held in `left` (on each of the three paths of
`compare32AndSetFlags`), and the returned jump is taken exactly when `x cond imm` holds
(signed, unsigned or equality as the condition names).  The immediate encoder is assumed to
accept 0 and 0x80000000, as the Thumb-2 encoder does. -/
theorem branch32_imm_taken (encodable : Nat → Bool) (cond : RelationalCondition)
    (left : RegisterID) (imm : TrustedImm32) (c : CPU)
    (h0 : encodable 0 = true) (hmin : encodable 2147483648 = true)
    (hi : isInt32 imm.m_value) :
    ((branch32Imm encodable cond left imm init).2.m_assembler.execute c).halted
        (branch32Imm encodable cond left imm init).2.m_assembler = true
    ∧ (execSeq (compare32AndSetFlags encodable left imm init).buffer c).apsr
        = subFlags (c.regs left) (toUInt32 imm.m_value)
    ∧ ((branch32Imm encodable cond left imm init).1.taken
          ((branch32Imm encodable cond left imm init).2.m_assembler.execute c)
        ↔ cond.relation (c.regs left) imm.m_value) := by
  have hf := compare32AndSetFlags_flags encodable left imm c h0 hmin
  have hb := execute_straight_branch cond.armV7Condition
    (compare32AndSetFlags encodable left imm init) c
    (compare32AndSetFlags_straight encodable left imm)
    ((compare32AndSetFlags_links encodable left imm init).1.trans rfl)
  refine ⟨hb.2, hf, ?_⟩
  have ht := relational_table cond (c.regs left) imm.m_value hi
  unfold Jump.taken
  show ((makeBranch cond.armV7Condition
      (compare32AndSetFlags encodable left imm init)).2.m_assembler.execute c).exited
      = some (makeBranch cond.armV7Condition
          (compare32AndSetFlags encodable left imm init)).1.m_label ↔ _
  rw [hb.1, hf, makeBranch_eq]
  by_cases h : cond.armV7Condition.holds (subFlags (c.regs left) (toUInt32 imm.m_value)) = true
  · simp only [h, if_true, true_iff]; exact ht.mp h
  · have hn : ¬ cond.relation (c.regs left) imm.m_value := fun hr => h (ht.mpr hr)
    simp [h, hn]

/-- Witness for C20: GreaterThan against -5 in r0 of the sample state (value 7), through the
`cmn` path. -/
theorem branch32_imm_taken_witness :
    ((branch32Imm thumb2Encodable .GreaterThan .r0 ⟨-5⟩ init).2.m_assembler.execute
        CPU.sample).halted
        (branch32Imm thumb2Encodable .GreaterThan .r0 ⟨-5⟩ init).2.m_assembler = true
    ∧ (execSeq (compare32AndSetFlags thumb2Encodable .r0 ⟨-5⟩ init).buffer CPU.sample).apsr
        = subFlags (CPU.sample.regs .r0) (toUInt32 (-5))
    ∧ ((branch32Imm thumb2Encodable .GreaterThan .r0 ⟨-5⟩ init).1.taken
          ((branch32Imm thumb2Encodable .GreaterThan .r0 ⟨-5⟩ init).2.m_assembler.execute
            CPU.sample)
        ↔ RelationalCondition.GreaterThan.relation (CPU.sample.regs .r0) (-5)) :=
  branch32_imm_taken thumb2Encodable .GreaterThan .r0 ⟨-5⟩ CPU.sample (by decide) (by decide)
    (by decide)

theorem makeBranch_type (cond : Condition) (m : MacroAssemblerARMv7) :
    (makeBranch cond m).1.m_type
      = if m.m_makeJumpPatchable then .JumpConditionFixedSize else .JumpCondition := by
  rw [makeBranch_eq]

theorem jump_type (m : MacroAssemblerARMv7) :
    (jump m).1.m_type
      = if m.m_makeJumpPatchable then .JumpNoConditionFixedSize else .JumpNoCondition := by
  simp [jump, moveFixedWidthEncoding, emit]

theorem moveReg_patchable (src dest : RegisterID) (m : MacroAssemblerARMv7) :
    (moveReg src dest m).m_makeJumpPatchable = m.m_makeJumpPatchable := by
  unfold moveReg; split_ifs <;> rfl

theorem setupArmAddress_patchable (encodable : Nat → Bool) (address : Address)
    (m : MacroAssemblerARMv7) :
    (setupArmAddress encodable address m).2.m_makeJumpPatchable = m.m_makeJumpPatchable := by
  unfold setupArmAddress
  split_ifs
  · rfl
  · exact (move_links encodable ⟨address.offset⟩ addressTempRegister m).2

theorem load32Arm_patchable (address : ArmAddress) (dest : RegisterID)
    (m : MacroAssemblerARMv7) :
    (load32Arm address dest m).m_makeJumpPatchable = m.m_makeJumpPatchable := by
  unfold load32Arm
  cases address with
  | hasIndex base index scale => rfl
  | hasOffset base offset => simp only []; split_ifs <;> rfl

theorem load8Arm_patchable (address : ArmAddress) (dest : RegisterID)
    (m : MacroAssemblerARMv7) :
    (load8Arm address dest m).m_makeJumpPatchable = m.m_makeJumpPatchable := by
  unfold load8Arm
  cases address with
  | hasIndex base index scale => rfl
  | hasOffset base offset => simp only []; split_ifs <;> rfl

theorem load32_patchable (encodable : Nat → Bool) (address : Address) (dest : RegisterID)
    (m : MacroAssemblerARMv7) :
    (load32 encodable address dest m).m_makeJumpPatchable = m.m_makeJumpPatchable := by
  unfold load32
  exact (load32Arm_patchable _ dest _).trans (setupArmAddress_patchable encodable address m)

theorem load8_patchable (encodable : Nat → Bool) (address : Address) (dest : RegisterID)
    (m : MacroAssemblerARMv7) :
    (load8 encodable address dest m).m_makeJumpPatchable = m.m_makeJumpPatchable := by
  unfold load8
  exact (load8Arm_patchable _ dest _).trans (setupArmAddress_patchable encodable address m)

theorem test32_patchable (encodable : Nat → Bool) (reg : RegisterID) (mask : TrustedImm32)
    (m : MacroAssemblerARMv7) :
    (test32 encodable reg mask m).m_makeJumpPatchable = m.m_makeJumpPatchable := by
  unfold test32
  simp only []
  split_ifs <;>
    simp [emit, moveReg_patchable, (move_links encodable mask _ _).2]

theorem branch32_type (cond : RelationalCondition) (left right : RegisterID)
    (m : MacroAssemblerARMv7) :
    (branch32 cond left right m).1.m_type
      = if m.m_makeJumpPatchable then .JumpConditionFixedSize else .JumpCondition := by
  unfold branch32
  rw [makeBranch_type]
  split_ifs <;> simp_all [emit, moveReg_patchable]

theorem branch32Imm_type (encodable : Nat → Bool) (cond : RelationalCondition)
    (left : RegisterID) (right : TrustedImm32) (m : MacroAssemblerARMv7) :
    (branch32Imm encodable cond left right m).1.m_type
      = if m.m_makeJumpPatchable then .JumpConditionFixedSize else .JumpCondition := by
  unfold branch32Imm
  rw [makeBranch_type, (compare32AndSetFlags_links encodable left right m).2]

theorem branch32AddressImm_type (encodable : Nat → Bool) (cond : RelationalCondition)
    (left : Address) (right : TrustedImm32) (m : MacroAssemblerARMv7) :
    (branch32AddressImm encodable cond left right m).1.m_type
      = if m.m_makeJumpPatchable then .JumpConditionFixedSize else .JumpCondition := by
  unfold branch32AddressImm
  simp only []
  rw [branch32Imm_type, load32_patchable]

theorem branchTest32_type (encodable : Nat → Bool) (cond : ResultCondition)
    (reg : RegisterID) (mask : TrustedImm32) (m : MacroAssemblerARMv7) :
    (branchTest32 encodable cond reg mask m).1.m_type
      = if m.m_makeJumpPatchable then .JumpConditionFixedSize else .JumpCondition := by
  unfold branchTest32
  rw [makeBranch_type, test32_patchable]

theorem branch8_type (encodable : Nat → Bool) (isUnsigned : RelationalCondition → Bool)
    (cond : RelationalCondition) (left : RegisterID) (right : TrustedImm32)
    (m : MacroAssemblerARMv7) :
    (branch8 encodable isUnsigned cond left right m).1.m_type
      = if m.m_makeJumpPatchable then .JumpConditionFixedSize else .JumpCondition := by
  unfold branch8
  simp only []
  rw [makeBranch_type, (compare32AndSetFlags_links encodable left _ m).2]

theorem branch8Address_type (encodable : Nat → Bool) (isUnsigned : RelationalCondition → Bool)
    (cond : RelationalCondition) (left : Address) (right : TrustedImm32)
    (m : MacroAssemblerARMv7) :
    (branch8Address encodable isUnsigned cond left right m).map (fun r => r.1.m_type)
      = if isUnsigned cond = true then
          some (if m.m_makeJumpPatchable then .JumpConditionFixedSize else .JumpCondition)
        else none := by
  unfold branch8Address load8OnCondition load8SignedExtendTo32Address
  by_cases h : isUnsigned cond = true
  · simp [h, branch8_type, load8_patchable]
  · simp [h]

theorem branchPtrWithPatchAddress_type (encodable : Nat → Bool) (cond : RelationalCondition)
    (left : Address) (initialRightValue : TrustedImmPtr) (m : MacroAssemblerARMv7) :
    (branchPtrWithPatchAddress encodable cond left initialRightValue m).1.1.m_type
      = if m.m_makeJumpPatchable then .JumpConditionFixedSize else .JumpCondition := by
  unfold branchPtrWithPatchAddress
  simp only []
  rw [branch32_type]
  simp [moveWithPatchPtr, padBeforePatch, moveFixedWidthEncoding, emit, load32_patchable]

theorem branch32WithPatch_type (encodable : Nat → Bool) (cond : RelationalCondition)
    (left : Address) (initialRightValue : TrustedImm32) (m : MacroAssemblerARMv7) :
    (branch32WithPatch encodable cond left initialRightValue m).1.1.m_type
      = if m.m_makeJumpPatchable then .JumpConditionFixedSize else .JumpCondition := by
  unfold branch32WithPatch
  simp only []
  rw [branch32_type]
  simp [moveWithPatch, padBeforePatch, moveFixedWidthEncoding, emit, load32_patchable]

theorem patchableBranch8_type (encodable : Nat → Bool) (isUnsigned : RelationalCondition → Bool)
    (cond : RelationalCondition) (left : Address) (imm : TrustedImm32)
    (m : MacroAssemblerARMv7) :
    (patchableBranch8 encodable isUnsigned cond left imm m).map (fun r => r.1.m_jump.m_type)
      = (if isUnsigned cond = true then some .JumpConditionFixedSize else none) := by
  have h := branch8Address_type encodable isUnsigned cond left imm
    { m with m_makeJumpPatchable := true }
  unfold patchableBranch8
  simp only []
  cases hb : branch8Address encodable isUnsigned cond left imm
      { m with m_makeJumpPatchable := true } with
  | none => rw [hb] at h; simpa using h
  | some r => rw [hb] at h; simpa using h

/-- C11, as amended: on every starting state, each patchable branch constructor
other than `patchableBranch8` returns a jump of the fixed-size type
(`JumpConditionFixedSize` for the conditional ones, `JumpNoConditionFixedSize` for
`patchableJump`), and the corresponding non-patchable entry point called on the
initial assembler returns a jump of the plain type (`JumpCondition`,
`JumpNoCondition`).  The byte branch (`patchableBranch8`, `branch8` on an address)
returns such a jump exactly for the conditions the helper predicate `isUnsigned`
accepts, that is `Equal`, `NotEqual`, `Above`, `AboveOrEqual`, `Below` and
`BelowOrEqual`; for `GreaterThan`, `GreaterThanOrEqual`, `LessThan` and
`LessThanOrEqual` it reaches `load8SignedExtendTo32(Address, RegisterID)`, the
fatal abort of this backend, and returns no jump. -/
theorem patchable_jump_types (encodable : Nat → Bool) (isUnsigned : RelationalCondition → Bool)
    (cond : RelationalCondition) (rcond : ResultCondition) (left : Address) (reg : RegisterID)
    (imm : TrustedImm32) (ptr : TrustedImmPtr) (m : MacroAssemblerARMv7) :
    ((patchableBranchPtr encodable cond left ptr m).1.m_jump.m_type = .JumpConditionFixedSize
      ∧ (patchableBranchTest32 encodable rcond reg imm m).1.m_jump.m_type
          = .JumpConditionFixedSize
      ∧ (patchableBranch8 encodable isUnsigned cond left imm m).map (fun r => r.1.m_jump.m_type)
          = (if isUnsigned cond = true then some .JumpConditionFixedSize else none)
      ∧ (patchableBranch32 encodable cond reg imm m).1.m_jump.m_type = .JumpConditionFixedSize
      ∧ (patchableBranch32Address encodable cond left imm m).1.m_jump.m_type
          = .JumpConditionFixedSize
      ∧ (patchableBranchPtrWithPatch encodable cond left ptr m).1.1.m_jump.m_type
          = .JumpConditionFixedSize
      ∧ (patchableBranch32WithPatch encodable cond left imm m).1.1.m_jump.m_type
          = .JumpConditionFixedSize
      ∧ (patchableJump m).1.m_jump.m_type = .JumpNoConditionFixedSize)
    ∧ ((branch32AddressImm encodable cond left ptr.toImm32 init).1.m_type = .JumpCondition
      ∧ (branchTest32 encodable rcond reg imm init).1.m_type = .JumpCondition
      ∧ (branch8Address encodable isUnsigned cond left imm init).map (fun r => r.1.m_type)
          = (if isUnsigned cond = true then some .JumpCondition else none)
      ∧ (branch32Imm encodable cond reg imm init).1.m_type = .JumpCondition
      ∧ (branch32AddressImm encodable cond left imm init).1.m_type = .JumpCondition
      ∧ (branchPtrWithPatchAddress encodable cond left ptr init).1.1.m_type = .JumpCondition
      ∧ (branch32WithPatch encodable cond left imm init).1.1.m_type = .JumpCondition
      ∧ (jump init).1.m_type = .JumpNoCondition)
    ∧ ((patchableBranch8 encodable isUnsignedCondition cond left imm m).map
          (fun r => r.1.m_jump.m_type)
          = (if cond = .GreaterThan ∨ cond = .GreaterThanOrEqual ∨ cond = .LessThan
                ∨ cond = .LessThanOrEqual then none
              else some .JumpConditionFixedSize)
      ∧ (branch8Address encodable isUnsignedCondition cond left imm init).map
          (fun r => r.1.m_type)
          = (if cond = .GreaterThan ∨ cond = .GreaterThanOrEqual ∨ cond = .LessThan
                ∨ cond = .LessThanOrEqual then none
              else some .JumpCondition)) := by
  refine ⟨⟨?_, ?_, ?_, ?_, ?_, ?_, ?_, ?_⟩, ⟨?_, ?_, ?_, ?_, ?_, ?_, ?_, ?_⟩, ⟨?_, ?_⟩⟩
  · show (branch32AddressImm encodable cond left ptr.toImm32
        { m with m_makeJumpPatchable := true }).1.m_type = _
    rw [branch32AddressImm_type]; rfl
  · show (branchTest32 encodable rcond reg imm { m with m_makeJumpPatchable := true }).1.m_type = _
    rw [branchTest32_type]; rfl
  · exact patchableBranch8_type encodable isUnsigned cond left imm m
  · show (branch32Imm encodable cond reg imm { m with m_makeJumpPatchable := true }).1.m_type = _
    rw [branch32Imm_type]; rfl
  · show (branch32AddressImm encodable cond left imm
        { m with m_makeJumpPatchable := true }).1.m_type = _
    rw [branch32AddressImm_type]; rfl
  · show (branchPtrWithPatchAddress encodable cond left ptr
        { m with m_makeJumpPatchable := true }).1.1.m_type = _
    rw [branchPtrWithPatchAddress_type]; rfl
  · show (branch32WithPatch encodable cond left imm
        { m with m_makeJumpPatchable := true }).1.1.m_type = _
    rw [branch32WithPatch_type]; rfl
  · show (jump { padBeforePatch m with m_makeJumpPatchable := true }).1.m_type = _
    rw [jump_type]; rfl
  · rw [branch32AddressImm_type]; rfl
  · rw [branchTest32_type]; rfl
  · rw [branch8Address_type]; rfl
  · rw [branch32Imm_type]; rfl
  · rw [branch32AddressImm_type]; rfl
  · rw [branchPtrWithPatchAddress_type]; rfl
  · rw [branch32WithPatch_type]; rfl
  · rw [jump_type]; rfl
  · rw [patchableBranch8_type]; cases cond <;> simp [isUnsignedCondition]
  · rw [branch8Address_type]; cases cond <;> simp [isUnsignedCondition, init]

/-- Counterexample to C11 as stated: `LessThan` is not among the conditions the
helper predicate accepts, so `patchableBranch8(LessThan, Address(r0, 0), 0)` and
`branch8` on the same operands load the byte with
`load8SignedExtendTo32(Address, RegisterID)`, which aborts: no jump is returned,
of the fixed-size type or any other. -/
theorem patchable_jump_types_counterexample :
    isUnsignedCondition .LessThan = false
    ∧ load8OnCondition thumb2Encodable isUnsignedCondition .LessThan ⟨.r0, 0⟩
        addressTempRegister { init with m_makeJumpPatchable := true }
      = load8SignedExtendTo32Address ⟨.r0, 0⟩ addressTempRegister
          { init with m_makeJumpPatchable := true }
    ∧ patchableBranch8 thumb2Encodable isUnsignedCondition .LessThan ⟨.r0, 0⟩ ⟨0⟩ init = none
    ∧ branch8Address thumb2Encodable isUnsignedCondition .LessThan ⟨.r0, 0⟩ ⟨0⟩ init = none :=
  ⟨rfl, rfl, rfl, rfl⟩

/-- C21: `invert` is an involution on the relational conditions and yields the
logical negation: each of the ten conditions is sent to its named partner
(Equal and NotEqual, Above and BelowOrEqual, AboveOrEqual and Below, GreaterThan
and LessThanOrEqual, GreaterThanOrEqual and LessThan), inverting twice gives the
condition back, and on every state of the N, Z, C and V flags the inverted
condition's code passes exactly when the condition's code does not. -/
theorem invert_involution_negation (cond : RelationalCondition) (f : Flags) :
    (invert cond).bind invert = some cond
    ∧ (invert cond).isSome = true
    ∧ (invert .Equal = some .NotEqual ∧ invert .NotEqual = some .Equal
      ∧ invert .Above = some .BelowOrEqual ∧ invert .BelowOrEqual = some .Above
      ∧ invert .AboveOrEqual = some .Below ∧ invert .Below = some .AboveOrEqual
      ∧ invert .GreaterThan = some .LessThanOrEqual
      ∧ invert .LessThanOrEqual = some .GreaterThan
      ∧ invert .GreaterThanOrEqual = some .LessThan
      ∧ invert .LessThan = some .GreaterThanOrEqual)
    ∧ (invert cond).map (fun c => c.armV7Condition.holds f)
        = some (!cond.armV7Condition.holds f) := by
  refine ⟨?_, ?_, by decide, ?_⟩
  · cases cond <;> decide
  · cases cond <;> decide
  · obtain ⟨n, z, c, v⟩ := f
    cases cond <;> cases n <;> cases z <;> cases c <;> cases v <;> decide

/-- C22: `supportsFloatingPointRounding()` is false, and `ceilDouble`,
`floorDouble` and `roundTowardZeroDouble` abort on every pair of registers and
every assembler state: no state comes back, so nothing is emitted. -/
theorem rounding_unsupported (src dst : FPRegisterID) (m : MacroAssemblerARMv7) :
    supportsFloatingPointRounding = false
    ∧ ceilDouble src dst m = none
    ∧ floorDouble src dst m = none
    ∧ roundTowardZeroDouble src dst m = none :=
  ⟨rfl, rfl, rfl, rfl⟩

/-- C23: the two capability predicates are false, and the address-form patch
entry points and the signed narrow loads from an `Address` abort on every
input: no location, no completion and no assembler state comes back. -/
theorem patch_address_forms_unreachable (label instructionStart : CodeLocation)
    (address : Address) (initialPtr : Nat) (initialValue : Int) (dest : RegisterID)
    (m : MacroAssemblerARMv7) :
    canJumpReplacePatchableBranchPtrWithPatch = false
    ∧ canJumpReplacePatchableBranch32WithPatch = false
    ∧ startOfPatchableBranchPtrWithPatchOnAddress label = none
    ∧ startOfPatchableBranch32WithPatchOnAddress label = none
    ∧ revertJumpReplacementToPatchableBranchPtrWithPatch instructionStart address initialPtr
        = none
    ∧ revertJumpReplacementToPatchableBranch32WithPatch instructionStart address initialValue
        = none
    ∧ load8SignedExtendTo32Address address dest m = none
    ∧ load16SignedExtendTo32Address address dest m = none :=
  ⟨rfl, rfl, rfl, rfl, rfl, rfl, rfl, rfl⟩

theorem jump_patchable (m : MacroAssemblerARMv7) :
    (jump m).2.m_makeJumpPatchable = m.m_makeJumpPatchable := rfl

/-- C25: `shouldBlindForSpecificArch(v)` applies its three tests to
`makeEncodedImm(v)`.  On any immediate the tests give true when it is invalid,
false when it is an encoded immediate, and otherwise true exactly when it is not
a 12-bit unsigned value (false for the plain value 5, true for the plain value
`0x1234`).  `makeEncodedImm` returns an encoded or an invalid immediate, so the
function is true exactly when the encoder rejects `v`; when the encoder accepts
every value below 256, as the Thumb-2 encoder does, it is false for every `v`
below 256. -/
theorem shouldBlind_cases (encodable : Nat → Bool) (v : Nat) (immediate : ARMThumbImmediate)
    (henc : ∀ w, w < 256 → encodable w = true) :
    shouldBlindForSpecificArch encodable v
        = shouldBlindForImmediate (ARMThumbImmediate.makeEncodedImm encodable v)
    ∧ shouldBlindForImmediate immediate
        = (if immediate.isValid = false then true
           else if immediate.isEncodedImm = true then false
           else !immediate.isUInt12)
    ∧ shouldBlindForImmediate immediate
        = (match immediate.type with
           | .TypeInvalid => true
           | .TypeEncoded => false
           | .TypeUInt16 => decide (4096 ≤ immediate.value))
    ∧ shouldBlindForImmediate ⟨.TypeUInt16, 5⟩ = false
    ∧ shouldBlindForImmediate ⟨.TypeUInt16, 0x1234⟩ = true
    ∧ shouldBlindForSpecificArch encodable v = !encodable v
    ∧ (∀ w, w < 256 → shouldBlindForSpecificArch encodable w = false) := by
  refine ⟨rfl, ?_, ?_, by decide, by decide, ?_, ?_⟩
  · unfold shouldBlindForImmediate
    cases immediate.isValid <;> simp
  · obtain ⟨t, x⟩ := immediate
    cases t
    · simp [shouldBlindForImmediate, ARMThumbImmediate.isValid]
    · simp [shouldBlindForImmediate, ARMThumbImmediate.isValid, ARMThumbImmediate.isEncodedImm]
    · by_cases h : x < 4096
      · have h2 : ¬ 4096 ≤ x := by omega
        simp [shouldBlindForImmediate, ARMThumbImmediate.isValid,
          ARMThumbImmediate.isEncodedImm, ARMThumbImmediate.isUInt12, h, h2]
      · have h2 : 4096 ≤ x := by omega
        simp [shouldBlindForImmediate, ARMThumbImmediate.isValid,
          ARMThumbImmediate.isEncodedImm, ARMThumbImmediate.isUInt12, h, h2]
  · by_cases he : encodable v = true
    · simp [shouldBlindForSpecificArch, shouldBlindForImmediate,
        ARMThumbImmediate.makeEncodedImm, he, ARMThumbImmediate.isValid,
        ARMThumbImmediate.isEncodedImm]
    · simp [shouldBlindForSpecificArch, shouldBlindForImmediate,
        ARMThumbImmediate.makeEncodedImm, he, ARMThumbImmediate.isValid,
        ARMThumbImmediate.invalid]
  · intro w hw
    simp [shouldBlindForSpecificArch, shouldBlindForImmediate,
      ARMThumbImmediate.makeEncodedImm, henc w hw, ARMThumbImmediate.isValid,
      ARMThumbImmediate.isEncodedImm]

theorem thumb2Encodable_byte (w : Nat) (h : w < 256) : thumb2Encodable w = true := by
  simp [thumb2Encodable, h]

/-- Witness for C25: the Thumb-2 encoder at `v = 0x12345`, which it rejects, and
the plain 16-bit immediate `0x1234`, which reaches the third test. -/
theorem shouldBlind_cases_witness :
    (∀ w, w < 256 → thumb2Encodable w = true)
    ∧ shouldBlindForSpecificArch thumb2Encodable 0x12345 = true
    ∧ shouldBlindForSpecificArch thumb2Encodable 5 = false
    ∧ shouldBlindForImmediate ⟨.TypeUInt16, 0x1234⟩ = true :=
  ⟨thumb2Encodable_byte,
   (shouldBlind_cases thumb2Encodable 0x12345 ⟨.TypeUInt16, 0x1234⟩
      thumb2Encodable_byte).2.2.2.2.2.1.trans (by decide),
   (shouldBlind_cases thumb2Encodable 0x12345 ⟨.TypeUInt16, 0x1234⟩
      thumb2Encodable_byte).2.2.2.2.2.2 5 (by decide),
   (shouldBlind_cases thumb2Encodable 0x12345 ⟨.TypeUInt16, 0x1234⟩
      thumb2Encodable_byte).2.2.1.trans (by decide)⟩

/-- C27 evaluated at a failing input: `branch32(NotEqual, sp, Address(r0, 0))` loads
the word into `addressTempRegister`, then `branch32` on registers moves `sp`
into the same register and compares it with itself.  With `sp = 7` and the word
at `[r0]` equal to 0 the operands differ, yet the returned jump is not taken
(and the `Equal` jump is taken).  The register form does the same when one
operand is `sp` and the other `addressTempRegister`, in either order. -/
theorem branch32_sp_address_self_compare :
    (branch32RegAddress thumb2Encodable .NotEqual ARMRegisters.sp ⟨.r0, 0⟩ init).2.buffer
      = [.ldr .r6 .r0 ⟨.TypeUInt16, 0⟩, .movReg .r6 .r13, .cmp .r6 .r6,
          .it .ConditionNE [true, true], .movT3 .r12 ⟨.TypeUInt16, 0⟩,
          .movt .r12 ⟨.TypeUInt16, 0⟩, .bx .r12]
    ∧ (CPU.sample.setReg .r0 64).regs ARMRegisters.sp = 7
    ∧ (CPU.sample.setReg .r0 64).read32 64 = 0
    ∧ ((branch32RegAddress thumb2Encodable .NotEqual ARMRegisters.sp ⟨.r0, 0⟩
          init).2.m_assembler.execute (CPU.sample.setReg .r0 64)).halted
        (branch32RegAddress thumb2Encodable .NotEqual ARMRegisters.sp ⟨.r0, 0⟩
          init).2.m_assembler = true
    ∧ ¬ (branch32RegAddress thumb2Encodable .NotEqual ARMRegisters.sp ⟨.r0, 0⟩ init).1.taken
        ((branch32RegAddress thumb2Encodable .NotEqual ARMRegisters.sp ⟨.r0, 0⟩
          init).2.m_assembler.execute (CPU.sample.setReg .r0 64))
    ∧ (branch32RegAddress thumb2Encodable .Equal ARMRegisters.sp ⟨.r0, 0⟩ init).1.taken
        ((branch32RegAddress thumb2Encodable .Equal ARMRegisters.sp ⟨.r0, 0⟩
          init).2.m_assembler.execute (CPU.sample.setReg .r0 64))
    ∧ ¬ (branch32 .NotEqual ARMRegisters.sp addressTempRegister init).1.taken
        ((branch32 .NotEqual ARMRegisters.sp addressTempRegister init).2.m_assembler.execute
          (CPU.sample.setReg addressTempRegister 0))
    ∧ ¬ (branch32 .NotEqual addressTempRegister ARMRegisters.sp init).1.taken
        ((branch32 .NotEqual addressTempRegister ARMRegisters.sp init).2.m_assembler.execute
          (CPU.sample.setReg addressTempRegister 0)) := by
  decide

/-- C28 evaluated at a failing input: `0x12345` is not an encoded immediate, so
`or32(TrustedImm32(0x12345), Address(r0, 0))` reaches the assertion of
`or32(imm, src, dest)` with `src = dataTempRegister`, which fails; a build without
assertions moves the immediate over the loaded word and stores `0x12345` where
the old word `0x80000000` was, not `0x80012345`. -/
theorem or32_imm_address_clobbers_loaded_word :
    (ARMThumbImmediate.makeEncodedImm thumb2Encodable (toUInt32 0x12345)).isValid = false
    ∧ or32ImmAssertion thumb2Encodable ⟨0x12345⟩ dataTempRegister = false
    ∧ (or32ImmAddress thumb2Encodable ⟨0x12345⟩ ⟨.r0, 0⟩ init).buffer
      = [.ldr .r12 .r0 ⟨.TypeUInt16, 0⟩, .mov .r12 ⟨.TypeUInt16, 0x2345⟩,
          .movt .r12 ⟨.TypeUInt16, 1⟩, .orrReg .r12 .r12 .r12,
          .str .r12 .r0 ⟨.TypeUInt16, 0⟩]
    ∧ ((CPU.sample.setReg .r0 64).write32 64 0x80000000).read32 64 = 0x80000000
    ∧ ((or32ImmAddress thumb2Encodable ⟨0x12345⟩ ⟨.r0, 0⟩ init).m_assembler.execute
          ((CPU.sample.setReg .r0 64).write32 64 0x80000000)).cpu.read32 64 = 0x12345
    ∧ 0x80000000 ||| 0x12345 = 0x80012345 := by
  decide

theorem load32_buffer_app (encodable : Nat → Bool) (address : Address) (dest : RegisterID)
    (m : MacroAssemblerARMv7) :
    (load32 encodable address dest m).buffer
      = m.buffer ++ (load32 encodable address dest init).buffer := by
  unfold load32 setupArmAddress
  by_cases h : address.offset ≥ -0xff ∧ address.offset ≤ 0xfff
  · simp only [if_pos h, load32Arm]
    split_ifs <;> simp [emit_buffer, init_buffer]
  · simp only [if_neg h, load32Arm, emit_buffer]
    rw [move_buffer]
    simp [init_buffer]

theorem store32_buffer_app (encodable : Nat → Bool) (src : RegisterID) (address : Address)
    (m : MacroAssemblerARMv7) :
    (store32 encodable src address m).buffer
      = m.buffer ++ (store32 encodable src address init).buffer := by
  unfold store32 setupArmAddress
  by_cases h : address.offset ≥ -0xff ∧ address.offset ≤ 0xfff
  · simp only [if_pos h, store32Arm]
    split_ifs <;> simp [emit_buffer, init_buffer]
  · simp only [if_neg h, store32Arm, emit_buffer]
    rw [move_buffer]
    simp [init_buffer]

theorem read32_write32 (c : CPU) (a v : Nat) :
    (c.write32 a v).read32 a = v % 4294967296 := by
  have h1 : a ≠ (a + 3) % 4294967296 := by omega
  have h2 : a ≠ (a + 2) % 4294967296 := by omega
  have h3 : a ≠ (a + 1) % 4294967296 := by omega
  have h4 : (a + 1) % 4294967296 ≠ (a + 3) % 4294967296 := by omega
  have h5 : (a + 1) % 4294967296 ≠ (a + 2) % 4294967296 := by omega
  have h6 : (a + 2) % 4294967296 ≠ (a + 3) % 4294967296 := by omega
  simp only [CPU.read32, CPU.write32, if_neg h1, if_neg h2, if_neg h3, if_neg h4, if_neg h5,
    if_neg h6, if_true]
  omega

theorem read32_congr (c d : CPU) (a : Nat) (h : c.mem = d.mem) : c.read32 a = d.read32 a := by
  unfold CPU.read32; rw [h]

/-- The state the sequence of `load32(Address, dest)` leaves: the load from the
effective address, after the move of the offset into `addressTempRegister` when
the offset is outside the window. -/
theorem execSeq_load32_eq (encodable : Nat → Bool) (address : Address) (dest : RegisterID)
    (c : CPU) (hb : address.base ≠ addressTempRegister) :
    execSeq (load32 encodable address dest init).buffer c
        = c.load32 dest (toUInt32 ((c.regs address.base : Int) + address.offset))
    ∨ execSeq (load32 encodable address dest init).buffer c
        = (c.setReg addressTempRegister (toUInt32 address.offset)).load32 dest
            (toUInt32 ((c.regs address.base : Int) + address.offset)) := by
  by_cases h : -255 ≤ address.offset ∧ address.offset ≤ 4095
  · left
    rw [load32_buffer_window _ _ _ h]
    by_cases h0 : address.offset ≥ 0
    · have e : (c.regs address.base + address.offset.toNat) % 4294967296
          = toUInt32 ((c.regs address.base : Int) + address.offset) := by
        unfold toUInt32; omega
      have hv : (0 ≤ address.offset ∧ address.offset < 4096) := by omega
      simp only [if_pos h0, execSeq, List.foldl_cons, List.foldl_nil, Instr.exec,
        ARMThumbImmediate.makeUInt12, if_pos hv, e]
    · simp only [if_neg h0, execSeq, List.foldl_cons, List.foldl_nil, Instr.exec, if_true,
        Bool.false_eq_true, if_false]
  · right
    rw [load32_buffer_far _ _ _ h, execSeq_append, execSeq_move]
    have e : ((c.setReg addressTempRegister (toUInt32 address.offset)).regs address.base
          + (c.setReg addressTempRegister (toUInt32 address.offset)).regs addressTempRegister <<< 0)
          % 4294967296 = toUInt32 ((c.regs address.base : Int) + address.offset) := by
      rw [setReg_regs_other _ _ _ _ hb, setReg_regs_same, Nat.shiftLeft_zero,
        ← toUInt32_add_nat]
      omega
    simp only [execSeq, List.foldl_cons, List.foldl_nil, Instr.exec, e]

/-- The state the sequence of `store32(src, Address)` leaves. -/
theorem execSeq_store32_eq (encodable : Nat → Bool) (address : Address) (src : RegisterID)
    (c : CPU) (hb : address.base ≠ addressTempRegister) :
    execSeq (store32 encodable src address init).buffer c
        = c.store32 src (toUInt32 ((c.regs address.base : Int) + address.offset))
    ∨ execSeq (store32 encodable src address init).buffer c
        = (c.setReg addressTempRegister (toUInt32 address.offset)).store32 src
            (toUInt32 ((c.regs address.base : Int) + address.offset)) := by
  by_cases h : -255 ≤ address.offset ∧ address.offset ≤ 4095
  · left
    rw [store32_buffer_window _ _ _ h]
    by_cases h0 : address.offset ≥ 0
    · have e : (c.regs address.base + address.offset.toNat) % 4294967296
          = toUInt32 ((c.regs address.base : Int) + address.offset) := by
        unfold toUInt32; omega
      have hv : (0 ≤ address.offset ∧ address.offset < 4096) := by omega
      simp only [if_pos h0, execSeq, List.foldl_cons, List.foldl_nil, Instr.exec,
        ARMThumbImmediate.makeUInt12, if_pos hv, e]
    · simp only [if_neg h0, execSeq, List.foldl_cons, List.foldl_nil, Instr.exec, if_true,
        Bool.false_eq_true, if_false]
  · right
    rw [store32_buffer_far _ _ _ h, execSeq_append, execSeq_move]
    have e : ((c.setReg addressTempRegister (toUInt32 address.offset)).regs address.base
          + (c.setReg addressTempRegister (toUInt32 address.offset)).regs addressTempRegister <<< 0)
          % 4294967296 = toUInt32 ((c.regs address.base : Int) + address.offset) := by
      rw [setReg_regs_other _ _ _ _ hb, setReg_regs_same, Nat.shiftLeft_zero,
        ← toUInt32_add_nat]
      omega
    simp only [execSeq, List.foldl_cons, List.foldl_nil, Instr.exec, e]

/-- What the load leaves: the word in `dest`, the memory as it was, and every
register other than `dest` and `addressTempRegister` as it was. -/
theorem execSeq_load32_facts (encodable : Nat → Bool) (address : Address) (dest : RegisterID)
    (c : CPU) (hb : address.base ≠ addressTempRegister) :
    (execSeq (load32 encodable address dest init).buffer c).regs dest
        = c.read32 (toUInt32 ((c.regs address.base : Int) + address.offset))
    ∧ (execSeq (load32 encodable address dest init).buffer c).mem = c.mem
    ∧ ∀ x, x ≠ dest → x ≠ addressTempRegister →
        (execSeq (load32 encodable address dest init).buffer c).regs x = c.regs x := by
  have hr := read32_lt c (toUInt32 ((c.regs address.base : Int) + address.offset))
  rcases execSeq_load32_eq encodable address dest c hb with h | h
  · rw [h]
    refine ⟨?_, rfl, ?_⟩
    · simp only [CPU.load32, setReg_regs_same]
      exact Nat.mod_eq_of_lt hr
    · intro x hx _
      simp only [CPU.load32]
      rw [setReg_regs_other _ _ _ _ hx]; rfl
  · rw [h]
    refine ⟨?_, rfl, ?_⟩
    · simp only [CPU.load32, setReg_regs_same]
      exact Nat.mod_eq_of_lt hr
    · intro x hx hx6
      simp only [CPU.load32]
      rw [setReg_regs_other _ _ _ _ hx]
      exact setReg_regs_other _ _ _ _ hx6

/-- What the store leaves at the effective address: the value of `src`, for `src`
other than `addressTempRegister`. -/
theorem execSeq_store32_word (encodable : Nat → Bool) (address : Address) (src : RegisterID)
    (c : CPU) (hb : address.base ≠ addressTempRegister) (hs : src ≠ addressTempRegister) :
    (execSeq (store32 encodable src address init).buffer c).read32
        (toUInt32 ((c.regs address.base : Int) + address.offset))
      = c.regs src % 4294967296 := by
  rcases execSeq_store32_eq encodable address src c hb with h | h
  · rw [h]
    simp only [CPU.store32]
    rw [read32_write32]
    simp [CPU.logAccess]
  · rw [h]
    simp only [CPU.store32]
    rw [read32_write32]
    simp only [CPU.logAccess, Nat.mod_mod]
    rw [setReg_regs_other _ _ _ _ hs]

/-- A read-modify-write of a memory word: the load of the word into
`dataTempRegister`, a straight-line middle part that turns the register's value
`x` into `g x` and leaves the base register alone, and the store back.  The run
ends and leaves `g` of the old word at the effective address. -/
theorem execute_load_modify_store (encodable : Nat → Bool) (address : Address)
    (mid : List Instr) (g : Nat → Nat) (m : MacroAssemblerARMv7) (c : CPU)
    (hbuf : m.buffer = (load32 encodable address dataTempRegister init).buffer
        ++ (mid ++ (store32 encodable dataTempRegister address init).buffer))
    (hb : address.base ≠ addressTempRegister) (hd : address.base ≠ dataTempRegister)
    (hstr : ∀ i ∈ mid, i.isStraight = true)
    (hmid : ∀ c1 : CPU, (execSeq mid c1).regs dataTempRegister = g (c1.regs dataTempRegister)
        ∧ (execSeq mid c1).regs address.base = c1.regs address.base) :
    (m.m_assembler.execute c).halted m.m_assembler = true
    ∧ (m.m_assembler.execute c).cpu.read32
          (toUInt32 ((c.regs address.base : Int) + address.offset))
        = g (c.read32 (toUInt32 ((c.regs address.base : Int) + address.offset)))
            % 4294967296 := by
  have hs : ∀ i ∈ m.m_assembler.buffer, i.isStraight = true := by
    show ∀ i ∈ m.buffer, i.isStraight = true
    rw [hbuf]
    intro i hi
    rcases List.mem_append.mp hi with h | h
    · exact load32_straight _ _ _ i h
    · rcases List.mem_append.mp h with h | h
      · exact hstr i h
      · exact store32_straight _ _ _ i h
  rw [execute_straight _ c hs]
  refine ⟨by simp [Machine.halted], ?_⟩
  show (execSeq m.buffer c).read32 _ = _
  rw [hbuf, execSeq_append, execSeq_append]
  obtain ⟨l1, _, l3⟩ := execSeq_load32_facts encodable address dataTempRegister c hb
  obtain ⟨m1, m2⟩ := hmid (execSeq (load32 encodable address dataTempRegister init).buffer c)
  have hbase : (execSeq mid
      (execSeq (load32 encodable address dataTempRegister init).buffer c)).regs address.base
      = c.regs address.base := by
    rw [m2, l3 address.base hd hb]
  have hw := execSeq_store32_word encodable address dataTempRegister
    (execSeq mid (execSeq (load32 encodable address dataTempRegister init).buffer c)) hb
    (by decide)
  rw [hbase] at hw
  rw [hw, m1, l1]

theorem add32Impl_buffer (encodable : Nat → Bool) (imm : TrustedImm32) (address : Address)
    (updateFlags : Bool) :
    (add32Impl encodable imm address updateFlags init).buffer
      = (load32 encodable address dataTempRegister init).buffer
        ++ ((if encodable (toUInt32 imm.m_value) = true then
              [if updateFlags = true then
                  Instr.add_S dataTempRegister dataTempRegister
                    ⟨.TypeEncoded, toUInt32 imm.m_value⟩
                else
                  Instr.add dataTempRegister dataTempRegister
                    ⟨.TypeEncoded, toUInt32 imm.m_value⟩]
            else
              (move encodable imm addressTempRegister init).buffer
                ++ [if updateFlags = true then
                      Instr.add_SReg dataTempRegister dataTempRegister addressTempRegister
                    else Instr.addReg dataTempRegister dataTempRegister addressTempRegister])
          ++ (store32 encodable dataTempRegister address init).buffer) := by
  unfold add32Impl
  simp only []
  rw [store32_buffer_app]
  by_cases h : encodable (toUInt32 imm.m_value) = true
  · simp only [ARMThumbImmediate.makeEncodedImm, h, if_true, ARMThumbImmediate.isValid]
    cases updateFlags <;> simp [emit_buffer]
  · simp only [ARMThumbImmediate.makeEncodedImm, h, if_false, ARMThumbImmediate.isValid,
      ARMThumbImmediate.invalid]
    cases updateFlags <;>
      simp [emit_buffer, move_buffer encodable imm addressTempRegister
        (load32 encodable address dataTempRegister init)]

theorem sub32ImmAddress_buffer (encodable : Nat → Bool) (imm : TrustedImm32)
    (address : Address) :
    (sub32ImmAddress encodable imm address init).buffer
      = (load32 encodable address dataTempRegister init).buffer
        ++ ((if (ARMThumbImmediate.makeUInt12OrEncodedImm encodable imm.m_value).isValid
                = true then
              [Instr.sub dataTempRegister dataTempRegister
                (ARMThumbImmediate.makeUInt12OrEncodedImm encodable imm.m_value)]
            else
              (move encodable imm addressTempRegister init).buffer
                ++ [Instr.subReg dataTempRegister dataTempRegister addressTempRegister])
          ++ (store32 encodable dataTempRegister address init).buffer) := by
  unfold sub32ImmAddress
  simp only []
  rw [store32_buffer_app]
  by_cases h : (ARMThumbImmediate.makeUInt12OrEncodedImm encodable imm.m_value).isValid = true
  · simp [h, emit_buffer]
  · simp [h, emit_buffer, move_buffer encodable imm addressTempRegister
        (load32 encodable address dataTempRegister init)]

theorem toUInt32_sub_nat (x : Nat) (o : Int) :
    (x % 4294967296 + (4294967296 - toUInt32 o % 4294967296)) % 4294967296
      = toUInt32 ((x : Int) - o) := by
  unfold toUInt32; omega

/-- C29: for every immediate and every `Address` whose base is neither scratch
register, the runs of `add32(TrustedImm32(imm), Address)` and
`sub32(TrustedImm32(imm), Address)` end and leave at `(base + offset) mod 2^32`
the old word plus, respectively minus, `imm` modulo `2^32`.  When the offset is
outside the window and `imm` is not encodable, `add32` emits the move of the
offset into `addressTempRegister`, the indexed load, the move of `imm` into
`addressTempRegister`, the register add, the move of the offset again and the
indexed store. -/
theorem add_sub_imm_address_word (encodable : Nat → Bool) (imm : TrustedImm32)
    (address : Address) (c : CPU)
    (hb : address.base ≠ addressTempRegister) (hd : address.base ≠ dataTempRegister) :
    ((add32ImmAddress encodable imm address init).m_assembler.execute c).halted
        (add32ImmAddress encodable imm address init).m_assembler = true
    ∧ ((add32ImmAddress encodable imm address init).m_assembler.execute c).cpu.read32
          (toUInt32 ((c.regs address.base : Int) + address.offset))
        = toUInt32 ((c.read32 (toUInt32 ((c.regs address.base : Int) + address.offset)) : Int)
            + imm.m_value)
    ∧ ((sub32ImmAddress encodable imm address init).m_assembler.execute c).halted
        (sub32ImmAddress encodable imm address init).m_assembler = true
    ∧ ((sub32ImmAddress encodable imm address init).m_assembler.execute c).cpu.read32
          (toUInt32 ((c.regs address.base : Int) + address.offset))
        = toUInt32 ((c.read32 (toUInt32 ((c.regs address.base : Int) + address.offset)) : Int)
            - imm.m_value)
    ∧ (¬ (-255 ≤ address.offset ∧ address.offset ≤ 4095) →
        encodable (toUInt32 imm.m_value) = false →
        (add32ImmAddress encodable imm address init).buffer
          = (move encodable ⟨address.offset⟩ addressTempRegister init).buffer
            ++ [.ldrIndex dataTempRegister address.base addressTempRegister 0]
            ++ (move encodable imm addressTempRegister init).buffer
            ++ [.addReg dataTempRegister dataTempRegister addressTempRegister]
            ++ (move encodable ⟨address.offset⟩ addressTempRegister init).buffer
            ++ [.strIndex dataTempRegister address.base addressTempRegister 0]) := by
  have hlt := toUInt32_lt imm.m_value
  have hbufA := add32Impl_buffer encodable imm address false
  simp only [Bool.false_eq_true, if_false] at hbufA
  have hbufS := sub32ImmAddress_buffer encodable imm address
  have hne : dataTempRegister ≠ addressTempRegister := by decide
  have hadd : ((add32ImmAddress encodable imm address init).m_assembler.execute c).halted
        (add32ImmAddress encodable imm address init).m_assembler = true
      ∧ ((add32ImmAddress encodable imm address init).m_assembler.execute c).cpu.read32
          (toUInt32 ((c.regs address.base : Int) + address.offset))
        = (c.read32 (toUInt32 ((c.regs address.base : Int) + address.offset))
            + toUInt32 imm.m_value) % 4294967296 % 4294967296 := by
    by_cases h : encodable (toUInt32 imm.m_value) = true
    · rw [if_pos h] at hbufA
      refine execute_load_modify_store encodable address _
        (fun x => (x + toUInt32 imm.m_value) % 4294967296) _ c hbufA hb hd ?_ ?_
      · intro i hi; simp at hi; subst hi; rfl
      · intro c1
        simp only [execSeq, List.foldl_cons, List.foldl_nil, Instr.exec]
        exact ⟨setReg_regs_same _ _ _, setReg_regs_other _ _ _ _ hd⟩
    · rw [if_neg h] at hbufA
      refine execute_load_modify_store encodable address _
        (fun x => (x + toUInt32 imm.m_value) % 4294967296) _ c hbufA hb hd ?_ ?_
      · intro i hi
        rcases List.mem_append.mp hi with h1 | h1
        · exact move_straight _ _ _ i h1
        · simp at h1; subst h1; rfl
      · intro c1
        rw [execSeq_append, execSeq_move]
        simp only [execSeq, List.foldl_cons, List.foldl_nil, Instr.exec]
        refine ⟨?_, ?_⟩
        · rw [setReg_regs_same, setReg_regs_other _ _ _ _ hne, setReg_regs_same,
            Nat.mod_eq_of_lt hlt]
        · rw [setReg_regs_other _ _ _ _ hd, setReg_regs_other _ _ _ _ hb]
  have hsub : ((sub32ImmAddress encodable imm address init).m_assembler.execute c).halted
        (sub32ImmAddress encodable imm address init).m_assembler = true
      ∧ ((sub32ImmAddress encodable imm address init).m_assembler.execute c).cpu.read32
          (toUInt32 ((c.regs address.base : Int) + address.offset))
        = (c.read32 (toUInt32 ((c.regs address.base : Int) + address.offset)) % 4294967296
            + (4294967296 - toUInt32 imm.m_value % 4294967296)) % 4294967296
            % 4294967296 := by
    by_cases h : (ARMThumbImmediate.makeUInt12OrEncodedImm encodable imm.m_value).isValid
        = true
    · rw [if_pos h] at hbufS
      refine execute_load_modify_store encodable address _
        (fun x => (x % 4294967296 + (4294967296 - toUInt32 imm.m_value % 4294967296))
          % 4294967296) _ c hbufS hb hd ?_ ?_
      · intro i hi; simp at hi; subst hi; rfl
      · intro c1
        simp only [execSeq, List.foldl_cons, List.foldl_nil, Instr.exec,
          makeUInt12OrEncodedImm_value _ _ h]
        exact ⟨setReg_regs_same _ _ _, setReg_regs_other _ _ _ _ hd⟩
    · rw [if_neg h] at hbufS
      refine execute_load_modify_store encodable address _
        (fun x => (x % 4294967296 + (4294967296 - toUInt32 imm.m_value % 4294967296))
          % 4294967296) _ c hbufS hb hd ?_ ?_
      · intro i hi
        rcases List.mem_append.mp hi with h1 | h1
        · exact move_straight _ _ _ i h1
        · simp at h1; subst h1; rfl
      · intro c1
        rw [execSeq_append, execSeq_move]
        simp only [execSeq, List.foldl_cons, List.foldl_nil, Instr.exec]
        refine ⟨?_, ?_⟩
        · rw [setReg_regs_same, setReg_regs_other _ _ _ _ hne, setReg_regs_same,
            Nat.mod_mod]
        · rw [setReg_regs_other _ _ _ _ hd, setReg_regs_other _ _ _ _ hb]
  refine ⟨hadd.1, ?_, hsub.1, ?_, ?_⟩
  · rw [hadd.2, Nat.mod_mod, toUInt32_add_nat]
  · rw [hsub.2, Nat.mod_mod, toUInt32_sub_nat]
  · intro hw he
    show (add32Impl encodable imm address false init).buffer = _
    rw [hbufA, load32_buffer_far _ _ _ hw, store32_buffer_far _ _ _ hw]
    simp [he]

/-- Witness for C29: base `r1`, offset `0x12345` (outside the window) and the
immediate `0x12345` (not encodable) under the Thumb-2 legality predicate, every
register holding 7 and the memory zero. -/
theorem add_sub_imm_address_word_witness :
    (⟨.r1, 0x12345⟩ : Address).base ≠ addressTempRegister
    ∧ (⟨.r1, 0x12345⟩ : Address).base ≠ dataTempRegister
    ∧ ((add32ImmAddress thumb2Encodable ⟨0x12345⟩ ⟨.r1, 0x12345⟩ init).m_assembler.execute
          CPU.sample).cpu.read32 (toUInt32 ((CPU.sample.regs .r1 : Int) + 0x12345))
        = 0x12345
    ∧ ((sub32ImmAddress thumb2Encodable ⟨0x12345⟩ ⟨.r1, 0x12345⟩ init).m_assembler.execute
          CPU.sample).cpu.read32 (toUInt32 ((CPU.sample.regs .r1 : Int) + 0x12345))
        = 4294967296 - 0x12345 :=
  ⟨by decide, by decide,
   (add_sub_imm_address_word thumb2Encodable ⟨0x12345⟩ ⟨.r1, 0x12345⟩ CPU.sample
      (by decide) (by decide)).2.1.trans (by decide),
   (add_sub_imm_address_word thumb2Encodable ⟨0x12345⟩ ⟨.r1, 0x12345⟩ CPU.sample
      (by decide) (by decide)).2.2.2.1.trans (by decide)⟩

theorem store32ImmAddress_buffer_window (encodable : Nat → Bool) (imm : TrustedImm32)
    (address : Address) (h : -255 ≤ address.offset ∧ address.offset ≤ 4095) :
    (store32ImmAddress encodable imm address init).buffer
      = (move encodable imm addressTempRegister init).buffer
        ++ [if address.offset ≥ 0 then
              .str addressTempRegister address.base
                (ARMThumbImmediate.makeUInt12 address.offset)
            else .strOffset addressTempRegister address.base address.offset true false] := by
  have h' : address.offset ≥ -0xff ∧ address.offset ≤ 0xfff := h
  unfold store32ImmAddress setupArmAddress
  rw [if_pos h']
  simp only [ArmAddress.type, store32Arm]
  split_ifs <;> first | contradiction | simp [emit_buffer]

theorem store32ImmAddress_buffer_far (encodable : Nat → Bool) (imm : TrustedImm32)
    (address : Address) (h : ¬ (-255 ≤ address.offset ∧ address.offset ≤ 4095)) :
    (store32ImmAddress encodable imm address init).buffer
      = (move encodable ⟨address.offset⟩ addressTempRegister init).buffer
        ++ ((move encodable imm dataTempRegister init).buffer
          ++ [.strIndex dataTempRegister address.base addressTempRegister 0]) := by
  have h' : ¬ (address.offset ≥ -0xff ∧ address.offset ≤ 0xfff) := h
  unfold store32ImmAddress setupArmAddress
  rw [if_neg h']
  simp only [ArmAddress.type, store32Arm, emit_buffer, if_true]
  rw [move_buffer encodable imm dataTempRegister
    (move encodable ⟨address.offset⟩ addressTempRegister init), List.append_assoc]
  rfl

/-- C30: for every immediate and every `Address` whose base is neither scratch
register, `store32(TrustedImm32(imm), Address)` holds the immediate in
`addressTempRegister` when the offset is within the window (the lowered address
uses no scratch register) and in `dataTempRegister` when lowering put the offset
in `addressTempRegister` as the index; the run ends and leaves `imm` in the word
at `(base + offset) mod 2^32`. -/
theorem store32_imm_address_word (encodable : Nat → Bool) (imm : TrustedImm32)
    (address : Address) (c : CPU)
    (hb : address.base ≠ addressTempRegister) (hd : address.base ≠ dataTempRegister) :
    (if -255 ≤ address.offset ∧ address.offset ≤ 4095 then
        (store32ImmAddress encodable imm address init).buffer
          = (move encodable imm addressTempRegister init).buffer
            ++ [if address.offset ≥ 0 then
                  .str addressTempRegister address.base
                    (ARMThumbImmediate.makeUInt12 address.offset)
                else .strOffset addressTempRegister address.base address.offset true false]
      else
        (store32ImmAddress encodable imm address init).buffer
          = (move encodable ⟨address.offset⟩ addressTempRegister init).buffer
            ++ ((move encodable imm dataTempRegister init).buffer
              ++ [.strIndex dataTempRegister address.base addressTempRegister 0]))
    ∧ ((store32ImmAddress encodable imm address init).m_assembler.execute c).halted
        (store32ImmAddress encodable imm address init).m_assembler = true
    ∧ ((store32ImmAddress encodable imm address init).m_assembler.execute c).cpu.read32
          (toUInt32 ((c.regs address.base : Int) + address.offset))
        = toUInt32 imm.m_value := by
  have hlt := toUInt32_lt imm.m_value
  have hne : dataTempRegister ≠ addressTempRegister := by decide
  by_cases h : -255 ≤ address.offset ∧ address.offset ≤ 4095
  · have hbuf := store32ImmAddress_buffer_window encodable imm address h
    rw [if_pos h]
    refine ⟨hbuf, ?_⟩
    have hs : ∀ i ∈ (store32ImmAddress encodable imm address init).m_assembler.buffer,
        i.isStraight = true := by
      show ∀ i ∈ (store32ImmAddress encodable imm address init).buffer, i.isStraight = true
      rw [hbuf]
      intro i hi
      rcases List.mem_append.mp hi with h1 | h1
      · exact move_straight _ _ _ i h1
      · simp at h1; subst h1; split_ifs <;> rfl
    rw [execute_straight _ c hs]
    refine ⟨by simp [Machine.halted], ?_⟩
    show (execSeq (store32ImmAddress encodable imm address init).buffer c).read32 _ = _
    rw [hbuf, execSeq_append, execSeq_move]
    by_cases h0 : address.offset ≥ 0
    · have e : (c.regs address.base + address.offset.toNat) % 4294967296
          = toUInt32 ((c.regs address.base : Int) + address.offset) := by
        unfold toUInt32; omega
      have hv : (0 ≤ address.offset ∧ address.offset < 4096) := by omega
      simp only [if_pos h0, execSeq, List.foldl_cons, List.foldl_nil, Instr.exec,
        ARMThumbImmediate.makeUInt12, if_pos hv, setReg_regs_other _ _ _ _ hb, e,
        CPU.store32]
      rw [read32_write32]
      simp only [CPU.logAccess, setReg_regs_same, Nat.mod_mod]
      exact Nat.mod_eq_of_lt hlt
    · simp only [if_neg h0, execSeq, List.foldl_cons, List.foldl_nil, Instr.exec, if_true,
        Bool.false_eq_true, if_false, setReg_regs_other _ _ _ _ hb, CPU.store32]
      rw [read32_write32]
      simp only [CPU.logAccess, setReg_regs_same, Nat.mod_mod]
      exact Nat.mod_eq_of_lt hlt
  · have hbuf := store32ImmAddress_buffer_far encodable imm address h
    rw [if_neg h]
    refine ⟨hbuf, ?_⟩
    have hs : ∀ i ∈ (store32ImmAddress encodable imm address init).m_assembler.buffer,
        i.isStraight = true := by
      show ∀ i ∈ (store32ImmAddress encodable imm address init).buffer, i.isStraight = true
      rw [hbuf]
      intro i hi
      rcases List.mem_append.mp hi with h1 | h1
      · exact move_straight _ _ _ i h1
      · rcases List.mem_append.mp h1 with h2 | h2
        · exact move_straight _ _ _ i h2
        · simp at h2; subst h2; rfl
    rw [execute_straight _ c hs]
    refine ⟨by simp [Machine.halted], ?_⟩
    show (execSeq (store32ImmAddress encodable imm address init).buffer c).read32 _ = _
    rw [hbuf, execSeq_append, execSeq_append, execSeq_move, execSeq_move]
    have e : (((c.setReg addressTempRegister (toUInt32 address.offset)).setReg dataTempRegister
            (toUInt32 imm.m_value)).regs address.base
          + ((c.setReg addressTempRegister (toUInt32 address.offset)).setReg dataTempRegister
            (toUInt32 imm.m_value)).regs addressTempRegister <<< 0) % 4294967296
        = toUInt32 ((c.regs address.base : Int) + address.offset) := by
      rw [setReg_regs_other _ _ _ _ hd, setReg_regs_other _ _ _ _ hb,
        setReg_regs_other _ _ _ _ (Ne.symm hne), setReg_regs_same, Nat.shiftLeft_zero,
        ← toUInt32_add_nat]
      omega
    simp only [execSeq, List.foldl_cons, List.foldl_nil, Instr.exec, e, CPU.store32]
    rw [read32_write32]
    simp only [CPU.logAccess, setReg_regs_same, Nat.mod_mod]
    exact Nat.mod_eq_of_lt hlt

/-- Witness for C30: base `r1`, offset `0x12345` (outside the window) and the
immediate `0x12345` under the Thumb-2 legality predicate, every register holding 7. -/
theorem store32_imm_address_word_witness :
    (⟨.r1, 0x12345⟩ : Address).base ≠ addressTempRegister
    ∧ (⟨.r1, 0x12345⟩ : Address).base ≠ dataTempRegister
    ∧ ((store32ImmAddress thumb2Encodable ⟨0x12345⟩ ⟨.r1, 0x12345⟩ init).m_assembler.execute
          CPU.sample).cpu.read32 (toUInt32 ((CPU.sample.regs .r1 : Int) + 0x12345))
        = 0x12345 :=
  ⟨by decide, by decide,
   (store32_imm_address_word thumb2Encodable ⟨0x12345⟩ ⟨.r1, 0x12345⟩ CPU.sample
      (by decide) (by decide)).2.2.trans (by decide)⟩

theorem move_no_addsub (encodable : Nat → Bool) (imm : TrustedImm32) (dest r : RegisterID) :
    ∀ i ∈ (move encodable imm dest init).buffer, i.isAddOrSubInto r = false := by
  unfold move
  simp only [buffer, emit, ARMv7Assembler.emit, init]
  split_ifs <;> simp [Instr.isAddOrSubInto]

/-- C31: for every immediate and every `src` other than `sp`, `add32(imm, src, sp)`
is the call with destination `addressTempRegister` followed by the register move
into `sp`; that inner call takes the non-recursive path (one add, one subtract,
or the move of the immediate and a register add, all into
`addressTempRegister`), so the recursion ends after one level; and no add or
subtract in the emitted sequence has `sp` as its destination. -/
theorem add32_sp_via_temp (encodable : Nat → Bool) (imm : TrustedImm32) (src : RegisterID)
    (m : MacroAssemblerARMv7) (hsrc : src ≠ ARMRegisters.sp) :
    add32 encodable imm src ARMRegisters.sp m
      = moveReg addressTempRegister ARMRegisters.sp
          (add32 encodable imm src addressTempRegister m)
    ∧ add32 encodable imm src addressTempRegister m
      = (if (ARMThumbImmediate.makeUInt12OrEncodedImm encodable imm.m_value).isValid then
          m.emit (.add addressTempRegister src
            (ARMThumbImmediate.makeUInt12OrEncodedImm encodable imm.m_value))
        else if (ARMThumbImmediate.makeUInt12OrEncodedImm encodable
            (wrapInt32 (-imm.m_value))).isValid then
          m.emit (.sub addressTempRegister src
            (ARMThumbImmediate.makeUInt12OrEncodedImm encodable (wrapInt32 (-imm.m_value))))
        else
          (move encodable imm dataTempRegister m).emit
            (.addReg addressTempRegister src dataTempRegister))
    ∧ (add32 encodable imm src ARMRegisters.sp m).buffer
      = m.buffer ++ ((add32 encodable imm src addressTempRegister init).buffer
          ++ [.movReg ARMRegisters.sp addressTempRegister])
    ∧ ∀ i ∈ (add32 encodable imm src ARMRegisters.sp init).buffer,
        i.isAddOrSubInto ARMRegisters.sp = false := by
  have h1 : ARMRegisters.sp = ARMRegisters.sp ∧ src ≠ ARMRegisters.sp := ⟨rfl, hsrc⟩
  have h2 : ¬ (addressTempRegister = ARMRegisters.sp ∧ src ≠ addressTempRegister) :=
    fun h => absurd h.1 (by decide)
  have hbuf : ∀ m : MacroAssemblerARMv7, (add32 encodable imm src ARMRegisters.sp m).buffer
      = m.buffer ++ ((add32 encodable imm src addressTempRegister init).buffer
          ++ [.movReg ARMRegisters.sp addressTempRegister]) := by
    intro m
    rw [add32_of_sp _ _ _ _ _ h1, moveReg_buffer, add32_buffer, List.append_assoc]
    rfl
  refine ⟨add32_of_sp _ _ _ _ _ h1, add32_of_not_sp _ _ _ _ _ h2, hbuf m, ?_⟩
  rw [hbuf init, init_buffer, List.nil_append, add32_of_not_sp _ _ _ _ _ h2]
  intro i hi
  rcases List.mem_append.mp hi with h | h
  · split_ifs at h
    · simp [emit_buffer, init_buffer] at h; subst h; rfl
    · simp [emit_buffer, init_buffer] at h; subst h; rfl
    · rw [emit_buffer] at h
      rcases List.mem_append.mp h with h' | h'
      · exact move_no_addsub _ _ _ _ i h'
      · simp at h'; subst h'; rfl
  · simp at h; subst h; rfl

/-- Witness for C31: `src = r0`, the immediate `0x12345` under the Thumb-2 legality
predicate. -/
theorem add32_sp_via_temp_witness :
    RegisterID.r0 ≠ ARMRegisters.sp
    ∧ (add32 thumb2Encodable ⟨0x12345⟩ .r0 ARMRegisters.sp init).buffer
      = [.mov .r12 ⟨.TypeUInt16, 0x2345⟩, .movt .r12 ⟨.TypeUInt16, 1⟩,
          .addReg .r6 .r0 .r12, .movReg .r13 .r6] :=
  ⟨by decide,
   (add32_sp_via_temp thumb2Encodable ⟨0x12345⟩ .r0 init (by decide)).2.2.1.trans
     (by rw [add32_of_not_sp _ _ _ _ _ (fun h => absurd h.1 (by decide))]; decide)⟩

/-- C32 evaluated at a failing input: with the mask `-1` (the default argument)
`test32(sp, mask)` emits `tst sp, sp`, a `tst` with the stack pointer as both
operands; for every other mask no emitted `tst` has the stack pointer as an
operand, the copy going to `addressTempRegister` when the mask is encodable and
to `dataTempRegister`, with the mask in `addressTempRegister`, when it is not. -/
theorem test32_sp_default_mask (encodable : Nat → Bool) (mask : TrustedImm32) :
    (test32 encodable ARMRegisters.sp ⟨-1⟩ init).buffer
      = [.tstReg ARMRegisters.sp ARMRegisters.sp]
    ∧ (Instr.tstReg ARMRegisters.sp ARMRegisters.sp).isTstOf ARMRegisters.sp = true
    ∧ (mask.m_value = -1 ∨
        (test32 encodable ARMRegisters.sp mask init).buffer
          = (if encodable (toUInt32 mask.m_value) = true then
              [.movReg addressTempRegister ARMRegisters.sp,
                .tst addressTempRegister ⟨.TypeEncoded, toUInt32 mask.m_value⟩]
            else
              [.movReg dataTempRegister ARMRegisters.sp]
                ++ (move encodable mask addressTempRegister init).buffer
                ++ [.tstReg dataTempRegister addressTempRegister])
        ∧ ∀ i ∈ (test32 encodable ARMRegisters.sp mask init).buffer,
            i.isTstOf ARMRegisters.sp = false) := by
  refine ⟨rfl, rfl, ?_⟩
  by_cases hm : mask.m_value = -1
  · exact Or.inl hm
  refine Or.inr ?_
  have hbuf : (test32 encodable ARMRegisters.sp mask init).buffer
      = (if encodable (toUInt32 mask.m_value) = true then
          [.movReg addressTempRegister ARMRegisters.sp,
            .tst addressTempRegister ⟨.TypeEncoded, toUInt32 mask.m_value⟩]
        else
          [.movReg dataTempRegister ARMRegisters.sp]
            ++ (move encodable mask addressTempRegister init).buffer
            ++ [.tstReg dataTempRegister addressTempRegister]) := by
    unfold test32
    simp only [hm, if_false]
    by_cases h : encodable (toUInt32 mask.m_value) = true
    · simp [ARMThumbImmediate.makeEncodedImm, h, ARMThumbImmediate.isValid, moveReg,
        emit_buffer, init_buffer]
    · have hd : dataTempRegister ≠ addressTempRegister := by decide
      simp [ARMThumbImmediate.makeEncodedImm, h, ARMThumbImmediate.isValid,
        ARMThumbImmediate.invalid, bestTempRegister, hd, emit_buffer, moveReg, init_buffer,
        move_buffer encodable mask addressTempRegister
          (init.emit (Instr.movReg dataTempRegister ARMRegisters.sp))]
  refine ⟨hbuf, ?_⟩
  rw [hbuf]
  intro i hi
  split_ifs at hi
  · simp at hi
    rcases hi with h | h <;> subst h <;> rfl
  · simp only [List.mem_append, List.mem_singleton] at hi
    rcases hi with (h | h) | h
    · subst h; rfl
    · have : ∀ j ∈ (move encodable mask addressTempRegister init).buffer,
          j.isTstOf ARMRegisters.sp = false := by
        unfold move
        simp only [buffer, emit, ARMv7Assembler.emit, init]
        split_ifs <;> simp [Instr.isTstOf]
      exact this i h
    · subst h; rfl

/-- C33 evaluated at a failing input: the immediate 32 has its low five bits zero,
yet `rshift32`, `urshift32` and `rotateRight32` test the whole immediate against
zero and emit `asr`, `lsr` and `ror` with the amount `32 & 0x1f = 0`.  The
hardware reads that amount as a shift by 32 (and as a rotate through carry), so
with `src = 7` the destination ends as 0, 0 and 3 instead of 7.  For the
immediate 0 itself only the register move is emitted. -/
theorem shift_right_imm_32_emits_zero_amount :
    toUInt32 32 &&& 0x1f = 0
    ∧ (rshift32Imm .r0 ⟨32⟩ .r1 init).buffer = [.asr .r1 .r0 0]
    ∧ (urshift32Imm .r0 ⟨32⟩ .r1 init).buffer = [.lsr .r1 .r0 0]
    ∧ (rotateRight32 .r0 ⟨32⟩ .r1 init).buffer = [.ror .r1 .r0 0]
    ∧ ((rshift32Imm .r0 ⟨32⟩ .r1 init).m_assembler.execute CPU.sample).cpu.regs .r1 = 0
    ∧ ((urshift32Imm .r0 ⟨32⟩ .r1 init).m_assembler.execute CPU.sample).cpu.regs .r1 = 0
    ∧ ((rotateRight32 .r0 ⟨32⟩ .r1 init).m_assembler.execute CPU.sample).cpu.regs .r1 = 3
    ∧ CPU.sample.regs .r0 = 7
    ∧ (rshift32Imm .r0 ⟨0⟩ .r1 init).buffer = [.movReg .r1 .r0]
    ∧ (urshift32Imm .r0 ⟨0⟩ .r1 init).buffer = [.movReg .r1 .r0]
    ∧ (rotateRight32 .r0 ⟨0⟩ .r1 init).buffer = [.movReg .r1 .r0]
    ∧ (rotateRight32 .r0 ⟨0⟩ .r0 init).buffer = [] := by
  decide

/-- C37: every `ArmAddress` that `setupArmAddress(Address)` returns is of the
indexed form or of the offset form with `-255 <= offset <= 4095`, and the
assertions of `load32`, `load16`, `load8`, `store32`, `store16` and `store8` on
an `ArmAddress` hold of it, for every `Address`. -/
theorem setupArmAddress_assertions (encodable : Nat → Bool) (address : Address)
    (m : MacroAssemblerARMv7) :
    ((setupArmAddress encodable address m).1
        = .hasIndex address.base addressTempRegister .TimesOne
      ∨ ((setupArmAddress encodable address m).1 = .hasOffset address.base address.offset
          ∧ -255 ≤ address.offset ∧ address.offset ≤ 4095))
    ∧ load32ArmAssertion (setupArmAddress encodable address m).1 = true
    ∧ load16ArmAssertion (setupArmAddress encodable address m).1 = true
    ∧ load8ArmAssertion (setupArmAddress encodable address m).1 = true
    ∧ store32ArmAssertion (setupArmAddress encodable address m).1 = true
    ∧ store16ArmAssertion (setupArmAddress encodable address m).1 = true
    ∧ store8ArmAssertion (setupArmAddress encodable address m).1 = true := by
  unfold setupArmAddress
  by_cases h : address.offset ≥ -0xff ∧ address.offset ≤ 0xfff
  · rw [if_pos h]
    have hk : ∀ o : Int, -255 ≤ o → o ≤ 4095 →
        (if o ≥ 0 then (ARMThumbImmediate.makeUInt12 o).isValid else decide (o ≥ -255))
          = true := by
      intro o h1 h2
      by_cases h0 : o ≥ 0
      · have hv : 0 ≤ o ∧ o < 4096 := by omega
        simp [h0, ARMThumbImmediate.makeUInt12, hv, ARMThumbImmediate.isValid]
      · simp [h0, h1]
    have hk' := hk address.offset (by omega) (by omega)
    refine ⟨Or.inr ⟨rfl, by omega, by omega⟩, ?_, ?_, ?_, ?_, ?_, ?_⟩ <;> exact hk'
  · rw [if_neg h]
    exact ⟨Or.inl rfl, rfl, rfl, rfl, rfl, rfl, rfl⟩

/-- C38: for every function index below `functionIndexSpaceSize()`,
`signatureIndexFromFunctionIndexSpace` returns the entry of the import vector at
the index when the index is below the import count and the entry of the internal
vector at the index less the import count otherwise; the access is within
bounds; and `isImportedFunctionFromFunctionIndexSpace` is true exactly below
the import count. -/
theorem signatureIndex_in_bounds (info : Wasm.ModuleInformation) (i : Nat)
    (h : i < info.functionIndexSpaceSize) :
    info.functionIndexSpaceSize
        = info.importFunctionSignatureIndices.length
          + info.internalFunctionSignatureIndices.length
    ∧ (info.isImportedFunctionFromFunctionIndexSpace i = true
        ↔ i < info.importFunctionSignatureIndices.length)
    ∧ info.signatureIndexFromFunctionIndexSpace i
        = (if i < info.importFunctionSignatureIndices.length then
            info.importFunctionSignatureIndices[i]?
          else
            info.internalFunctionSignatureIndices[
              i - info.importFunctionSignatureIndices.length]?)
    ∧ (if i < info.importFunctionSignatureIndices.length then
          i < info.importFunctionSignatureIndices.length
        else
          i - info.importFunctionSignatureIndices.length
            < info.internalFunctionSignatureIndices.length)
    ∧ (info.signatureIndexFromFunctionIndexSpace i).isSome = true
    ∧ info.signatureIndexFromFunctionIndexSpace i
        = (info.importFunctionSignatureIndices ++ info.internalFunctionSignatureIndices)[i]? := by
  have hs : i < info.importFunctionSignatureIndices.length
      + info.internalFunctionSignatureIndices.length := h
  refine ⟨rfl, by simp [Wasm.ModuleInformation.isImportedFunctionFromFunctionIndexSpace], ?_,
    ?_, ?_, ?_⟩
  · simp [Wasm.ModuleInformation.signatureIndexFromFunctionIndexSpace,
      Wasm.ModuleInformation.isImportedFunctionFromFunctionIndexSpace]
  · split_ifs with h1
    · exact h1
    · omega
  · unfold Wasm.ModuleInformation.signatureIndexFromFunctionIndexSpace
      Wasm.ModuleInformation.isImportedFunctionFromFunctionIndexSpace
    by_cases h1 : i < info.importFunctionSignatureIndices.length
    · simp [h1]
    · have h2 : i - info.importFunctionSignatureIndices.length
          < info.internalFunctionSignatureIndices.length := by omega
      simp [h1, h2]
  · unfold Wasm.ModuleInformation.signatureIndexFromFunctionIndexSpace
      Wasm.ModuleInformation.isImportedFunctionFromFunctionIndexSpace
    by_cases h1 : i < info.importFunctionSignatureIndices.length
    · simp [h1, List.getElem?_append_left h1]
    · simp [h1, List.getElem?_append_right (Nat.le_of_not_lt h1)]

/-- Witness for C38: two imported functions and one internal one, index 2. -/
theorem signatureIndex_in_bounds_witness :
    2 < (⟨[10, 11], [20]⟩ : Wasm.ModuleInformation).functionIndexSpaceSize
    ∧ (⟨[10, 11], [20]⟩ : Wasm.ModuleInformation).signatureIndexFromFunctionIndexSpace 2
        = some 20 :=
  ⟨by decide,
   (signatureIndex_in_bounds ⟨[10, 11], [20]⟩ 2 (by decide)).2.2.2.2.2.trans (by decide)⟩

theorem cache_put_length (cache : WTF.TextBreakIteratorCache) (iterator : WTF.TextBreakIterator)
    (h : cache.m_unused.length ≤ 2) : (cache.put iterator).m_unused.length ≤ 2 := by
  unfold WTF.TextBreakIteratorCache.put WTF.TextBreakIteratorCache.capacity
  simp only []
  split_ifs with h1
  · simp only [List.length_append, List.length_singleton] at h1
    cases hx : cache.m_unused with
    | nil => simp
    | cons a t => rw [hx] at h; simp at h ⊢; omega
  · simp only [List.length_append, List.length_singleton] at h1 ⊢
    omega

theorem cache_take_length (cache : WTF.TextBreakIteratorCache) (string : String)
    (mode : WTF.TextBreakIterator.Mode) (locale : String) :
    (cache.take string mode locale).2.m_unused.length ≤ cache.m_unused.length := by
  unfold WTF.TextBreakIteratorCache.take
  simp only []
  cases hf : cache.m_unused.find?
      (fun candidate => candidate.m_mode == mode && candidate.m_locale == locale) with
  | none => simp
  | some r =>
    simp only [List.length_eraseIdx]
    split_ifs <;> omega

theorem cache_performAll_length (ops : List WTF.TextBreakIteratorCache.Operation) :
    ∀ cache : WTF.TextBreakIteratorCache, cache.m_unused.length ≤ 2 →
      (cache.performAll ops).m_unused.length ≤ 2 := by
  induction ops with
  | nil => intro cache h; exact h
  | cons op rest ih =>
    intro cache h
    show ((cache.perform op).performAll rest).m_unused.length ≤ 2
    apply ih
    cases op with
    | take string mode locale =>
      exact Nat.le_trans (cache_take_length cache string mode locale) h
    | put iterator => exact cache_put_length cache iterator h

theorem find_first_decompose (p : WTF.TextBreakIterator → Bool) :
    ∀ l : List WTF.TextBreakIterator,
      (l.any p = true →
        ∃ pre r post, l = pre ++ r :: post ∧ (∀ x ∈ pre, p x = false) ∧ p r = true
          ∧ l.find? p = some r ∧ l.eraseIdx (l.findIdx p) = pre ++ post)
      ∧ (l.any p = false → l.find? p = none) := by
  intro l
  induction l with
  | nil => simp
  | cons a t ih =>
    by_cases ha : p a = true
    · refine ⟨fun _ => ⟨[], a, t, rfl, by simp, ha, by simp [List.find?_cons, ha],
        by simp [List.findIdx_cons, ha]⟩, fun h => ?_⟩
      simp [List.any_cons, ha] at h
    · have ha' : p a = false := by simpa using ha
      refine ⟨fun h => ?_, fun h => ?_⟩
      · have ht : t.any p = true := by simpa [List.any_cons, ha'] using h
        obtain ⟨pre, r, post, e, hpre, hr, hf, he⟩ := ih.1 ht
        refine ⟨a :: pre, r, post, by rw [e]; rfl, ?_, hr, ?_, ?_⟩
        · intro x hx
          rcases List.mem_cons.mp hx with h1 | h1
          · rw [h1]; exact ha'
          · exact hpre x h1
        · simp [List.find?_cons, ha', hf]
        · simp [List.findIdx_cons, ha', he]
      · have ht : t.any p = false := by simpa [List.any_cons, ha'] using h
        simp [List.find?_cons, ha', ih.2 ht]

/-- C39: starting from the empty cache, after any sequence of `take` and `put` the
number of cached iterators is at most the capacity 2.  A `put` appends the
iterator and, when that makes more than 2, drops the front entry; the iterator
put is the last entry afterwards.  A `take` for which some cached iterator has
the given mode and locale removes the first such iterator (those before it do
not match), returns it with its text set, and leaves one entry fewer; when none
matches it returns a new iterator and leaves the cache as it was. -/
theorem textBreakIteratorCache_bounded (ops : List WTF.TextBreakIteratorCache.Operation)
    (cache : WTF.TextBreakIteratorCache) (string : String)
    (mode : WTF.TextBreakIterator.Mode) (locale : String)
    (iterator : WTF.TextBreakIterator) :
    (WTF.TextBreakIteratorCache.empty.performAll ops).m_unused.length
        ≤ WTF.TextBreakIteratorCache.capacity
    ∧ WTF.TextBreakIteratorCache.capacity = 2
    ∧ (cache.put iterator).m_unused
        = (if cache.m_unused.length + 1 > 2 then (cache.m_unused ++ [iterator]).tail
          else cache.m_unused ++ [iterator])
    ∧ (cache.put iterator).m_unused.getLast? = some iterator
    ∧ (if cache.m_unused.any
            (fun candidate => candidate.m_mode == mode && candidate.m_locale == locale)
          = true then
        ∃ pre r post, cache.m_unused = pre ++ r :: post
          ∧ (∀ x ∈ pre, (x.m_mode == mode && x.m_locale == locale) = false)
          ∧ r.m_mode = mode ∧ r.m_locale = locale
          ∧ (cache.take string mode locale).1 = r.setText string
          ∧ (cache.take string mode locale).2.m_unused = pre ++ post
          ∧ (cache.take string mode locale).2.m_unused.length + 1 = cache.m_unused.length
      else
        cache.take string mode locale = (⟨string, mode, locale⟩, cache)) := by
  refine ⟨cache_performAll_length ops WTF.TextBreakIteratorCache.empty (by decide), rfl,
    ?_, ?_, ?_⟩
  · unfold WTF.TextBreakIteratorCache.put WTF.TextBreakIteratorCache.capacity
    simp only [List.length_append, List.length_singleton]
    split_ifs
    · cases hx : cache.m_unused ++ [iterator] with
      | nil => rfl
      | cons a t => rfl
    · rfl
  · unfold WTF.TextBreakIteratorCache.put WTF.TextBreakIteratorCache.capacity
    simp only [List.length_append, List.length_singleton]
    split_ifs with h1
    · cases hx : cache.m_unused with
      | nil => rw [hx] at h1; simp at h1
      | cons a t => simp
    · simp
  · have hd := find_first_decompose
      (fun candidate => candidate.m_mode == mode && candidate.m_locale == locale)
      cache.m_unused
    split_ifs with hany
    · obtain ⟨pre, r, post, e, hpre, hr, hf, he⟩ := hd.1 hany
      have hr' : r.m_mode = mode ∧ r.m_locale = locale := by simpa using hr
      refine ⟨pre, r, post, e, hpre, hr'.1, hr'.2, ?_, ?_, ?_⟩
      · simp only [WTF.TextBreakIteratorCache.take, hf]
      · simp only [WTF.TextBreakIteratorCache.take, hf, he]
      · simp only [WTF.TextBreakIteratorCache.take, hf, he]
        rw [e]; simp; omega
    · have hn := hd.2 (by simpa using hany)
      simp only [WTF.TextBreakIteratorCache.take, hn]

theorem nat_or_eq_zero (a b : Nat) : a ||| b = 0 ↔ a = 0 ∧ b = 0 := by
  constructor
  · intro h
    have ht : ∀ i, (a.testBit i || b.testBit i) = false := by
      intro i
      have := congrArg (fun n => Nat.testBit n i) h
      simpa [Nat.testBit_or] using this
    constructor
    · apply Nat.eq_of_testBit_eq
      intro i
      have := ht i
      simp only [Bool.or_eq_false_iff] at this
      simp [this.1]
    · apply Nat.eq_of_testBit_eq
      intro i
      have := ht i
      simp only [Bool.or_eq_false_iff] at this
      simp [this.2]
  · rintro ⟨rfl, rfl⟩
    rfl

theorem and_ldrd_mask (v : Nat) (h : v < 4294967296) :
    v &&& 0xfffffc03 = 0 ↔ (v % 4 = 0 ∧ v < 1024) := by
  have e : (0xfffffc03 : Nat) = ((2 ^ 32 - 1) ^^^ (2 ^ 10 - 1)) ||| (2 ^ 2 - 1) := by decide
  rw [e, Nat.and_or_distrib_left, nat_or_eq_zero, Nat.and_xor_distrib_left,
    Nat.and_pow_two_sub_one_eq_mod, Nat.and_pow_two_sub_one_eq_mod,
    Nat.and_pow_two_sub_one_eq_mod, Nat.mod_eq_of_lt (by simpa using h)]
  constructor
  · rintro ⟨hx, h4⟩
    have := Nat.xor_eq_zero.mp hx
    omega
  · rintro ⟨h4, hx⟩
    refine ⟨?_, by omega⟩
    rw [Nat.mod_eq_of_lt (by simpa using hx)]
    exact Nat.xor_self v

/-- The test `!(absOffset & ~0x3fc)` of `loadPair32`, for an `int32_t` offset. -/
theorem loadPair32_offset_test (offset : Int) (hi : isInt32 offset) :
    toUInt32 (if offset < 0 then wrapInt32 (-offset) else offset) &&& 0xfffffc03 = 0
      ↔ (offset % 4 = 0 ∧ -1020 ≤ offset ∧ offset ≤ 1020) := by
  unfold isInt32 at hi
  rw [and_ldrd_mask _ (toUInt32_lt _)]
  by_cases h : offset < 0
  · rw [if_pos h, toUInt32_wrapInt32_neg]
    unfold toUInt32
    omega
  · rw [if_neg h]
    unfold toUInt32
    omega

theorem load32_buffer_length (encodable : Nat → Bool) (address : Address) (dest : RegisterID) :
    1 ≤ (load32 encodable address dest init).buffer.length := by
  by_cases h : -255 ≤ address.offset ∧ address.offset ≤ 4095
  · rw [load32_buffer_window _ _ _ h]; simp
  · rw [load32_buffer_far _ _ _ h]; simp

theorem loadPair32_buffer (encodable : Nat → Bool) (address : Address)
    (dest1 dest2 : RegisterID) (hi : isInt32 address.offset) :
    (loadPair32 encodable address dest1 dest2 init).buffer
      = (if address.offset % 4 = 0 ∧ -1020 ≤ address.offset ∧ address.offset ≤ 1020 then
          [.ldrd dest1 dest2 address.base address.offset true false]
        else if address.base = dest1 then
          (load32 encodable (address.withOffset 4) dest2 init).buffer
            ++ (load32 encodable address dest1 init).buffer
        else
          (load32 encodable address dest1 init).buffer
            ++ (load32 encodable (address.withOffset 4) dest2 init).buffer) := by
  have ht := loadPair32_offset_test address.offset hi
  unfold loadPair32
  simp only []
  by_cases hc : address.offset % 4 = 0 ∧ -1020 ≤ address.offset ∧ address.offset ≤ 1020
  · rw [if_pos (ht.mpr hc), if_pos hc]; rfl
  · rw [if_neg (fun h => hc (ht.mp h)), if_neg hc]
    split_ifs
    · rw [load32_buffer_app]
    · rw [load32_buffer_app]

/-- C34: for every `Address` whose base is not `addressTempRegister` and distinct
destinations other than `addressTempRegister`, `loadPair32(Address, dest1, dest2)`
emits a single `ldrd` exactly when the offset is a multiple of 4 within
`[-1020, 1020]`, and otherwise two `load32`, the one into `dest2` first when the
base is `dest1`; the run ends with `dest1 = mem32[base + offset]` and
`dest2 = mem32[base + offset + 4]`, also when the base is one of the
destinations. -/
theorem loadPair32_words (encodable : Nat → Bool) (address : Address)
    (dest1 dest2 : RegisterID) (c : CPU)
    (hb : address.base ≠ addressTempRegister) (hd : dest1 ≠ dest2)
    (h1 : dest1 ≠ addressTempRegister) (h2 : dest2 ≠ addressTempRegister)
    (hi : isInt32 address.offset) (_ho : address.offset + 4 ≤ 2147483647) :
    ((loadPair32 encodable address dest1 dest2 init).buffer
        = [.ldrd dest1 dest2 address.base address.offset true false]
      ↔ (address.offset % 4 = 0 ∧ -1020 ≤ address.offset ∧ address.offset ≤ 1020))
    ∧ ((address.offset % 4 = 0 ∧ -1020 ≤ address.offset ∧ address.offset ≤ 1020) ∨
        (loadPair32 encodable address dest1 dest2 init).buffer
          = (if address.base = dest1 then
              (load32 encodable (address.withOffset 4) dest2 init).buffer
                ++ (load32 encodable address dest1 init).buffer
            else
              (load32 encodable address dest1 init).buffer
                ++ (load32 encodable (address.withOffset 4) dest2 init).buffer))
    ∧ ((loadPair32 encodable address dest1 dest2 init).m_assembler.execute c).halted
        (loadPair32 encodable address dest1 dest2 init).m_assembler = true
    ∧ ((loadPair32 encodable address dest1 dest2 init).m_assembler.execute c).cpu.regs dest1
        = c.read32 (toUInt32 ((c.regs address.base : Int) + address.offset))
    ∧ ((loadPair32 encodable address dest1 dest2 init).m_assembler.execute c).cpu.regs dest2
        = c.read32 ((toUInt32 ((c.regs address.base : Int) + address.offset) + 4)
            % 4294967296) := by
  have hbuf := loadPair32_buffer encodable address dest1 dest2 hi
  have hA4 : toUInt32 ((c.regs address.base : Int) + (address.offset + 4))
      = (toUInt32 ((c.regs address.base : Int) + address.offset) + 4) % 4294967296 := by
    unfold toUInt32; omega
  have hl1 := load32_buffer_length encodable address dest1
  have hl2 := load32_buffer_length encodable (address.withOffset 4) dest2
  have hbase4 : (address.withOffset 4).base = address.base := rfl
  have hoff4 : (address.withOffset 4).offset = address.offset + 4 := rfl
  by_cases hc : address.offset % 4 = 0 ∧ -1020 ≤ address.offset ∧ address.offset ≤ 1020
  · rw [if_pos hc] at hbuf
    refine ⟨⟨fun _ => hc, fun _ => hbuf⟩, Or.inl hc, ?_⟩
    have hs : ∀ i ∈ (loadPair32 encodable address dest1 dest2 init).m_assembler.buffer,
        i.isStraight = true := by
      show ∀ i ∈ (loadPair32 encodable address dest1 dest2 init).buffer, i.isStraight = true
      rw [hbuf]; intro i hi'; simp at hi'; subst hi'; rfl
    rw [execute_straight _ c hs]
    refine ⟨by simp [Machine.halted], ?_, ?_⟩
    · show (execSeq (loadPair32 encodable address dest1 dest2 init).buffer c).regs dest1 = _
      rw [hbuf]
      simp only [execSeq, List.foldl_cons, List.foldl_nil, Instr.exec, if_true,
        Bool.false_eq_true, if_false]
      rw [setReg_regs_other _ _ _ _ hd, setReg_regs_same]
      exact Nat.mod_eq_of_lt (read32_lt _ _)
    · show (execSeq (loadPair32 encodable address dest1 dest2 init).buffer c).regs dest2 = _
      rw [hbuf]
      simp only [execSeq, List.foldl_cons, List.foldl_nil, Instr.exec, if_true,
        Bool.false_eq_true, if_false]
      rw [setReg_regs_same]
      exact Nat.mod_eq_of_lt (read32_lt _ _)
  · rw [if_neg hc] at hbuf
    have hs : ∀ i ∈ (loadPair32 encodable address dest1 dest2 init).m_assembler.buffer,
        i.isStraight = true := by
      show ∀ i ∈ (loadPair32 encodable address dest1 dest2 init).buffer, i.isStraight = true
      rw [hbuf]
      intro i hi'
      split_ifs at hi' <;>
        (rcases List.mem_append.mp hi' with h | h <;> exact load32_straight _ _ _ i h)
    refine ⟨⟨fun h => ?_, fun h => absurd h hc⟩, Or.inr hbuf, ?_⟩
    · exfalso
      have hlen := congrArg List.length h
      rw [hbuf] at hlen
      split_ifs at hlen <;> simp at hlen <;> omega
    rw [execute_straight _ c hs]
    refine ⟨by simp [Machine.halted], ?_⟩
    show (execSeq (loadPair32 encodable address dest1 dest2 init).buffer c).regs dest1 = _
      ∧ (execSeq (loadPair32 encodable address dest1 dest2 init).buffer c).regs dest2 = _
    rw [hbuf]
    by_cases hbd : address.base = dest1
    · rw [if_pos hbd, execSeq_append]
      have hb2 : address.base ≠ dest2 := by rw [hbd]; exact hd
      obtain ⟨a1, a2, a3⟩ := execSeq_load32_facts encodable (address.withOffset 4) dest2 c
        (by rw [hbase4]; exact hb)
      obtain ⟨b1, _, b3⟩ := execSeq_load32_facts encodable address dest1
        (execSeq (load32 encodable (address.withOffset 4) dest2 init).buffer c) hb
      rw [hbase4, hoff4, hA4] at a1
      refine ⟨?_, ?_⟩
      · rw [b1, a3 address.base hb2 hb]
        exact read32_congr _ _ _ a2
      · rw [b3 dest2 (Ne.symm hd) h2, a1]
    · rw [if_neg hbd, execSeq_append]
      obtain ⟨a1, a2, a3⟩ := execSeq_load32_facts encodable address dest1 c hb
      obtain ⟨b1, _, b3⟩ := execSeq_load32_facts encodable (address.withOffset 4) dest2
        (execSeq (load32 encodable address dest1 init).buffer c) (by rw [hbase4]; exact hb)
      rw [hbase4, hoff4, a3 address.base hbd hb, hA4] at b1
      refine ⟨?_, ?_⟩
      · rw [b3 dest1 hd h1, a1]
      · rw [b1]
        exact read32_congr _ _ _ a2

/-- Witness for C34: base and first destination `r0`, second destination `r1`, offset
`0x12345` (no `ldrd`), every register holding 7 and the memory zero. -/
theorem loadPair32_words_witness :
    (⟨.r0, 0x12345⟩ : Address).base ≠ addressTempRegister
    ∧ RegisterID.r0 ≠ RegisterID.r1
    ∧ isInt32 (⟨.r0, 0x12345⟩ : Address).offset
    ∧ (loadPair32 thumb2Encodable ⟨.r0, 0x12345⟩ .r0 .r1 init).buffer
      = [.mov .r6 ⟨.TypeUInt16, 0x2349⟩, .movt .r6 ⟨.TypeUInt16, 1⟩, .ldrIndex .r1 .r0 .r6 0,
          .mov .r6 ⟨.TypeUInt16, 0x2345⟩, .movt .r6 ⟨.TypeUInt16, 1⟩,
          .ldrIndex .r0 .r0 .r6 0] :=
  ⟨by decide, by decide, by decide,
   ((loadPair32_words thumb2Encodable ⟨.r0, 0x12345⟩ .r0 .r1 CPU.sample (by decide)
      (by decide) (by decide) (by decide) (by decide) (by decide)).2.1.resolve_left
        (by decide)).trans
     (by decide)⟩

theorem write32_mem_other (c : CPU) (a v x : Nat) (h0 : x ≠ a)
    (h1 : x ≠ (a + 1) % 4294967296) (h2 : x ≠ (a + 2) % 4294967296)
    (h3 : x ≠ (a + 3) % 4294967296) : (c.write32 a v).mem x = c.mem x := by
  simp only [CPU.write32, if_neg h0, if_neg h1, if_neg h2, if_neg h3]

theorem read32_write32_next (c : CPU) (a v : Nat) :
    (c.write32 a v).read32 ((a + 4) % 4294967296) = c.read32 ((a + 4) % 4294967296) := by
  unfold CPU.read32
  rw [write32_mem_other c a v _ (by omega) (by omega) (by omega) (by omega),
    write32_mem_other c a v _ (by omega) (by omega) (by omega) (by omega),
    write32_mem_other c a v _ (by omega) (by omega) (by omega) (by omega),
    write32_mem_other c a v _ (by omega) (by omega) (by omega) (by omega)]

theorem read32_write32_prev (c : CPU) (a v : Nat) :
    (c.write32 ((a + 4) % 4294967296) v).read32 a = c.read32 a := by
  unfold CPU.read32
  rw [write32_mem_other c _ v _ (by omega) (by omega) (by omega) (by omega),
    write32_mem_other c _ v _ (by omega) (by omega) (by omega) (by omega),
    write32_mem_other c _ v _ (by omega) (by omega) (by omega) (by omega),
    write32_mem_other c _ v _ (by omega) (by omega) (by omega) (by omega)]

theorem store32_regs (c : CPU) (rt : RegisterID) (a : Nat) : (c.store32 rt a).regs = c.regs := rfl

theorem store32_apsr (c : CPU) (rt : RegisterID) (a : Nat) : (c.store32 rt a).apsr = c.apsr := rfl

theorem load32_apsr (c : CPU) (rt : RegisterID) (a : Nat) : (c.load32 rt a).apsr = c.apsr := rfl

theorem load32_read32 (c : CPU) (rt : RegisterID) (a x : Nat) :
    (c.load32 rt a).read32 x = c.read32 x := rfl

theorem setReg_read32 (c : CPU) (r : RegisterID) (v x : Nat) :
    (c.setReg r v).read32 x = c.read32 x := rfl

theorem setReg_apsr (c : CPU) (r : RegisterID) (v : Nat) : (c.setReg r v).apsr = c.apsr := rfl

theorem store32_read32_same (c : CPU) (rt : RegisterID) (a : Nat) :
    (c.store32 rt a).read32 a = c.regs rt % 4294967296 := by
  unfold CPU.store32
  rw [read32_write32, Nat.mod_mod]

theorem store32_read32_next (c : CPU) (rt : RegisterID) (a : Nat) :
    (c.store32 rt a).read32 ((a + 4) % 4294967296) = c.read32 ((a + 4) % 4294967296) := by
  unfold CPU.store32
  rw [read32_write32_next]
  rfl

theorem store32_read32_prev (c : CPU) (rt : RegisterID) (a : Nat) :
    (c.store32 rt ((a + 4) % 4294967296)).read32 a = c.read32 a := by
  unfold CPU.store32
  rw [read32_write32_prev]
  rfl

/-- The second half of `add64`: the store of the low word, and the load, the
add-with-carry and the store of the high word. -/
theorem execSeq_add64_tail (c1 : CPU) (P : Nat) (e : ARMThumbImmediate)
    (hP : P < 4294967296) (hr : c1.regs addressTempRegister = P) :
    (execSeq [.str dataTempRegister addressTempRegister (ARMThumbImmediate.makeUInt12 0),
        .ldr dataTempRegister addressTempRegister (ARMThumbImmediate.makeUInt12 4),
        .adc dataTempRegister dataTempRegister e,
        .str dataTempRegister addressTempRegister (ARMThumbImmediate.makeUInt12 4)] c1).read32 P
      = c1.regs dataTempRegister % 4294967296
    ∧ (execSeq [.str dataTempRegister addressTempRegister (ARMThumbImmediate.makeUInt12 0),
        .ldr dataTempRegister addressTempRegister (ARMThumbImmediate.makeUInt12 4),
        .adc dataTempRegister dataTempRegister e,
        .str dataTempRegister addressTempRegister (ARMThumbImmediate.makeUInt12 4)] c1).read32
          ((P + 4) % 4294967296)
      = (c1.read32 ((P + 4) % 4294967296) + e.value + (if c1.apsr.c then 1 else 0))
          % 4294967296 := by
  have hne : addressTempRegister ≠ dataTempRegister := by decide
  have e0 : ARMThumbImmediate.makeUInt12 0 = ⟨.TypeUInt16, 0⟩ := by decide
  have e4 : ARMThumbImmediate.makeUInt12 4 = ⟨.TypeUInt16, 4⟩ := by decide
  have hP0 : (P + 0) % 4294967296 = P := by omega
  simp only [execSeq, List.foldl_cons, List.foldl_nil, Instr.exec, e0, e4, store32_regs,
    store32_apsr, load32_apsr, hr, hP0]
  have hr2 : ((c1.store32 dataTempRegister P).load32 dataTempRegister
      ((P + 4) % 4294967296)).regs addressTempRegister = P := by
    unfold CPU.load32
    rw [setReg_regs_other _ _ _ _ hne]
    exact hr
  have hr3 : ∀ v, (((c1.store32 dataTempRegister P).load32 dataTempRegister
      ((P + 4) % 4294967296)).setReg dataTempRegister v).regs addressTempRegister = P := by
    intro v
    rw [setReg_regs_other _ _ _ _ hne]
    exact hr2
  simp only [hr2, hr3]
  refine ⟨?_, ?_⟩
  · rw [store32_read32_prev, setReg_read32, load32_read32, store32_read32_same]
  · rw [store32_read32_same, setReg_regs_same, Nat.mod_mod]
    unfold CPU.load32
    rw [setReg_regs_same, Nat.mod_eq_of_lt (read32_lt _ _), store32_read32_next]

theorem add64_buffer (encodable : Nat → Bool) (imm : TrustedImm32)
    (address : AbsoluteAddress) :
    (add64 encodable imm address init).buffer
      = ((move encodable ⟨address.m_ptr⟩ addressTempRegister init).buffer
          ++ ([.ldr dataTempRegister addressTempRegister (ARMThumbImmediate.makeUInt12 0)]
          ++ (if encodable (toUInt32 imm.m_value) = true then
                [.add_S dataTempRegister dataTempRegister
                  ⟨.TypeEncoded, toUInt32 imm.m_value⟩]
              else
                (move encodable imm addressTempRegister init).buffer
                  ++ ([.add_SReg dataTempRegister dataTempRegister addressTempRegister]
                  ++ (move encodable ⟨address.m_ptr⟩ addressTempRegister init).buffer))))
        ++ [.str dataTempRegister addressTempRegister (ARMThumbImmediate.makeUInt12 0),
            .ldr dataTempRegister addressTempRegister (ARMThumbImmediate.makeUInt12 4),
            .adc dataTempRegister dataTempRegister
              (ARMThumbImmediate.makeEncodedImm encodable
                (toUInt32 (imm.m_value / 2147483648))),
            .str dataTempRegister addressTempRegister (ARMThumbImmediate.makeUInt12 4)] := by
  unfold add64 movePtr TrustedImmPtr.toImm32
  simp only [emit_buffer, List.append_assoc, List.singleton_append]
  by_cases h : encodable (toUInt32 imm.m_value) = true
  · simp only [ARMThumbImmediate.makeEncodedImm, h, if_true, ARMThumbImmediate.isValid]
    simp [emit_buffer]
  · simp only [ARMThumbImmediate.makeEncodedImm, h, if_false, ARMThumbImmediate.isValid,
      ARMThumbImmediate.invalid]
    simp only [bne_self_eq_false, Bool.false_eq_true, if_false]
    rw [move_buffer encodable ⟨address.m_ptr⟩ addressTempRegister
      ((move encodable imm addressTempRegister _).emit _), emit_buffer,
      move_buffer encodable imm addressTempRegister
        ((move encodable ⟨address.m_ptr⟩ addressTempRegister init).emit _), emit_buffer]
    simp

/-- The first half of `add64`: the pointer in `addressTempRegister`, the low word
plus the immediate in `dataTempRegister`, the carry of that add in the flags,
and the memory as it was. -/
theorem execSeq_add64_head (encodable : Nat → Bool) (imm : TrustedImm32)
    (address : AbsoluteAddress) (c : CPU) :
    (execSeq ((move encodable ⟨address.m_ptr⟩ addressTempRegister init).buffer
        ++ ([.ldr dataTempRegister addressTempRegister (ARMThumbImmediate.makeUInt12 0)]
        ++ (if encodable (toUInt32 imm.m_value) = true then
              [.add_S dataTempRegister dataTempRegister ⟨.TypeEncoded, toUInt32 imm.m_value⟩]
            else
              (move encodable imm addressTempRegister init).buffer
                ++ ([.add_SReg dataTempRegister dataTempRegister addressTempRegister]
                ++ (move encodable ⟨address.m_ptr⟩ addressTempRegister init).buffer)))) c).regs
          addressTempRegister = toUInt32 address.m_ptr
    ∧ (execSeq ((move encodable ⟨address.m_ptr⟩ addressTempRegister init).buffer
        ++ ([.ldr dataTempRegister addressTempRegister (ARMThumbImmediate.makeUInt12 0)]
        ++ (if encodable (toUInt32 imm.m_value) = true then
              [.add_S dataTempRegister dataTempRegister ⟨.TypeEncoded, toUInt32 imm.m_value⟩]
            else
              (move encodable imm addressTempRegister init).buffer
                ++ ([.add_SReg dataTempRegister dataTempRegister addressTempRegister]
                ++ (move encodable ⟨address.m_ptr⟩ addressTempRegister init).buffer)))) c).regs
          dataTempRegister
        = (c.read32 (toUInt32 address.m_ptr) + toUInt32 imm.m_value) % 4294967296
    ∧ (execSeq ((move encodable ⟨address.m_ptr⟩ addressTempRegister init).buffer
        ++ ([.ldr dataTempRegister addressTempRegister (ARMThumbImmediate.makeUInt12 0)]
        ++ (if encodable (toUInt32 imm.m_value) = true then
              [.add_S dataTempRegister dataTempRegister ⟨.TypeEncoded, toUInt32 imm.m_value⟩]
            else
              (move encodable imm addressTempRegister init).buffer
                ++ ([.add_SReg dataTempRegister dataTempRegister addressTempRegister]
                ++ (move encodable ⟨address.m_ptr⟩ addressTempRegister init).buffer)))) c).apsr.c
        = decide (4294967296 ≤ c.read32 (toUInt32 address.m_ptr) + toUInt32 imm.m_value)
    ∧ ∀ x, (execSeq ((move encodable ⟨address.m_ptr⟩ addressTempRegister init).buffer
        ++ ([.ldr dataTempRegister addressTempRegister (ARMThumbImmediate.makeUInt12 0)]
        ++ (if encodable (toUInt32 imm.m_value) = true then
              [.add_S dataTempRegister dataTempRegister ⟨.TypeEncoded, toUInt32 imm.m_value⟩]
            else
              (move encodable imm addressTempRegister init).buffer
                ++ ([.add_SReg dataTempRegister dataTempRegister addressTempRegister]
                ++ (move encodable ⟨address.m_ptr⟩ addressTempRegister init).buffer)))) c).read32 x
        = c.read32 x := by
  have hne : addressTempRegister ≠ dataTempRegister := by decide
  have hne' : dataTempRegister ≠ addressTempRegister := by decide
  have hP := toUInt32_lt address.m_ptr
  have hI := toUInt32_lt imm.m_value
  have hL := read32_lt c (toUInt32 address.m_ptr)
  have e0 : ARMThumbImmediate.makeUInt12 0 = ⟨.TypeUInt16, 0⟩ := by decide
  have hP0 : (toUInt32 address.m_ptr % 4294967296 + 0) % 4294967296 = toUInt32 address.m_ptr := by
    omega
  have hlo : ((c.setReg addressTempRegister (toUInt32 address.m_ptr)).load32 dataTempRegister
      (toUInt32 address.m_ptr)).regs dataTempRegister = c.read32 (toUInt32 address.m_ptr) := by
    unfold CPU.load32
    rw [setReg_regs_same]
    exact Nat.mod_eq_of_lt hL
  have hL' : c.read32 (toUInt32 address.m_ptr) % 4294967296
      = c.read32 (toUInt32 address.m_ptr) := Nat.mod_eq_of_lt hL
  have hI' : toUInt32 imm.m_value % 4294967296 = toUInt32 imm.m_value := Nat.mod_eq_of_lt hI
  have hP' : toUInt32 address.m_ptr % 4294967296 = toUInt32 address.m_ptr :=
    Nat.mod_eq_of_lt hP
  by_cases h : encodable (toUInt32 imm.m_value) = true
  · simp only [if_pos h, execSeq_append, execSeq_move]
    simp only [execSeq, List.foldl_cons, List.foldl_nil, Instr.exec, e0, setReg_regs_same, hP0,
      hlo]
    refine ⟨?_, trivial, ?_, ?_⟩
    · rw [setReg_regs_other _ _ _ _ hne]
      unfold CPU.load32
      rw [setReg_regs_other _ _ _ _ hne]
      show (c.setReg addressTempRegister (toUInt32 address.m_ptr)).regs addressTempRegister = _
      rw [setReg_regs_same]; exact hP'
    · simp only [addFlags, hL', hI']
    · intro x; rfl
  · simp only [if_neg h, execSeq_append, execSeq_move]
    simp only [execSeq, List.foldl_cons, List.foldl_nil, Instr.exec, e0, setReg_regs_same, hP0]
    have hlo2 : (((c.setReg addressTempRegister (toUInt32 address.m_ptr)).load32
        dataTempRegister (toUInt32 address.m_ptr)).setReg addressTempRegister
          (toUInt32 imm.m_value)).regs dataTempRegister
        = c.read32 (toUInt32 address.m_ptr) := by
      rw [setReg_regs_other _ _ _ _ hne', hlo]
    simp only [hlo2, hI']
    refine ⟨hP', ?_, ?_, ?_⟩
    · rw [setReg_regs_other _ _ _ _ hne']
      simp only [setReg_regs_same]
    · show (addFlags _ _).c = _
      simp only [addFlags, hL', hI']
    · intro x; rfl

theorem add64_straight (encodable : Nat → Bool) (imm : TrustedImm32)
    (address : AbsoluteAddress) :
    ∀ i ∈ (add64 encodable imm address init).buffer, i.isStraight = true := by
  rw [add64_buffer]
  intro i hi
  rcases List.mem_append.mp hi with h | h
  · rcases List.mem_append.mp h with h | h
    · exact move_straight _ _ _ i h
    · rcases List.mem_append.mp h with h | h
      · simp at h; subst h; rfl
      · split_ifs at h
        · simp at h; subst h; rfl
        · rcases List.mem_append.mp h with h | h
          · exact move_straight _ _ _ i h
          · rcases List.mem_append.mp h with h | h
            · simp at h; subst h; rfl
            · exact move_straight _ _ _ i h
  · simp at h
    rcases h with h | h | h | h <;> subst h <;> rfl

/-- C35: for every 32-bit immediate and every absolute address, when the encoder
accepts 0 and `0xffffffff` (as the Thumb-2 encoder does), the run of
`add64(TrustedImm32(imm), AbsoluteAddress(p))` ends and leaves at `p` the old
64-bit little-endian value plus the sign extension of `imm`, modulo `2^64`: the
low word is the old low word plus `imm`, and the high word is the old high word
plus `imm >> 31` (0 or `0xffffffff`) plus the carry of the low-word add, on the
encodable path and on the scratch-register path alike. -/
theorem add64_imm_absolute (encodable : Nat → Bool) (imm : TrustedImm32)
    (address : AbsoluteAddress) (c : CPU)
    (h0 : encodable 0 = true) (hff : encodable 4294967295 = true)
    (hi : isInt32 imm.m_value) :
    ((add64 encodable imm address init).m_assembler.execute c).halted
        (add64 encodable imm address init).m_assembler = true
    ∧ ((add64 encodable imm address init).m_assembler.execute c).cpu.read32
          (toUInt32 address.m_ptr)
        = (c.read32 (toUInt32 address.m_ptr) + toUInt32 imm.m_value) % 4294967296
    ∧ ((add64 encodable imm address init).m_assembler.execute c).cpu.read32
          ((toUInt32 address.m_ptr + 4) % 4294967296)
        = (c.read32 ((toUInt32 address.m_ptr + 4) % 4294967296)
            + toUInt32 (imm.m_value / 2147483648)
            + (if 4294967296 ≤ c.read32 (toUInt32 address.m_ptr) + toUInt32 imm.m_value
                then 1 else 0)) % 4294967296
    ∧ toUInt32 (imm.m_value / 2147483648) = (if imm.m_value < 0 then 4294967295 else 0)
    ∧ ((((add64 encodable imm address init).m_assembler.execute c).cpu.read64
          (toUInt32 address.m_ptr) : Nat) : Int)
        = ((c.read64 (toUInt32 address.m_ptr) : Nat) + imm.m_value) % 18446744073709551616 := by
  unfold isInt32 at hi
  have hP := toUInt32_lt address.m_ptr
  have hext : toUInt32 (imm.m_value / 2147483648)
      = (if imm.m_value < 0 then 4294967295 else 0) := by
    unfold toUInt32; split_ifs <;> omega
  have henc : encodable (toUInt32 (imm.m_value / 2147483648)) = true := by
    rw [hext]; split_ifs
    · exact hff
    · exact h0
  have hev : (ARMThumbImmediate.makeEncodedImm encodable
      (toUInt32 (imm.m_value / 2147483648))).value = toUInt32 (imm.m_value / 2147483648) := by
    simp [ARMThumbImmediate.makeEncodedImm, henc]
  have hs : ∀ i ∈ (add64 encodable imm address init).m_assembler.buffer,
      i.isStraight = true := add64_straight encodable imm address
  obtain ⟨a1, a2, a3, a4⟩ := execSeq_add64_head encodable imm address c
  obtain ⟨t1, t2⟩ := execSeq_add64_tail _ (toUInt32 address.m_ptr)
    (ARMThumbImmediate.makeEncodedImm encodable (toUInt32 (imm.m_value / 2147483648))) hP a1
  rw [a2, Nat.mod_mod] at t1
  rw [a4, a3, hev] at t2
  have hlow : ((add64 encodable imm address init).m_assembler.execute c).cpu.read32
      (toUInt32 address.m_ptr)
      = (c.read32 (toUInt32 address.m_ptr) + toUInt32 imm.m_value) % 4294967296 := by
    rw [execute_straight _ c hs]
    show (execSeq (add64 encodable imm address init).buffer c).read32 _ = _
    rw [add64_buffer, execSeq_append]
    exact t1
  have hhigh : ((add64 encodable imm address init).m_assembler.execute c).cpu.read32
      ((toUInt32 address.m_ptr + 4) % 4294967296)
      = (c.read32 ((toUInt32 address.m_ptr + 4) % 4294967296)
          + toUInt32 (imm.m_value / 2147483648)
          + (if 4294967296 ≤ c.read32 (toUInt32 address.m_ptr) + toUInt32 imm.m_value
              then 1 else 0)) % 4294967296 := by
    rw [execute_straight _ c hs]
    show (execSeq (add64 encodable imm address init).buffer c).read32 _ = _
    rw [add64_buffer, execSeq_append, t2]
    simp only [decide_eq_true_eq]
  refine ⟨?_, hlow, hhigh, hext, ?_⟩
  · rw [execute_straight _ c hs]; simp [Machine.halted]
  · unfold CPU.read64
    rw [hlow, hhigh, hext]
    have hl := read32_lt c (toUInt32 address.m_ptr)
    have hh := read32_lt c ((toUInt32 address.m_ptr + 4) % 4294967296)
    have hI := toUInt32_lt imm.m_value
    have hIdef : (toUInt32 imm.m_value : Int) = imm.m_value % 4294967296 := by
      unfold toUInt32; omega
    generalize c.read32 (toUInt32 address.m_ptr) = lo at *
    generalize c.read32 ((toUInt32 address.m_ptr + 4) % 4294967296) = hiw at *
    generalize toUInt32 imm.m_value = iu at *
    push_cast
    split_ifs <;> omega

/-- Witness for C35: the immediate `-1` at the address 64 under the Thumb-2
legality predicate, with the memory zero: the 64-bit value becomes `2^64 - 1`. -/
theorem add64_imm_absolute_witness :
    thumb2Encodable 0 = true ∧ thumb2Encodable 4294967295 = true ∧ isInt32 (-1)
    ∧ ((((add64 thumb2Encodable ⟨-1⟩ ⟨64⟩ init).m_assembler.execute CPU.sample).cpu.read64
          (toUInt32 64) : Nat) : Int) = 18446744073709551615 :=
  ⟨by decide, by decide, by decide,
   (add64_imm_absolute thumb2Encodable ⟨-1⟩ ⟨64⟩ CPU.sample (by decide) (by decide)
      (by decide)).2.2.2.2.trans (by decide)⟩

/-- The flags after the sequence of `compare32AndSetFlags` for an immediate that
is neither zero nor the least 32-bit integer are those of the subtraction of the
immediate from the value of `left`, whatever immediates the encoding accepts. -/
theorem compare32AndSetFlags_flags_of_ne (encodable : Nat → Bool) (left : RegisterID)
    (right : TrustedImm32) (c : CPU)
    (hne0 : toUInt32 right.m_value ≠ 0) (hnemin : toUInt32 right.m_value ≠ 2147483648) :
    (execSeq (compare32AndSetFlags encodable left right init).buffer c).apsr
      = subFlags (c.regs left) (toUInt32 right.m_value) := by
  have hlt := toUInt32_lt right.m_value
  by_cases h1 : encodable (toUInt32 right.m_value) = true
  · rw [compare32AndSetFlags_cmp _ _ _ _ h1]
    simp [emit_buffer, init_buffer, execSeq, Instr.exec]
  · have hfl := addFlags_neg (c.regs left) _ hlt hne0 hnemin
    rw [← toUInt32_wrapInt32_neg] at hfl
    by_cases h2 : encodable (toUInt32 (wrapInt32 (-right.m_value))) = true
    · rcases compare32AndSetFlags_neg encodable left right init h1 h2 with e | e
      · rw [e]
        simpa [emit_buffer, init_buffer, execSeq, Instr.exec, CPU.setReg] using hfl
      · rw [e]
        simpa [emit_buffer, init_buffer, execSeq, Instr.exec] using hfl
    · rw [compare32AndSetFlags_scratch _ _ _ _ h1 h2, emit_buffer, execSeq_append, execSeq_move]
      simp only [execSeq, List.foldl_cons, List.foldl_nil, Instr.exec]
      rw [setReg_regs_other _ _ _ _ (bestTempRegister_ne left).symm, setReg_regs_same]
      simp [subFlags]

theorem compare32AndSetFlags_eq (encodable : Nat → Bool) (left : RegisterID)
    (right : TrustedImm32) (m : MacroAssemblerARMv7) :
    compare32AndSetFlags encodable left right m
      = ⟨⟨m.buffer ++ (compare32AndSetFlags encodable left right init).buffer,
          m.m_assembler.m_jumpsToLink⟩, m.m_makeJumpPatchable⟩ := by
  have hb := compare32AndSetFlags_buffer encodable left right m
  have hl := compare32AndSetFlags_links encodable left right m
  cases h : compare32AndSetFlags encodable left right m with
  | mk a f =>
    cases a with
    | mk b l =>
      rw [h] at hb hl
      simp only [buffer] at hb
      simp only at hl
      rw [hb, hl.1, hl.2]
      rfl

theorem doubleToInt32_lt (x : Nat) : doubleToInt32 x < 4294967296 := by
  unfold doubleToInt32
  simp only []
  split_ifs <;> omega

/-- The buffer, link records and returned jump of `branchTruncateDoubleToInt32` in
the mode `BranchIfTruncateFailed`. -/
theorem branchTruncate_failed_eq (encodable : Nat → Bool) (src : FPRegisterID)
    (dest : RegisterID) :
    branchTruncateDoubleToInt32 encodable src dest .BranchIfTruncateFailed init
      = (⟨(compare32AndSetFlags encodable dataTempRegister ⟨-2⟩ init).buffer.length + 14,
          .JumpNoCondition, .ConditionInvalid⟩,
         ⟨⟨[.vcvt_floatingPointToSigned fpTempRegisterAsSingle src,
              .vmovToCore dest fpTempRegisterAsSingle,
              .add_SReg dataTempRegister dest dest]
            ++ ([.it .ConditionEQ [true, true], .movT3 dataTempRegister ⟨.TypeUInt16, 0⟩,
                .movt dataTempRegister ⟨.TypeUInt16, 0⟩, .bx dataTempRegister]
            ++ ((compare32AndSetFlags encodable dataTempRegister ⟨-2⟩ init).buffer
            ++ ([.it .ConditionNE [true, true], .movT3 dataTempRegister ⟨.TypeUInt16, 0⟩,
                .movt dataTempRegister ⟨.TypeUInt16, 0⟩, .bx dataTempRegister]
            ++ [.movT3 dataTempRegister ⟨.TypeUInt16, 0⟩,
                .movt dataTempRegister ⟨.TypeUInt16, 0⟩, .bx dataTempRegister]))),
           [⟨7, (compare32AndSetFlags encodable dataTempRegister ⟨-2⟩ init).buffer.length + 11,
              .JumpCondition, .ConditionEQ⟩,
            ⟨(compare32AndSetFlags encodable dataTempRegister ⟨-2⟩ init).buffer.length + 11,
              (compare32AndSetFlags encodable dataTempRegister ⟨-2⟩ init).buffer.length + 14,
              .JumpCondition, .ConditionNE⟩]⟩, false⟩) := by
  have hc := compare32AndSetFlags_eq encodable dataTempRegister ⟨-2⟩
  generalize (compare32AndSetFlags encodable dataTempRegister ⟨-2⟩ init).buffer = cmp at hc ⊢
  simp only [branchTruncateDoubleToInt32, branchAdd32, branch32Imm, makeBranch_eq,
    hc, jump, link,
    moveFixedWidthEncoding_zero, emit, ARMv7Assembler.emit,
    ARMv7Assembler.label, ARMv7Assembler.linkJump, buffer, init,
    ResultCondition.armV7Condition, RelationalCondition.armV7Condition]
  simp [Nat.add_comm, Nat.add_left_comm]

/-- The buffer, link record and returned jump of `branchTruncateDoubleToInt32` in
the mode `BranchIfTruncateSuccessful`. -/
theorem branchTruncate_successful_eq (encodable : Nat → Bool) (src : FPRegisterID)
    (dest : RegisterID) :
    branchTruncateDoubleToInt32 encodable src dest .BranchIfTruncateSuccessful init
      = (⟨(compare32AndSetFlags encodable dataTempRegister ⟨-2⟩ init).buffer.length + 11,
          .JumpCondition, .ConditionNE⟩,
         ⟨⟨[.vcvt_floatingPointToSigned fpTempRegisterAsSingle src,
              .vmovToCore dest fpTempRegisterAsSingle,
              .add_SReg dataTempRegister dest dest]
            ++ ([.it .ConditionEQ [true, true], .movT3 dataTempRegister ⟨.TypeUInt16, 0⟩,
                .movt dataTempRegister ⟨.TypeUInt16, 0⟩, .bx dataTempRegister]
            ++ ((compare32AndSetFlags encodable dataTempRegister ⟨-2⟩ init).buffer
            ++ ([.it .ConditionNE [true, true], .movT3 dataTempRegister ⟨.TypeUInt16, 0⟩,
                .movt dataTempRegister ⟨.TypeUInt16, 0⟩, .bx dataTempRegister]
            ++ []))),
           [⟨7, (compare32AndSetFlags encodable dataTempRegister ⟨-2⟩ init).buffer.length + 11,
              .JumpCondition, .ConditionEQ⟩]⟩, false⟩) := by
  have hc := compare32AndSetFlags_eq encodable dataTempRegister ⟨-2⟩
  generalize (compare32AndSetFlags encodable dataTempRegister ⟨-2⟩ init).buffer = cmp at hc ⊢
  simp only [branchTruncateDoubleToInt32, branchAdd32, branch32Imm, makeBranch_eq,
    hc, jump, link,
    moveFixedWidthEncoding_zero, emit, ARMv7Assembler.emit,
    ARMv7Assembler.label, ARMv7Assembler.linkJump, buffer, init,
    ResultCondition.armV7Condition, RelationalCondition.armV7Condition]
  simp [Nat.add_comm, Nat.add_left_comm]

/-- Where the run of `branchTruncateDoubleToInt32` in the mode
`BranchIfTruncateFailed` ends: through the returned jump when the first branch
(on EQ after the doubling add) is taken or the second (on NE after the compare
with -2) is not, and at the end of the buffer otherwise. -/
theorem execute_branchTruncate_failed (encodable : Nat → Bool) (src : FPRegisterID)
    (dest : RegisterID) (c : CPU) :
    ((branchTruncateDoubleToInt32 encodable src dest .BranchIfTruncateFailed
        init).2.m_assembler.execute c).exited
      = (if Condition.ConditionEQ.holds
              (execSeq [.vcvt_floatingPointToSigned fpTempRegisterAsSingle src,
                .vmovToCore dest fpTempRegisterAsSingle,
                .add_SReg dataTempRegister dest dest] c).apsr = true
            ∨ Condition.ConditionNE.holds
                (subFlags ((execSeq [.vcvt_floatingPointToSigned fpTempRegisterAsSingle src,
                  .vmovToCore dest fpTempRegisterAsSingle,
                  .add_SReg dataTempRegister dest dest] c).regs dataTempRegister)
                  (toUInt32 (-2))) = false
          then some ((compare32AndSetFlags encodable dataTempRegister ⟨-2⟩ init).buffer.length
            + 14)
          else none)
    ∧ ((branchTruncateDoubleToInt32 encodable src dest .BranchIfTruncateFailed
        init).2.m_assembler.execute c).halted
        (branchTruncateDoubleToInt32 encodable src dest .BranchIfTruncateFailed
          init).2.m_assembler = true := by
  rw [branchTruncate_failed_eq]
  have hstr := compare32AndSetFlags_straight encodable dataTempRegister ⟨-2⟩
  have hfl := fun c0 => compare32AndSetFlags_flags_of_ne encodable dataTempRegister ⟨-2⟩ c0
    (by decide) (by decide)
  generalize (compare32AndSetFlags encodable dataTempRegister ⟨-2⟩ init).buffer = cmp
    at hstr hfl ⊢
  generalize hc3 : execSeq [.vcvt_floatingPointToSigned fpTempRegisterAsSingle src,
    .vmovToCore dest fpTempRegisterAsSingle, .add_SReg dataTempRegister dest dest] c = c3
  generalize ha : (⟨[.vcvt_floatingPointToSigned fpTempRegisterAsSingle src,
              .vmovToCore dest fpTempRegisterAsSingle,
              .add_SReg dataTempRegister dest dest]
            ++ ([.it .ConditionEQ [true, true], .movT3 dataTempRegister ⟨.TypeUInt16, 0⟩,
                .movt dataTempRegister ⟨.TypeUInt16, 0⟩, .bx dataTempRegister]
            ++ (cmp
            ++ ([.it .ConditionNE [true, true], .movT3 dataTempRegister ⟨.TypeUInt16, 0⟩,
                .movt dataTempRegister ⟨.TypeUInt16, 0⟩, .bx dataTempRegister]
            ++ [.movT3 dataTempRegister ⟨.TypeUInt16, 0⟩,
                .movt dataTempRegister ⟨.TypeUInt16, 0⟩, .bx dataTempRegister]))),
           [⟨7, cmp.length + 11, .JumpCondition, .ConditionEQ⟩,
            ⟨cmp.length + 11, cmp.length + 14, .JumpCondition, .ConditionNE⟩]⟩
      : ARMv7Assembler) = a
  have hlen : a.buffer.length = cmp.length + 14 := by
    rw [← ha]; simp
  have hlinks : a.m_jumpsToLink = [⟨7, cmp.length + 11, .JumpCondition, .ConditionEQ⟩,
      ⟨cmp.length + 11, cmp.length + 14, .JumpCondition, .ConditionNE⟩] := by rw [← ha]
  have hf1 : a.m_jumpsToLink.find? (fun r => r.m_from == 7)
      = some ⟨7, cmp.length + 11, .JumpCondition, .ConditionEQ⟩ := by
    rw [hlinks]; simp [List.find?]
  have hf2 : a.m_jumpsToLink.find? (fun r => r.m_from == cmp.length + 11)
      = some ⟨cmp.length + 11, cmp.length + 14, .JumpCondition, .ConditionNE⟩ := by
    rw [hlinks]
    have : (7 == cmp.length + 11) = false := by simp
    simp [List.find?, this]
  have hf3 : a.m_jumpsToLink.find? (fun r => r.m_from == cmp.length + 14) = none := by
    rw [hlinks]
    have h7 : (7 == cmp.length + 14) = false := by simp
    have h11 : (cmp.length + 11 == cmp.length + 14) = false := by simp
    simp [List.find?, h7, h11]
  have hs := run_straight a [.vcvt_floatingPointToSigned fpTempRegisterAsSingle src,
      .vmovToCore dest fpTempRegisterAsSingle, .add_SReg dataTempRegister dest dest]
      ([.it .ConditionEQ [true, true], .movT3 dataTempRegister ⟨.TypeUInt16, 0⟩,
          .movt dataTempRegister ⟨.TypeUInt16, 0⟩, .bx dataTempRegister]
        ++ (cmp
        ++ ([.it .ConditionNE [true, true], .movT3 dataTempRegister ⟨.TypeUInt16, 0⟩,
            .movt dataTempRegister ⟨.TypeUInt16, 0⟩, .bx dataTempRegister]
        ++ [.movT3 dataTempRegister ⟨.TypeUInt16, 0⟩,
            .movt dataTempRegister ⟨.TypeUInt16, 0⟩, .bx dataTempRegister]))) [] c
      (by rw [← ha]; rfl) (by simp [Instr.isStraight])
  have hb1 := run_branch_block a [.vcvt_floatingPointToSigned fpTempRegisterAsSingle src,
      .vmovToCore dest fpTempRegisterAsSingle, .add_SReg dataTempRegister dest dest]
      (cmp
        ++ ([.it .ConditionNE [true, true], .movT3 dataTempRegister ⟨.TypeUInt16, 0⟩,
            .movt dataTempRegister ⟨.TypeUInt16, 0⟩, .bx dataTempRegister]
        ++ [.movT3 dataTempRegister ⟨.TypeUInt16, 0⟩,
            .movt dataTempRegister ⟨.TypeUInt16, 0⟩, .bx dataTempRegister]))
      .ConditionEQ ⟨.TypeUInt16, 0⟩ ⟨.TypeUInt16, 0⟩ c3 (by rw [← ha])
  have hsc := fun c0 => run_straight a cmp
      ([.it .ConditionNE [true, true], .movT3 dataTempRegister ⟨.TypeUInt16, 0⟩,
          .movt dataTempRegister ⟨.TypeUInt16, 0⟩, .bx dataTempRegister]
        ++ [.movT3 dataTempRegister ⟨.TypeUInt16, 0⟩,
            .movt dataTempRegister ⟨.TypeUInt16, 0⟩, .bx dataTempRegister])
      [.vcvt_floatingPointToSigned fpTempRegisterAsSingle src,
        .vmovToCore dest fpTempRegisterAsSingle, .add_SReg dataTempRegister dest dest,
        .it .ConditionEQ [true, true], .movT3 dataTempRegister ⟨.TypeUInt16, 0⟩,
        .movt dataTempRegister ⟨.TypeUInt16, 0⟩, .bx dataTempRegister] c0
      (by rw [← ha]; rfl) hstr
  have hb2 := fun c0 => run_branch_block a
      ([.vcvt_floatingPointToSigned fpTempRegisterAsSingle src,
        .vmovToCore dest fpTempRegisterAsSingle, .add_SReg dataTempRegister dest dest,
        .it .ConditionEQ [true, true], .movT3 dataTempRegister ⟨.TypeUInt16, 0⟩,
        .movt dataTempRegister ⟨.TypeUInt16, 0⟩, .bx dataTempRegister] ++ cmp)
      [.movT3 dataTempRegister ⟨.TypeUInt16, 0⟩,
        .movt dataTempRegister ⟨.TypeUInt16, 0⟩, .bx dataTempRegister]
      .ConditionNE ⟨.TypeUInt16, 0⟩ ⟨.TypeUInt16, 0⟩ c0 (by rw [← ha]; simp)
  have hj : ∀ c0 : CPU,
      (Machine.run a 3 ⟨c0, [], cmp.length + 11, none⟩).exited = some (cmp.length + 14)
      ∧ (Machine.run a 3 ⟨c0, [], cmp.length + 11, none⟩).halted a = true := by
    intro c0
    have := run_jump_block a
      ([.vcvt_floatingPointToSigned fpTempRegisterAsSingle src,
        .vmovToCore dest fpTempRegisterAsSingle, .add_SReg dataTempRegister dest dest,
        .it .ConditionEQ [true, true], .movT3 dataTempRegister ⟨.TypeUInt16, 0⟩,
        .movt dataTempRegister ⟨.TypeUInt16, 0⟩, .bx dataTempRegister] ++ (cmp
        ++ [.it .ConditionNE [true, true], .movT3 dataTempRegister ⟨.TypeUInt16, 0⟩,
            .movt dataTempRegister ⟨.TypeUInt16, 0⟩, .bx dataTempRegister])) []
      ⟨.TypeUInt16, 0⟩ ⟨.TypeUInt16, 0⟩ c0 (by rw [← ha]; simp)
    have e : ([Instr.vcvt_floatingPointToSigned fpTempRegisterAsSingle src,
        .vmovToCore dest fpTempRegisterAsSingle, .add_SReg dataTempRegister dest dest,
        .it .ConditionEQ [true, true], .movT3 dataTempRegister ⟨.TypeUInt16, 0⟩,
        .movt dataTempRegister ⟨.TypeUInt16, 0⟩, .bx dataTempRegister] ++ (cmp
        ++ [Instr.it .ConditionNE [true, true], .movT3 dataTempRegister ⟨.TypeUInt16, 0⟩,
            .movt dataTempRegister ⟨.TypeUInt16, 0⟩, .bx dataTempRegister])).length
        = cmp.length + 11 := by simp
    rw [e, show cmp.length + 11 + 3 = cmp.length + 14 from rfl, hf3] at this
    rw [this]
    exact ⟨rfl, rfl⟩
  have e7 : ([Instr.vcvt_floatingPointToSigned fpTempRegisterAsSingle src,
        .vmovToCore dest fpTempRegisterAsSingle, .add_SReg dataTempRegister dest dest,
        Instr.it .ConditionEQ [true, true], .movT3 dataTempRegister ⟨.TypeUInt16, 0⟩,
        .movt dataTempRegister ⟨.TypeUInt16, 0⟩, .bx dataTempRegister]).length = 7 := rfl
  have e7c : ([Instr.vcvt_floatingPointToSigned fpTempRegisterAsSingle src,
        .vmovToCore dest fpTempRegisterAsSingle, .add_SReg dataTempRegister dest dest,
        Instr.it .ConditionEQ [true, true], .movT3 dataTempRegister ⟨.TypeUInt16, 0⟩,
        .movt dataTempRegister ⟨.TypeUInt16, 0⟩, .bx dataTempRegister] ++ cmp).length
        = 7 + cmp.length := by simp; omega
  have e3 : ([Instr.vcvt_floatingPointToSigned fpTempRegisterAsSingle src,
        .vmovToCore dest fpTempRegisterAsSingle,
        Instr.add_SReg dataTempRegister dest dest]).length = 3 := rfl
  rw [e7] at hsc
  simp only [e7c, show 7 + cmp.length + 4 = cmp.length + 11 by omega, hf2] at hb2
  rw [e3, hc3] at hs
  rw [e3, show (3 : Nat) + 4 = 7 from rfl, hf1] at hb1
  simp only [List.length_nil, Nat.zero_add] at hs
  simp only [ARMv7Assembler.execute, Machine.boot, hlen]
  by_cases hz : Condition.ConditionEQ.holds c3.apsr = true
  · rw [if_pos hz] at hb1
    rw [if_pos (Or.inl hz), show cmp.length + 14 = 3 + (4 + (3 + (cmp.length + 4))) by omega,
      run_add, run_add, run_add, hs, hb1, run_halted _ _ _ (hj _).2]
    exact ⟨(hj _).1.trans (by congr 1; omega), (hj _).2⟩
  · rw [if_neg hz] at hb1
    have hcflags := hfl c3
    by_cases hn : Condition.ConditionNE.holds
        (subFlags (c3.regs dataTempRegister) (toUInt32 (-2))) = true
    · have hb2' := hb2 (execSeq cmp c3)
      rw [hcflags, if_pos hn] at hb2'
      have hcond : ¬ (Condition.ConditionEQ.holds c3.apsr = true
          ∨ Condition.ConditionNE.holds
              (subFlags (c3.regs dataTempRegister) (toUInt32 (-2))) = false) := by
        rintro (h | h)
        · exact hz h
        · rw [hn] at h; exact Bool.noConfusion h
      rw [if_neg hcond, show cmp.length + 14 = 3 + (4 + (cmp.length + (4 + 3))) by omega,
        run_add, run_add, run_add, run_add, hs, hb1, hsc, hb2',
        run_halted _ _ _ (by simp [Machine.halted, hlen])]
      simp [Machine.halted, hlen]
    · have hn' : Condition.ConditionNE.holds
          (subFlags (c3.regs dataTempRegister) (toUInt32 (-2))) = false := by
        simpa using hn
      have hb2' := hb2 (execSeq cmp c3)
      rw [hcflags, if_neg hn] at hb2'
      rw [if_pos (Or.inr hn'), show cmp.length + 14 = 3 + (4 + (cmp.length + (4 + 3))) by omega,
        run_add, run_add, run_add, run_add, hs, hb1, hsc, hb2']
      exact ⟨(hj _).1.trans (by congr 1; omega), (hj _).2⟩

/-- Where the run of `branchTruncateDoubleToInt32` in the mode
`BranchIfTruncateSuccessful` ends: through the returned jump when the first branch
(on EQ after the doubling add) is not taken and the second (on NE after the
compare with -2) is, and at the end of the buffer otherwise. -/
theorem execute_branchTruncate_successful (encodable : Nat → Bool) (src : FPRegisterID)
    (dest : RegisterID) (c : CPU) :
    ((branchTruncateDoubleToInt32 encodable src dest .BranchIfTruncateSuccessful
        init).2.m_assembler.execute c).exited
      = (if Condition.ConditionEQ.holds
              (execSeq [.vcvt_floatingPointToSigned fpTempRegisterAsSingle src,
                .vmovToCore dest fpTempRegisterAsSingle,
                .add_SReg dataTempRegister dest dest] c).apsr = true
            ∨ Condition.ConditionNE.holds
                (subFlags ((execSeq [.vcvt_floatingPointToSigned fpTempRegisterAsSingle src,
                  .vmovToCore dest fpTempRegisterAsSingle,
                  .add_SReg dataTempRegister dest dest] c).regs dataTempRegister)
                  (toUInt32 (-2))) = false
          then none
          else some ((compare32AndSetFlags encodable dataTempRegister ⟨-2⟩ init).buffer.length
            + 11))
    ∧ ((branchTruncateDoubleToInt32 encodable src dest .BranchIfTruncateSuccessful
        init).2.m_assembler.execute c).halted
        (branchTruncateDoubleToInt32 encodable src dest .BranchIfTruncateSuccessful
          init).2.m_assembler = true := by
  rw [branchTruncate_successful_eq]
  have hstr := compare32AndSetFlags_straight encodable dataTempRegister ⟨-2⟩
  have hfl := fun c0 => compare32AndSetFlags_flags_of_ne encodable dataTempRegister ⟨-2⟩ c0
    (by decide) (by decide)
  generalize (compare32AndSetFlags encodable dataTempRegister ⟨-2⟩ init).buffer = cmp
    at hstr hfl ⊢
  generalize hc3 : execSeq [.vcvt_floatingPointToSigned fpTempRegisterAsSingle src,
    .vmovToCore dest fpTempRegisterAsSingle, .add_SReg dataTempRegister dest dest] c = c3
  generalize ha : (⟨[.vcvt_floatingPointToSigned fpTempRegisterAsSingle src,
              .vmovToCore dest fpTempRegisterAsSingle,
              .add_SReg dataTempRegister dest dest]
            ++ ([.it .ConditionEQ [true, true], .movT3 dataTempRegister ⟨.TypeUInt16, 0⟩,
                .movt dataTempRegister ⟨.TypeUInt16, 0⟩, .bx dataTempRegister]
            ++ (cmp
            ++ ([.it .ConditionNE [true, true], .movT3 dataTempRegister ⟨.TypeUInt16, 0⟩,
                .movt dataTempRegister ⟨.TypeUInt16, 0⟩, .bx dataTempRegister]
            ++ []))),
           [⟨7, cmp.length + 11, .JumpCondition, .ConditionEQ⟩]⟩
      : ARMv7Assembler) = a
  have hlen : a.buffer.length = cmp.length + 11 := by
    rw [← ha]; simp
  have hlinks : a.m_jumpsToLink = [⟨7, cmp.length + 11, .JumpCondition, .ConditionEQ⟩] := by
    rw [← ha]
  have hf1 : a.m_jumpsToLink.find? (fun r => r.m_from == 7)
      = some ⟨7, cmp.length + 11, .JumpCondition, .ConditionEQ⟩ := by
    rw [hlinks]; simp [List.find?]
  have hf2 : a.m_jumpsToLink.find? (fun r => r.m_from == cmp.length + 11) = none := by
    rw [hlinks]
    have : (7 == cmp.length + 11) = false := by simp
    simp [List.find?, this]
  have hs := run_straight a [.vcvt_floatingPointToSigned fpTempRegisterAsSingle src,
      .vmovToCore dest fpTempRegisterAsSingle, .add_SReg dataTempRegister dest dest]
      ([.it .ConditionEQ [true, true], .movT3 dataTempRegister ⟨.TypeUInt16, 0⟩,
          .movt dataTempRegister ⟨.TypeUInt16, 0⟩, .bx dataTempRegister]
        ++ (cmp
        ++ ([.it .ConditionNE [true, true], .movT3 dataTempRegister ⟨.TypeUInt16, 0⟩,
            .movt dataTempRegister ⟨.TypeUInt16, 0⟩, .bx dataTempRegister]
        ++ []))) [] c
      (by rw [← ha]; rfl) (by simp [Instr.isStraight])
  have hb1 := run_branch_block a [.vcvt_floatingPointToSigned fpTempRegisterAsSingle src,
      .vmovToCore dest fpTempRegisterAsSingle, .add_SReg dataTempRegister dest dest]
      (cmp
        ++ ([.it .ConditionNE [true, true], .movT3 dataTempRegister ⟨.TypeUInt16, 0⟩,
            .movt dataTempRegister ⟨.TypeUInt16, 0⟩, .bx dataTempRegister]
        ++ []))
      .ConditionEQ ⟨.TypeUInt16, 0⟩ ⟨.TypeUInt16, 0⟩ c3 (by rw [← ha])
  have hsc := fun c0 => run_straight a cmp
      ([.it .ConditionNE [true, true], .movT3 dataTempRegister ⟨.TypeUInt16, 0⟩,
          .movt dataTempRegister ⟨.TypeUInt16, 0⟩, .bx dataTempRegister]
        ++ [])
      [.vcvt_floatingPointToSigned fpTempRegisterAsSingle src,
        .vmovToCore dest fpTempRegisterAsSingle, .add_SReg dataTempRegister dest dest,
        .it .ConditionEQ [true, true], .movT3 dataTempRegister ⟨.TypeUInt16, 0⟩,
        .movt dataTempRegister ⟨.TypeUInt16, 0⟩, .bx dataTempRegister] c0
      (by rw [← ha]; rfl) hstr
  have hb2 := fun c0 => run_branch_block a
      ([.vcvt_floatingPointToSigned fpTempRegisterAsSingle src,
        .vmovToCore dest fpTempRegisterAsSingle, .add_SReg dataTempRegister dest dest,
        .it .ConditionEQ [true, true], .movT3 dataTempRegister ⟨.TypeUInt16, 0⟩,
        .movt dataTempRegister ⟨.TypeUInt16, 0⟩, .bx dataTempRegister] ++ cmp)
      []
      .ConditionNE ⟨.TypeUInt16, 0⟩ ⟨.TypeUInt16, 0⟩ c0 (by rw [← ha]; simp)
  have e7 : ([Instr.vcvt_floatingPointToSigned fpTempRegisterAsSingle src,
        .vmovToCore dest fpTempRegisterAsSingle, .add_SReg dataTempRegister dest dest,
        Instr.it .ConditionEQ [true, true], .movT3 dataTempRegister ⟨.TypeUInt16, 0⟩,
        .movt dataTempRegister ⟨.TypeUInt16, 0⟩, .bx dataTempRegister]).length = 7 := rfl
  have e7c : ([Instr.vcvt_floatingPointToSigned fpTempRegisterAsSingle src,
        .vmovToCore dest fpTempRegisterAsSingle, .add_SReg dataTempRegister dest dest,
        Instr.it .ConditionEQ [true, true], .movT3 dataTempRegister ⟨.TypeUInt16, 0⟩,
        .movt dataTempRegister ⟨.TypeUInt16, 0⟩, .bx dataTempRegister] ++ cmp).length
        = 7 + cmp.length := by simp; omega
  have e3 : ([Instr.vcvt_floatingPointToSigned fpTempRegisterAsSingle src,
        .vmovToCore dest fpTempRegisterAsSingle,
        Instr.add_SReg dataTempRegister dest dest]).length = 3 := rfl
  rw [e7] at hsc
  simp only [e7c, show 7 + cmp.length + 4 = cmp.length + 11 by omega, hf2] at hb2
  rw [e3, hc3] at hs
  rw [e3, show (3 : Nat) + 4 = 7 from rfl, hf1] at hb1
  simp only [List.length_nil, Nat.zero_add] at hs
  simp only [ARMv7Assembler.execute, Machine.boot, hlen]
  by_cases hz : Condition.ConditionEQ.holds c3.apsr = true
  · rw [if_pos hz] at hb1
    rw [if_pos (Or.inl hz), show cmp.length + 11 = 3 + (4 + (cmp.length + 4)) by omega,
      run_add, run_add, hs, hb1, run_halted _ _ _ (by simp [Machine.halted, hlen])]
    simp [Machine.halted, hlen]
  · rw [if_neg hz] at hb1
    have hcflags := hfl c3
    by_cases hn : Condition.ConditionNE.holds
        (subFlags (c3.regs dataTempRegister) (toUInt32 (-2))) = true
    · have hb2' := hb2 (execSeq cmp c3)
      rw [hcflags, if_pos hn] at hb2'
      have hcond : ¬ (Condition.ConditionEQ.holds c3.apsr = true
          ∨ Condition.ConditionNE.holds
              (subFlags (c3.regs dataTempRegister) (toUInt32 (-2))) = false) := by
        rintro (h | h)
        · exact hz h
        · rw [hn] at h; exact Bool.noConfusion h
      rw [if_neg hcond, show cmp.length + 11 = 3 + (4 + (cmp.length + 4)) by omega,
        run_add, run_add, run_add, hs, hb1, hsc, hb2']
      refine ⟨?_, ?_⟩
      · show some (cmp.length + 11) = some (3 + (4 + (cmp.length + 4)))
        congr 1; omega
      · simp [Machine.halted]
    · have hn' : Condition.ConditionNE.holds
          (subFlags (c3.regs dataTempRegister) (toUInt32 (-2))) = false := by
        simpa using hn
      have hb2' := hb2 (execSeq cmp c3)
      rw [hcflags, if_neg hn] at hb2'
      rw [if_pos (Or.inr hn'), show cmp.length + 11 = 3 + (4 + (cmp.length + 4)) by omega,
        run_add, run_add, run_add, hs, hb1, hsc, hb2']
      simp [Machine.halted, hlen]

/-- After the conversion and the doubling add of `branchTruncateDoubleToInt32`,
`dataTempRegister` holds twice the converted integer and the flags are those of
that addition. -/
theorem execSeq_truncate_head (src : FPRegisterID) (dest : RegisterID) (c : CPU) :
    (execSeq [.vcvt_floatingPointToSigned fpTempRegisterAsSingle src,
        .vmovToCore dest fpTempRegisterAsSingle] c).regs dest = doubleToInt32 (c.fpr src)
    ∧ (execSeq [.vcvt_floatingPointToSigned fpTempRegisterAsSingle src,
        .vmovToCore dest fpTempRegisterAsSingle,
        .add_SReg dataTempRegister dest dest] c).regs dataTempRegister
        = 2 * doubleToInt32 (c.fpr src) % 4294967296
    ∧ (execSeq [.vcvt_floatingPointToSigned fpTempRegisterAsSingle src,
        .vmovToCore dest fpTempRegisterAsSingle,
        .add_SReg dataTempRegister dest dest] c).apsr
        = addFlags (doubleToInt32 (c.fpr src)) (doubleToInt32 (c.fpr src)) := by
  have hd := doubleToInt32_lt (c.fpr src)
  have hr : (CPU.setSingle c fpTempRegisterAsSingle (doubleToInt32 (c.fpr src))).readSingle
      fpTempRegisterAsSingle = doubleToInt32 (c.fpr src) := by
    simp only [CPU.readSingle, CPU.setSingle, CPU.setDouble, fpTempRegisterAsSingle,
      fpTempRegister, ARMRegisters.asSingle]
    simp
    omega
  simp only [execSeq, List.foldl_cons, List.foldl_nil, Instr.exec, hr]
  refine ⟨?_, ?_, ?_⟩
  · simp [CPU.setReg]; omega
  · simp [CPU.setReg]; omega
  · simp only [CPU.setReg, if_true]
    rw [Nat.mod_eq_of_lt hd]

/-- The zero flag of the doubling add and of the compare with -2, in terms of the
converted integer. -/
theorem truncate_flags (d : Nat) :
    (Condition.ConditionEQ.holds (addFlags d d) = true ↔ 2 * d % 4294967296 = 0)
    ∧ (Condition.ConditionNE.holds (subFlags (2 * d % 4294967296) (toUInt32 (-2))) = false
        ↔ 2 * d % 4294967296 = 4294967294) := by
  have h2 : toUInt32 (-2) = 4294967294 := by decide
  rw [h2]
  simp only [Condition.holds, addFlags, subFlags]
  constructor
  · simp; omega
  · simp; omega

/-- The four integers whose double is 0 or `0xFFFFFFFE` modulo `2^32`. -/
theorem truncate_failure_set (d : Nat) (hd : d < 4294967296) :
    (2 * d % 4294967296 = 0 ∨ 2 * d % 4294967296 = 4294967294)
      ↔ (d = 0 ∨ d = 2147483648 ∨ d = 2147483647 ∨ d = 4294967295) := by
  omega

/-- C36: the conversion of `branchTruncateDoubleToInt32` places the integer
`d = doubleToInt32 (c.fpr src)` in `dest`; the run of either mode ends; with
`BranchIfTruncateFailed` the returned jump is taken if and only if `2 * d` modulo
`2^32` is 0 or `0xFFFFFFFE`, that is `d` is one of 0, `0x80000000`, `0x7FFFFFFF`,
`0xFFFFFFFF`; with `BranchIfTruncateSuccessful` the returned jump is taken if and
only if `d` is outside that set; so exactly one of the two modes takes its jump. -/
theorem branchTruncateDoubleToInt32_taken (encodable : Nat → Bool) (src : FPRegisterID)
    (dest : RegisterID) (c : CPU) :
    (execSeq [.vcvt_floatingPointToSigned fpTempRegisterAsSingle src,
        .vmovToCore dest fpTempRegisterAsSingle] c).regs dest = doubleToInt32 (c.fpr src)
    ∧ ((branchTruncateDoubleToInt32 encodable src dest .BranchIfTruncateFailed
          init).2.m_assembler.execute c).halted
        (branchTruncateDoubleToInt32 encodable src dest .BranchIfTruncateFailed
          init).2.m_assembler = true
    ∧ ((branchTruncateDoubleToInt32 encodable src dest .BranchIfTruncateSuccessful
          init).2.m_assembler.execute c).halted
        (branchTruncateDoubleToInt32 encodable src dest .BranchIfTruncateSuccessful
          init).2.m_assembler = true
    ∧ ((branchTruncateDoubleToInt32 encodable src dest .BranchIfTruncateFailed init).1.taken
          ((branchTruncateDoubleToInt32 encodable src dest .BranchIfTruncateFailed
            init).2.m_assembler.execute c)
        ↔ (2 * doubleToInt32 (c.fpr src) % 4294967296 = 0
            ∨ 2 * doubleToInt32 (c.fpr src) % 4294967296 = 0xFFFFFFFE))
    ∧ ((2 * doubleToInt32 (c.fpr src) % 4294967296 = 0
            ∨ 2 * doubleToInt32 (c.fpr src) % 4294967296 = 0xFFFFFFFE)
        ↔ (doubleToInt32 (c.fpr src) = 0 ∨ doubleToInt32 (c.fpr src) = 0x80000000
            ∨ doubleToInt32 (c.fpr src) = 0x7FFFFFFF
            ∨ doubleToInt32 (c.fpr src) = 0xFFFFFFFF))
    ∧ ((branchTruncateDoubleToInt32 encodable src dest .BranchIfTruncateSuccessful
          init).1.taken
          ((branchTruncateDoubleToInt32 encodable src dest .BranchIfTruncateSuccessful
            init).2.m_assembler.execute c)
        ↔ ¬ (doubleToInt32 (c.fpr src) = 0 ∨ doubleToInt32 (c.fpr src) = 0x80000000
            ∨ doubleToInt32 (c.fpr src) = 0x7FFFFFFF
            ∨ doubleToInt32 (c.fpr src) = 0xFFFFFFFF))
    ∧ ((branchTruncateDoubleToInt32 encodable src dest .BranchIfTruncateFailed init).1.taken
          ((branchTruncateDoubleToInt32 encodable src dest .BranchIfTruncateFailed
            init).2.m_assembler.execute c)
        ↔ ¬ (branchTruncateDoubleToInt32 encodable src dest .BranchIfTruncateSuccessful
              init).1.taken
            ((branchTruncateDoubleToInt32 encodable src dest .BranchIfTruncateSuccessful
              init).2.m_assembler.execute c)) := by
  obtain ⟨hf, hfh⟩ := execute_branchTruncate_failed encodable src dest c
  obtain ⟨hs, hsh⟩ := execute_branchTruncate_successful encodable src dest c
  obtain ⟨hd, hip, hfl⟩ := execSeq_truncate_head src dest c
  have hlt := doubleToInt32_lt (c.fpr src)
  have hset := truncate_failure_set (doubleToInt32 (c.fpr src)) hlt
  obtain ⟨hz, hn⟩ := truncate_flags (doubleToInt32 (c.fpr src))
  rw [hip, hfl] at hf hs
  have hcond : (Condition.ConditionEQ.holds
        (addFlags (doubleToInt32 (c.fpr src)) (doubleToInt32 (c.fpr src))) = true
      ∨ Condition.ConditionNE.holds
          (subFlags (2 * doubleToInt32 (c.fpr src) % 4294967296) (toUInt32 (-2))) = false)
      ↔ (2 * doubleToInt32 (c.fpr src) % 4294967296 = 0
          ∨ 2 * doubleToInt32 (c.fpr src) % 4294967296 = 4294967294) := by
    rw [hz, hn]
  have hft : (branchTruncateDoubleToInt32 encodable src dest .BranchIfTruncateFailed
        init).1.taken
        ((branchTruncateDoubleToInt32 encodable src dest .BranchIfTruncateFailed
          init).2.m_assembler.execute c)
      ↔ (2 * doubleToInt32 (c.fpr src) % 4294967296 = 0
          ∨ 2 * doubleToInt32 (c.fpr src) % 4294967296 = 4294967294) := by
    unfold Jump.taken
    rw [hf, branchTruncate_failed_eq, ← hcond]
    constructor
    · intro h
      by_contra hc
      rw [if_neg hc] at h
      exact Option.noConfusion h
    · intro h
      rw [if_pos h]
  have hst : (branchTruncateDoubleToInt32 encodable src dest .BranchIfTruncateSuccessful
        init).1.taken
        ((branchTruncateDoubleToInt32 encodable src dest .BranchIfTruncateSuccessful
          init).2.m_assembler.execute c)
      ↔ ¬ (2 * doubleToInt32 (c.fpr src) % 4294967296 = 0
          ∨ 2 * doubleToInt32 (c.fpr src) % 4294967296 = 4294967294) := by
    unfold Jump.taken
    rw [hs, branchTruncate_successful_eq, ← hcond]
    constructor
    · intro h hc
      rw [if_pos hc] at h
      exact Option.noConfusion h
    · intro h
      rw [if_neg h]
  refine ⟨hd, hfh, hsh, hft, hset, ?_, ?_⟩
  · rw [hst, hset]
  · rw [hft, hst, not_not]

end JSC
